import Mathlib

/-!
# gopush: the Push interpreter

A shallow embedding of `gopush.go`, `stack.go` and `stack_integer.go`.

* Go strings are lists of characters (`GoString`).
* `int64` values are integers, every arithmetic result reduced by `wrap64`.
* A stack is the Go slice, bottom first: `Push` appends at the end.
* `Interpreter.Stacks` and `Interpreter.Definitions` are Go maps, embedded as
  functions into `Option`; looking up a missing stack yields the nil pointer,
  and every method call through it panics.
* A panic keeps the mutations made before it, so actions return the state they
  reached together with either a value or the panic.
* The instruction closures of a stack are looked up by the stack's name; the
  registries built outside the three embedded files are a parameter (`Lib`),
  as are the standard-library routines `strconv.ParseFloat`,
  `unicode.ToLower`, the conversion `int64(f)` and `rand.Int63n`.
* `Options.Tracing` only prints, and is not embedded in the loop.
-/

namespace GoPush

/-- A Go string, as the list of its characters. -/
abbrev GoString := List Char

/-- A `float64`, by its IEEE-754 bit pattern. No float arithmetic is embedded. -/
structure Float64 where
  bits : Nat
  deriving DecidableEq, Repr

/-- Modelled from the spec: the declaration of the type `Code` is not among the
embedded files. A program tree has the fields `runCode` and `integer.define`
use: `Length`, `Literal` and `List` (here `Elems`). A tree with an empty
`Literal` is a composite; any other tree is an atomic token. -/
inductive Code where
  | mk (Length : Int) (Literal : GoString) (Elems : List Code)

/-- Field `Literal` of a program tree. -/
def Code.Literal : Code → GoString
  | .mk _ l _ => l

/-- Field `List` of a program tree. -/
def Code.Elems : Code → List Code
  | .mk _ _ cs => cs

/-- Field `Length` of a program tree. -/
def Code.Length : Code → Int
  | .mk n _ _ => n

/-- The atomic token `Code{Length: 1, Literal: s}`. -/
def Code.atom (s : GoString) : Code := .mk 1 s []

mutual
/-- Equality of program trees is decidable. -/
def Code.decEq : (a b : Code) → Decidable (a = b)
  | .mk n l cs, .mk n1 l1 cs1 =>
    if h1 : n = n1 then
      if h2 : l = l1 then
        match Code.decEqList cs cs1 with
        | isTrue h3 => isTrue (by rw [h1, h2, h3])
        | isFalse h3 => isFalse (fun h => h3 (by cases h; rfl))
      else isFalse (fun h => h2 (by cases h; rfl))
    else isFalse (fun h => h1 (by cases h; rfl))
/-- Equality of lists of program trees is decidable. -/
def Code.decEqList : (as bs : List Code) → Decidable (as = bs)
  | [], [] => isTrue rfl
  | [], _ :: _ => isFalse (by simp)
  | _ :: _, [] => isFalse (by simp)
  | a :: as, b :: bs =>
    match Code.decEq a b with
    | isTrue h1 =>
      match Code.decEqList as bs with
      | isTrue h2 => isTrue (by rw [h1, h2])
      | isFalse h2 => isFalse (fun h => h2 (by cases h; rfl))
    | isFalse h1 => isFalse (fun h => h1 (by cases h; rfl))
end

instance : DecidableEq Code := Code.decEq

/-- A stack item, `interface{}` in the source: the dynamic types that occur,
and `empty` for the sentinel `struct{}{}` that `Peek` and `Pop` return on an
empty stack. -/
inductive Value where
  | int (v : Int)
  | float (f : Float64)
  | bool (b : Bool)
  | str (s : GoString)
  | code (c : Code)
  | empty
  deriving DecidableEq

/-- The payload of a Go panic: a runtime error (failed type assertions, nil
dereferences, divisions by zero), which implements `error`, or a string
passed to `panic`. -/
inductive Panic where
  | runtimeError (msg : GoString)
  | other (msg : GoString)
  deriving DecidableEq, Repr

/-! ## Machine integers and the strconv routines -/

/-- Reduction of an integer to the `int64` range (two's complement). -/
def wrap64 (x : Int) : Int := (x + 2 ^ 63) % 2 ^ 64 - 2 ^ 63

/-- The `int64` range. -/
def isInt64 (x : Int) : Prop := -(2 ^ 63) ≤ x ∧ x < 2 ^ 63

instance (x : Int) : Decidable (isInt64 x) := by unfold isInt64; infer_instance

/-- The value of a decimal digit. -/
def digitVal (c : Char) : Option Nat :=
  if '0' ≤ c ∧ c ≤ '9' then some (c.toNat - '0'.toNat) else none

/-- The digit loop of `strconv.ParseUint(s, 10, 64)`, without the range check
(which `ParseInt` repeats with a tighter bound). -/
def parseDigits : Nat → GoString → Option Nat
  | acc, [] => some acc
  | acc, c :: cs =>
    match digitVal c with
    | some d => parseDigits (acc * 10 + d) cs
    | none => none

/-- `strconv.ParseUint(s, 10, 64)` up to the range check: the empty string
and any character that is not a decimal digit are syntax errors. -/
def ParseUint (s : GoString) : Option Nat :=
  if s = [] then none else parseDigits 0 s

/-- `strconv.ParseInt(s, 10, 64)`, `none` when it returns an error: an
optional sign, then at least one decimal digit, the value within `int64`. -/
def ParseInt (s : GoString) : Option Int :=
  match s with
  | [] => none
  | c :: rest =>
    let neg : Bool := c = '-'
    let body : GoString := if c = '+' ∨ c = '-' then rest else s
    match ParseUint body with
    | none => none
    | some un =>
      if !neg ∧ un ≥ 2 ^ 63 then none
      else if neg ∧ un > 2 ^ 63 then none
      else some (if neg then -(un : Int) else (un : Int))

/-- `strconv.ParseBool`, `none` when it returns an error. -/
def ParseBool (s : GoString) : Option Bool :=
  if s = "1".toList ∨ s = "t".toList ∨ s = "T".toList ∨ s = "TRUE".toList
      ∨ s = "true".toList ∨ s = "True".toList then some true
  else if s = "0".toList ∨ s = "f".toList ∨ s = "F".toList ∨ s = "FALSE".toList
      ∨ s = "false".toList ∨ s = "False".toList then some false
  else none

/-- `fmt.Sprint` of an `int64`: the decimal digits, after a minus sign for a
negative value. -/
def Sprint (v : Int) : GoString :=
  if v < 0 then '-' :: Nat.toDigits 10 v.natAbs else Nat.toDigits 10 v.toNat

/-- `strings.Contains(s, ".")`. -/
def containsDot (s : GoString) : Bool := s.contains '.'

/-- `s[:strings.Index(s, ".")]`, for a string that contains a dot. -/
def beforeDot (s : GoString) : GoString := s.takeWhile (fun c => c != '.')

/-- `s[strings.Index(s, ".")+1:]`, for a string that contains a dot. -/
def afterDot (s : GoString) : GoString := (s.dropWhile (fun c => c != '.')).drop 1

/-! ## stack.go -/

/-- The struct `Stack`: its slice, field `Stack` in the source (here `Items`,
the name of the type being taken). The `Functions` registry of the source is
looked up by the name of the stack (see `Functions` below). -/
structure Stack where
  Items : List Value
  deriving DecidableEq

namespace Stack

/-- `func (s Stack) Peek() interface{}`. -/
def Peek (s : Stack) : Value :=
  match s.Items.getLast? with
  | none => Value.empty
  | some v => v

/-- `func (s *Stack) Push(lit interface{})`. -/
def Push (s : Stack) (lit : Value) : Stack := ⟨s.Items ++ [lit]⟩

/-- `func (s *Stack) Pop() (item interface{})`: the item and the new stack. -/
def Pop (s : Stack) : Value × Stack :=
  match s.Items.getLast? with
  | none => (Value.empty, s)
  | some v => (v, ⟨s.Items.dropLast⟩)

/-- `func (s Stack) Len() int64`. -/
def Len (s : Stack) : Int := (s.Items.length : Int)

/-- `func (s *Stack) Dup()`. -/
def Dup (s : Stack) : Stack :=
  if s.Items.length = 0 then s else s.Push s.Peek

/-- `func (s *Stack) Swap()`. -/
def Swap (s : Stack) : Stack :=
  if s.Items.length < 2 then s
  else
    let (i1, s1) := s.Pop
    let (i2, s2) := s1.Pop
    (s2.Push i1).Push i2

/-- `func (s *Stack) Flush()`. -/
def Flush (_s : Stack) : Stack := ⟨[]⟩

/-- `func (s *Stack) Rot()`. -/
def Rot (s : Stack) : Stack :=
  if s.Items.length < 3 then s
  else
    let (i1, s1) := s.Pop
    let (i2, s2) := s1.Pop
    let (i3, s3) := s2.Pop
    ((s3.Push i2).Push i1).Push i3

/-- `func (s *Stack) Shove(item interface{}, idx int64)`: the body is a
`TODO` comment. -/
def Shove (s : Stack) (_item : Value) (_idx : Int) : Stack := s

/-- `func (s *Stack) Yank(idx int64)`: the body is a `TODO` comment. -/
def Yank (s : Stack) (_idx : Int) : Stack := s

/-- `func (s *Stack) YankDup(idx int64)`: the body is a `TODO` comment. -/
def YankDup (s : Stack) (_idx : Int) : Stack := s

end Stack

/-! ## gopush.go: the interpreter state -/

/-- The keys under which `NewInterpreter` stores the six stacks. -/
def Key.integer : GoString := "integer".toList

/-- The key `"float"`. -/
def Key.float : GoString := "float".toList

/-- The key `"exec"`. -/
def Key.exec : GoString := "exec".toList

/-- The key `"code"`. -/
def Key.code : GoString := "code".toList

/-- The key `"name"`. -/
def Key.name : GoString := "name".toList

/-- The key `"boolean"`. -/
def Key.boolean : GoString := "boolean".toList

/-- The struct `Options`. -/
structure Options where
  TopLevelPushCode : Bool
  TopLevelPopCode : Bool
  EvalPushLimit : Int
  NewERCNameProbabilty : Float64
  MaxPointsInProgram : Int
  MaxPointsInRandomExpression : Int
  MaxRandomFloat : Float64
  MinRandomFloat : Float64
  MaxRandomInteger : Int
  MinRandomInteger : Int
  Tracing : Bool
  RandomSeed : Int

/-- The generator behind `*rand.Rand`, by its internal state. -/
structure Rand where
  state : Nat
  deriving DecidableEq, Repr

/-- The struct `Interpreter`. The two maps are functions into `Option`:
`none` is a missing key. -/
structure Interpreter where
  Stacks : GoString → Option Stack
  Options : Options
  Rand : Rand
  Definitions : GoString → Option Code
  numEvalPush : Int
  quoteNextName : Bool

/-- An action on the interpreter: the state it reaches, and the value it
returns or the panic it raises there. -/
def Act (α : Type) : Type := Interpreter → Interpreter × Except Panic α

/-- Return a value without touching the state. -/
def Act.pure {α : Type} (a : α) : Act α := fun i => (i, .ok a)

/-- Run `m`, then `f` on its value; a panic of `m` ends the action in the
state `m` reached. -/
def Act.bind {α β : Type} (m : Act α) (f : α → Act β) : Act β := fun i =>
  match m i with
  | (i1, .ok a) => f a i1
  | (i1, .error p) => (i1, .error p)

instance : Monad Act where
  pure := Act.pure
  bind := Act.bind

/-- Raise a panic. -/
def Act.panic {α : Type} (p : Panic) : Act α := fun i => (i, .error p)

/-- The standard-library routines and the instruction registries that the
embedded files call but do not contain. -/
structure Lib where
  /-- `strconv.ParseFloat(s, 64)`, `none` when it returns an error. -/
  ParseFloat : GoString → Option Float64
  /-- `unicode.ToLower` on the characters outside ASCII. -/
  ToLowerRune : Char → Char
  /-- The conversion `int64(f)` of a `float64`. -/
  Float64ToInt64 : Float64 → Int
  /-- `(*rand.Rand).Int63n(n)` for `n > 0`: the number drawn and the next
  generator state. -/
  Int63n : Rand → Int → Int × Rand
  /-- The `Functions` maps of the stacks other than `integer`, by stack name
  and instruction name. -/
  Functions : GoString → GoString → Option (Act Unit)

/-- `strings.ToLower`: ASCII letters are lowered as such, any other character
by `unicode.ToLower`. -/
def ToLower (L : Lib) (s : GoString) : GoString :=
  s.map (fun c => if c.toNat < 128 then c.toLower else L.ToLowerRune c)

/-- The runtime error of a method call through a nil `*Stack`. -/
def nilDereference : Panic :=
  .runtimeError "runtime error: invalid memory address or nil pointer dereference".toList

/-- The name the runtime prints for the dynamic type of a value held in an
`interface{}`. -/
def Value.typeName : Value → GoString
  | .int _ => "int64".toList
  | .float _ => "float64".toList
  | .bool _ => "bool".toList
  | .str _ => "string".toList
  | .code _ => "gopush.Code".toList
  | .empty => "struct \x7b\x7d".toList

/-- The runtime error of a failed type assertion `x.(T)` on an `interface{}`
that holds `v`, for `T` printed as `target`. -/
def interfaceConversion (v : Value) (target : GoString) : Panic :=
  .runtimeError ("interface conversion: interface \x7b\x7d is ".toList ++ v.typeName
    ++ ", not ".toList ++ target)

/-- Assignment to the slice of the stack called `name`. -/
def Interpreter.setStack (i : Interpreter) (name : GoString) (s : Stack) : Interpreter :=
  { i with Stacks := fun n => if n = name then some s else i.Stacks n }

/-- The statement `i.numEvalPush++`. -/
def Interpreter.incr (i : Interpreter) : Interpreter :=
  { i with numEvalPush := i.numEvalPush + 1 }

/-- The statement `i.quoteNextName = false`. -/
def Interpreter.clearQuote (i : Interpreter) : Interpreter :=
  { i with quoteNextName := false }

/-- `func (i *Interpreter) stackOK(name string, mindepth int64) bool`
(spelled `StackOK` at its call sites in `stack_integer.go`). -/
def Interpreter.stackOK (i : Interpreter) (name : GoString) (mindepth : Int) : Bool :=
  match i.Stacks name with
  | none => false
  | some s => if s.Len < mindepth then false else true

/-- Modelled from the spec: the method `define` that `integer.define` calls is
not among the embedded files. It binds the lower-cased name to the tree,
overwriting any prior binding. -/
def Interpreter.define (L : Lib) (i : Interpreter) (name : GoString) (code : Code) :
    Interpreter :=
  { i with Definitions := fun n => if n = ToLower L name then some code else i.Definitions n }

/-- `stackOK` as an action. -/
def stackOK (name : GoString) (mindepth : Int) : Act Bool :=
  fun i => (i, .ok (i.stackOK name mindepth))

/-- A call `i.Stacks[name].M()` of a method that changes the stack. -/
def onStack (name : GoString) (m : Stack → Stack) : Act Unit := fun i =>
  match i.Stacks name with
  | none => (i, .error nilDereference)
  | some s => (i.setStack name (m s), .ok ())

/-- `i.Stacks[name].Push(lit)`. -/
def push (name : GoString) (lit : Value) : Act Unit := onStack name (fun s => s.Push lit)

/-- `i.Stacks[name].Pop()`. -/
def pop (name : GoString) : Act Value := fun i =>
  match i.Stacks name with
  | none => (i, .error nilDereference)
  | some s => (i.setStack name s.Pop.2, .ok s.Pop.1)

/-- `i.Stacks[name].Peek()`. -/
def peek (name : GoString) : Act Value := fun i =>
  match i.Stacks name with
  | none => (i, .error nilDereference)
  | some s => (i, .ok s.Peek)

/-- `i.Stacks[name].Len()`. -/
def len (name : GoString) : Act Int := fun i =>
  match i.Stacks name with
  | none => (i, .error nilDereference)
  | some s => (i, .ok s.Len)

/-- The runtime error of an integer division by zero. -/
def divideError : Panic :=
  .runtimeError "runtime error: integer divide by zero".toList

/-- `a / b` on `int64`: Go truncates towards zero, panics on a zero divisor,
and the quotient of the most negative value by `-1` wraps around. -/
def quoInt64 (a b : Int) : Act Int :=
  if b = 0 then Act.panic divideError else Act.pure (wrap64 (Int.tdiv a b))

/-- `a % b` on `int64`: the remainder has the sign of `a`; a zero divisor
panics. -/
def remInt64 (a b : Int) : Act Int :=
  if b = 0 then Act.panic divideError else Act.pure (Int.tmod a b)

/-- The type assertion `x.(int64)`. -/
def asInt64 : Value → Act Int
  | .int v => Act.pure v
  | v => Act.panic (interfaceConversion v "int64".toList)

/-- The type assertion `x.(float64)`. -/
def asFloat64 : Value → Act Float64
  | .float f => Act.pure f
  | v => Act.panic (interfaceConversion v "float64".toList)

/-- The type assertion `x.(bool)`. -/
def asBool : Value → Act Bool
  | .bool b => Act.pure b
  | v => Act.panic (interfaceConversion v "bool".toList)

/-- The type assertion `x.(string)`. -/
def asString : Value → Act GoString
  | .str s => Act.pure s
  | v => Act.panic (interfaceConversion v "string".toList)

/-- The type assertion `x.(Code)`. -/
def asCode : Value → Act Code
  | .code c => Act.pure c
  | v => Act.panic (interfaceConversion v "gopush.Code".toList)

/-! ## stack_integer.go: the closures registered by `newIntStack` -/

namespace newIntStack

/-- `s.Functions["%"]`. -/
def rem : Act Unit := do
  if !(← stackOK Key.integer 2) then pure ()
  else if (← asInt64 (← peek Key.integer)) = 0 then pure ()
  else
    let i1 ← asInt64 (← pop Key.integer)
    let i2 ← asInt64 (← pop Key.integer)
    let mod ← remInt64 i2 i1
    let mod := if (i2 < 0 ∧ i1 > 0) ∨ (i2 > 0 ∧ i1 < 0) then wrap64 (i1 + mod) else mod
    push Key.integer (.int mod)

/-- `s.Functions["*"]`. -/
def mul : Act Unit := do
  if !(← stackOK Key.integer 2) then pure ()
  else
    let i1 ← asInt64 (← pop Key.integer)
    let i2 ← asInt64 (← pop Key.integer)
    push Key.integer (.int (wrap64 (i1 * i2)))

/-- `s.Functions["+"]`. -/
def add : Act Unit := do
  if !(← stackOK Key.integer 2) then pure ()
  else
    let i1 ← asInt64 (← pop Key.integer)
    let i2 ← asInt64 (← pop Key.integer)
    push Key.integer (.int (wrap64 (i1 + i2)))

/-- `s.Functions["-"]`. -/
def sub : Act Unit := do
  if !(← stackOK Key.integer 2) then pure ()
  else
    let i1 ← asInt64 (← pop Key.integer)
    let i2 ← asInt64 (← pop Key.integer)
    push Key.integer (.int (wrap64 (i2 - i1)))

/-- `s.Functions["/"]`. -/
def quo : Act Unit := do
  if !(← stackOK Key.integer 2) then pure ()
  else if (← asInt64 (← peek Key.integer)) = 0 then pure ()
  else
    let i1 ← asInt64 (← pop Key.integer)
    let i2 ← asInt64 (← pop Key.integer)
    push Key.integer (.int (← quoInt64 i2 i1))

/-- `s.Functions["<"]`. -/
def lt : Act Unit := do
  if !(← stackOK Key.integer 2) then pure ()
  else if !(← stackOK Key.boolean 0) then pure ()
  else
    let i1 ← asInt64 (← pop Key.integer)
    let i2 ← asInt64 (← pop Key.integer)
    push Key.boolean (.bool (decide (i2 < i1)))

/-- `s.Functions["="]`. -/
def eq : Act Unit := do
  if !(← stackOK Key.integer 2) then pure ()
  else if !(← stackOK Key.boolean 0) then pure ()
  else
    let i1 ← asInt64 (← pop Key.integer)
    let i2 ← asInt64 (← pop Key.integer)
    push Key.boolean (.bool (decide (i2 = i1)))

/-- `s.Functions[">"]`. -/
def gt : Act Unit := do
  if !(← stackOK Key.integer 2) then pure ()
  else if !(← stackOK Key.boolean 0) then pure ()
  else
    let i1 ← asInt64 (← pop Key.integer)
    let i2 ← asInt64 (← pop Key.integer)
    push Key.boolean (.bool (decide (i2 > i1)))

/-- `s.Functions["define"]`. -/
def define (L : Lib) : Act Unit := do
  if !(← stackOK Key.name 1) then pure ()
  else if !(← stackOK Key.integer 1) then pure ()
  else
    let n ← asString (← pop Key.name)
    let i ← asInt64 (← pop Key.integer)
    fun st => (st.define L n (Code.mk 1 (Sprint i) []), .ok ())

/-- `s.Functions["dup"]`. -/
def dup : Act Unit := onStack Key.integer Stack.Dup

/-- `s.Functions["flush"]`. -/
def flush : Act Unit := onStack Key.integer Stack.Flush

/-- `s.Functions["fromboolean"]`. -/
def fromboolean : Act Unit := do
  if !(← stackOK Key.boolean 1) then pure ()
  else
    let b ← asBool (← pop Key.boolean)
    if b then push Key.integer (.int 1)
    else push Key.integer (.int 0)

/-- `s.Functions["fromfloat"]`. -/
def fromfloat (L : Lib) : Act Unit := do
  if !(← stackOK Key.float 1) then pure ()
  else
    let f ← asFloat64 (← pop Key.float)
    push Key.integer (.int (L.Float64ToInt64 f))

/-- `s.Functions["max"]`. -/
def max : Act Unit := do
  if !(← stackOK Key.integer 2) then pure ()
  else
    let i1 ← asInt64 (← pop Key.integer)
    let i2 ← asInt64 (← pop Key.integer)
    if i1 > i2 then push Key.integer (.int i1)
    else push Key.integer (.int i2)

/-- `s.Functions["min"]`. -/
def min : Act Unit := do
  if !(← stackOK Key.integer 2) then pure ()
  else
    let i1 ← asInt64 (← pop Key.integer)
    let i2 ← asInt64 (← pop Key.integer)
    if i1 < i2 then push Key.integer (.int i1)
    else push Key.integer (.int i2)

/-- `s.Functions["pop"]`. -/
def pop : Act Unit := do
  let _ ← GoPush.pop Key.integer
  pure ()

/-- `s.Functions["rand"]`: `Int63n` panics, with a string as payload, when its
argument is not positive. -/
def rand (L : Lib) : Act Unit := fun st =>
  let high := st.Options.MaxRandomInteger
  let low := st.Options.MinRandomInteger
  let n := wrap64 (wrap64 (high + 1) - low)
  if n ≤ 0 then (st, .error (Panic.other "invalid argument to Int63n".toList))
  else
    let (r, g) := L.Int63n st.Rand n
    push Key.integer (.int (wrap64 (r + low))) { st with Rand := g }

/-- `s.Functions["rot"]`. -/
def rot : Act Unit := onStack Key.integer Stack.Rot

/-- `s.Functions["shove"]`. -/
def shove : Act Unit := do
  if !(← stackOK Key.integer 2) then pure ()
  else
    let i1 ← asInt64 (← GoPush.pop Key.integer)
    let i2 ← asInt64 (← peek Key.integer)
    onStack Key.integer (fun s => s.Shove (.int i2) i1)
    let _ ← GoPush.pop Key.integer
    pure ()

/-- `s.Functions["stackdepth"]`. -/
def stackdepth : Act Unit := do
  let n ← len Key.integer
  push Key.integer (.int n)

/-- `s.Functions["swap"]`. -/
def swap : Act Unit := onStack Key.integer Stack.Swap

/-- `s.Functions["yank"]`. -/
def yank : Act Unit := do
  if !(← stackOK Key.integer 2) then pure ()
  else
    let idx ← asInt64 (← GoPush.pop Key.integer)
    onStack Key.integer (fun s => s.Yank idx)

/-- `s.Functions["yankdup"]`. -/
def yankdup : Act Unit := do
  if !(← stackOK Key.integer 2) then pure ()
  else
    let idx ← asInt64 (← GoPush.pop Key.integer)
    onStack Key.integer (fun s => s.YankDup idx)

end newIntStack

/-- The map `Functions` that `newIntStack` fills, `none` for a missing key. -/
def newIntStack (L : Lib) (operation : GoString) : Option (Act Unit) :=
  if operation = "%".toList then some newIntStack.rem
  else if operation = "*".toList then some newIntStack.mul
  else if operation = "+".toList then some newIntStack.add
  else if operation = "-".toList then some newIntStack.sub
  else if operation = "/".toList then some newIntStack.quo
  else if operation = "<".toList then some newIntStack.lt
  else if operation = "=".toList then some newIntStack.eq
  else if operation = ">".toList then some newIntStack.gt
  else if operation = "define".toList then some (newIntStack.define L)
  else if operation = "dup".toList then some newIntStack.dup
  else if operation = "flush".toList then some newIntStack.flush
  else if operation = "fromboolean".toList then some newIntStack.fromboolean
  else if operation = "fromfloat".toList then some (newIntStack.fromfloat L)
  else if operation = "max".toList then some newIntStack.max
  else if operation = "min".toList then some newIntStack.min
  else if operation = "pop".toList then some newIntStack.pop
  else if operation = "rand".toList then some (newIntStack.rand L)
  else if operation = "rot".toList then some newIntStack.rot
  else if operation = "shove".toList then some newIntStack.shove
  else if operation = "stackdepth".toList then some newIntStack.stackdepth
  else if operation = "swap".toList then some newIntStack.swap
  else if operation = "yank".toList then some newIntStack.yank
  else if operation = "yankdup".toList then some newIntStack.yankdup
  else none

/-- The lookup `s.Functions[operation]` for the stack found under `stack`:
`NewInterpreter` stores the stack that carries the integer closures under
`"integer"`; the other registries come from `L`. -/
def Functions (L : Lib) (stack operation : GoString) : Option (Act Unit) :=
  if stack = Key.integer then newIntStack L operation else L.Functions stack operation

/-! ## gopush.go: `NewInterpreter` and `runCode` -/

/-- `func NewInterpreter(options Options) *Interpreter`: the six stacks are
registered empty, no name is bound. -/
def NewInterpreter (options : Options) : Interpreter where
  Stacks := fun n =>
    if n = Key.integer ∨ n = Key.float ∨ n = Key.exec ∨ n = Key.code
        ∨ n = Key.name ∨ n = Key.boolean then some ⟨[]⟩
    else none
  Options := options
  Rand := ⟨options.RandomSeed.toNat⟩
  Definitions := fun _ => none
  numEvalPush := 0
  quoteNextName := false

/-- The loop `for j := len(item.List) - 1; j >= 0; j--` of `runCode`, given
the items in the order they are pushed. -/
def pushEach (name : GoString) : List Value → Act Unit
  | [] => Act.pure ()
  | v :: vs => Act.bind (push name v) (fun _ => pushEach name vs)

/-- The body of the loop of `runCode` (lines 156 to 216): `some err` when it
executes `return err`, `none` when it reaches `continue` or the end of the
body. -/
def runCode.body (L : Lib) : Act (Option GoString) := do
  let item ← asCode (← pop Key.exec)
  let _ ← (fun i => (i.incr, .ok ()) : Act Unit)
  if item.Literal = [] then
    pushEach Key.exec (item.Elems.reverse.map Value.code)
    pure none
  else
    match ParseInt item.Literal with
    | some intlit =>
      push Key.integer (.int intlit)
      pure none
    | none =>
      match L.ParseFloat item.Literal with
      | some floatlit =>
        push Key.float (.float floatlit)
        pure none
      | none =>
        match ParseBool item.Literal with
        | some boollit =>
          push Key.boolean (.bool boollit)
          pure none
        | none =>
          if containsDot item.Literal then
            let stack := ToLower L (beforeDot item.Literal)
            let operation := ToLower L (afterDot item.Literal)
            fun i =>
              match i.Stacks stack with
              | none => (i, .ok (some ("unknown or disabled stack: ".toList ++ stack)))
              | some _ =>
                match Functions L stack operation with
                | none =>
                  (i, .ok (some ("unknown or disabled instruction ".toList ++ stack
                    ++ ".".toList ++ operation)))
                | some f =>
                  match f i with
                  | (i1, .ok _) => (i1, .ok none)
                  | (i1, .error p) => (i1, .error p)
          else
            fun i =>
              match (if !i.quoteNextName then i.Definitions (ToLower L item.Literal) else none) with
              | some d =>
                match push Key.exec (.code d) i with
                | (i1, .ok _) => (i1, .ok none)
                | (i1, .error p) => (i1, .error p)
              | none =>
                match push Key.name (.str (ToLower L item.Literal)) i with
                | (i1, .ok _) => (i1.clearQuote, .ok none)
                | (i1, .error p) => (i1, .error p)

/-- The loop of `runCode` and the test that follows it (lines 150 to 223).
`fuel` bounds the number of iterations: `none` means the bound was reached
before the loop ended. The value is the error `runCode` is about to return
(`none` for `nil`). -/
def runCode.loop (L : Lib) : Nat → Interpreter → Option (Interpreter × Except Panic (Option GoString))
  | 0, _ => none
  | fuel + 1, i =>
    match len Key.exec i with
    | (i1, .error p) => some (i1, .error p)
    | (i1, .ok n) =>
      if n > 0 ∧ i1.numEvalPush < i1.Options.EvalPushLimit then
        match runCode.body L i1 with
        | (i2, .error p) => some (i2, .error p)
        | (i2, .ok (some err)) => some (i2, .ok (some err))
        | (i2, .ok none) => runCode.loop L fuel i2
      else if i1.numEvalPush ≥ i1.Options.EvalPushLimit then
        some (i1, .ok (some "the EvalPushLimit was exceeded".toList))
      else some (i1, .ok none)

/-- An `error` value that `runCode` returns: one it built itself with
`fmt.Errorf` or `errors.New`, or the runtime error of a recovered panic. -/
inductive GoError where
  | errorString (msg : GoString)
  | runtime (msg : GoString)
  deriving DecidableEq, Repr

/-- How a call of `runCode` ends: it returns `nil`, it returns an error, or a
panic escapes it. -/
inductive Returned where
  | nil
  | err (e : GoError)
  | panicked (p : Panic)
  deriving DecidableEq, Repr

/-- The deferred function of `runCode`: a recovered panic becomes the returned
error by `perr.(error)`. On a payload that is a string the assertion itself
panics, and that panic, a runtime error, escapes `runCode`. -/
def recovered : Panic → Returned
  | .runtimeError msg => .err (.runtime msg)
  | .other _ => .panicked
      (.runtimeError "interface conversion: string is not error: missing method Error".toList)

/-- `func (i *Interpreter) runCode(program Code) (err error)`: the state the
call leaves and how it ends, `none` when `fuel` iterations do not suffice. -/
def runCode (L : Lib) (fuel : Nat) (program : Code) (i : Interpreter) :
    Option (Interpreter × Returned) :=
  match push Key.exec (.code program) i with
  | (i1, .error p) => some (i1, recovered p)
  | (i1, .ok _) =>
    match runCode.loop L fuel i1 with
    | none => none
    | some (i2, .error p) => some (i2, recovered p)
    | some (i2, .ok (some e)) => some (i2, .err (.errorString e))
    | some (i2, .ok none) => some (i2, .nil)

/-- `var DefaultOptions`, for a given value of `rand.Int63()`. The floats are
`0.001`, `1.0` and `-1.0`. -/
def DefaultOptions (seed : Int) : Options where
  TopLevelPushCode := true
  TopLevelPopCode := false
  EvalPushLimit := 1000
  NewERCNameProbabilty := ⟨0x3F50624DD2F1A9FC⟩
  MaxPointsInProgram := 100
  MaxPointsInRandomExpression := 25
  MaxRandomFloat := ⟨0x3FF0000000000000⟩
  MinRandomFloat := ⟨0xBFF0000000000000⟩
  MaxRandomInteger := 10
  MinRandomInteger := -10
  Tracing := false
  RandomSeed := seed

/-! ## Notions used to state the properties -/

/-- The number of items on the stack stored under `name`, `0` when there is
no such stack. -/
def Interpreter.depth (i : Interpreter) (name : GoString) : Nat :=
  match i.Stacks name with
  | none => 0
  | some s => s.Items.length

/-- A token that the loop treats as a name: an atomic token that is no
integer, float or boolean literal and contains no dot. -/
def IsNameToken (L : Lib) (t : GoString) : Prop :=
  t ≠ [] ∧ ParseInt t = none ∧ L.ParseFloat t = none ∧ ParseBool t = none
    ∧ containsDot t = false

/-- Every leaf of the tree is the token `n` or an integer literal. -/
inductive LeavesIn (n : GoString) : Code → Prop
  | name (k : Int) (cs : List Code) : LeavesIn n (.mk k n cs)
  | int (k : Int) (l : GoString) (cs : List Code) (v : Int) :
      ParseInt l = some v → LeavesIn n (.mk k l cs)
  | node (k : Int) (cs : List Code) :
      (∀ c ∈ cs, LeavesIn n c) → LeavesIn n (.mk k [] cs)

/-- The token `n` is a leaf of the tree. -/
inductive HasLeaf (n : GoString) : Code → Prop
  | here (k : Int) (cs : List Code) : HasLeaf n (.mk k n cs)
  | inside (k : Int) (cs : List Code) (c : Code) :
      c ∈ cs → HasLeaf n c → HasLeaf n (.mk k [] cs)

/-- A library for concrete runs over tokens that `strconv.ParseFloat` rejects
(names, dotted instruction references) or that `strconv.ParseInt` accepts
before it is asked, with integer instructions only: `ParseFloat` rejects, and
the stacks other than `integer` register nothing. -/
def Lib.integerOnly : Lib where
  ParseFloat := fun _ => none
  ToLowerRune := fun c => c
  Float64ToInt64 := fun _ => 0
  Int63n := fun g _ => (0, g)
  Functions := fun _ _ => none

/-- The state with the quote-next-name flag set, as the instruction
`name.quote` leaves it. -/
def Interpreter.quoted (i : Interpreter) : Interpreter :=
  { i with quoteNextName := true }

/-- The interpreter `NewInterpreter(DefaultOptions)` after the given items
were pushed on its integer and name stacks. -/
def Interpreter.sample (ints names : List Value) : Interpreter :=
  ((NewInterpreter (DefaultOptions 0)).setStack Key.integer ⟨ints⟩).setStack Key.name ⟨names⟩

/-- The exec stack while the name `n` keeps expanding: every item is a tree
whose leaves are `n` or integer literals, and `n` is a leaf of one of them. -/
def ExpandingExec (n : GoString) (items : List Value) : Prop :=
  (∀ x ∈ items, ∃ c, x = Value.code c ∧ LeavesIn n c)
    ∧ ∃ c, Value.code c ∈ items ∧ HasLeaf n c

/-- The states of a run in which the name `n`, bound to `t`, keeps expanding:
the exec stack is as `ExpandingExec` says, the integer stack is registered,
the quote-next-name flag is clear and `n` is bound to `t`. -/
def Expanding (n : GoString) (t : Code) (i : Interpreter) : Prop :=
  (∃ items, i.Stacks Key.exec = some ⟨items⟩ ∧ ExpandingExec n items)
    ∧ (∃ ints, i.Stacks Key.integer = some ⟨ints⟩)
    ∧ i.quoteNextName = false
    ∧ i.Definitions n = some t

/-- The part of the loop body of `runCode` that follows the three literal
tests (lines 184 to 216), for the token `lit`: the dispatch of a dotted
instruction reference, or the handling of a name. -/
def runCode.instructionOrName (L : Lib) (lit : GoString) : Act (Option GoString) :=
  if containsDot lit then
    let stack := ToLower L (beforeDot lit)
    let operation := ToLower L (afterDot lit)
    fun i =>
      match i.Stacks stack with
      | none => (i, .ok (some ("unknown or disabled stack: ".toList ++ stack)))
      | some _ =>
        match Functions L stack operation with
        | none =>
          (i, .ok (some ("unknown or disabled instruction ".toList ++ stack
            ++ ".".toList ++ operation)))
        | some f =>
          match f i with
          | (i1, .ok _) => (i1, .ok none)
          | (i1, .error p) => (i1, .error p)
  else
    fun i =>
      match (if !i.quoteNextName then i.Definitions (ToLower L lit) else none) with
      | some d =>
        match push Key.exec (.code d) i with
        | (i1, .ok _) => (i1, .ok none)
        | (i1, .error p) => (i1, .error p)
      | none =>
        match push Key.name (.str (ToLower L lit)) i with
        | (i1, .ok _) => (i1.clearQuote, .ok none)
        | (i1, .error p) => (i1, .error p)

/-- The spellings of `true` that `strconv.ParseBool` accepts, `1` apart. -/
def trueSpellings : List GoString :=
  ["t".toList, "T".toList, "TRUE".toList, "true".toList, "True".toList]

/-- The spellings of `false` that `strconv.ParseBool` accepts, `0` apart. -/
def falseSpellings : List GoString :=
  ["f".toList, "F".toList, "FALSE".toList, "false".toList, "False".toList]

/-- The sample interpreter with the given items on its exec stack. -/
def Interpreter.sampleExec (exec : List Value) : Interpreter :=
  (Interpreter.sample [] []).setStack Key.exec ⟨exec⟩

/-! ## Validation of `Options` -/

/-- Whether the `float64` is a NaN: exponent bits all set, fraction not
zero. -/
def Float64.isNaN (x : Float64) : Bool :=
  decide ((x.bits / 2 ^ 52) % 2 ^ 11 = 2047 ∧ x.bits % 2 ^ 52 ≠ 0)

/-- A key that orders the `float64` values other than NaN as Go's `<` does:
the magnitude bits, negated under the sign bit (both zeros get `0`). -/
def Float64.key (x : Float64) : Int :=
  if (x.bits / 2 ^ 63) % 2 = 0 then ((x.bits % 2 ^ 63 : Nat) : Int)
  else -((x.bits % 2 ^ 63 : Nat) : Int)

/-- Go's `x <= y` on `float64`: false when either side is a NaN. -/
def Float64.le (x y : Float64) : Bool :=
  !x.isNaN && !y.isNaN && decide (x.key ≤ y.key)

/-- Modelled from the spec: `ReadOptions` and the validation it runs on the
values it has read are not among the embedded files; only the test
`TestParseErrors` is. The constraints are those of section 4.6 of the spec
(each size limit at least `1`, the probability within `[0, 1]`, each minimum
at most its maximum), the messages are the ones the test expects, with the
values supplied; `none` means the configuration is accepted. `FormatFloat` is
the formatting of a `float64` by `%v`. -/
def Options.validate (FormatFloat : Float64 → GoString) (o : Options) : Option GoString :=
  if o.MaxPointsInRandomExpression < 1 then
    some ("MAX-POINTS-IN-RANDOM-EXPRESSIONS must be at least 1, got ".toList
      ++ Sprint o.MaxPointsInRandomExpression)
  else if o.MaxPointsInProgram < 1 then
    some ("MAX-POINTS-IN-PROGRAM must be at least 1, got ".toList
      ++ Sprint o.MaxPointsInProgram)
  else if o.EvalPushLimit < 1 then
    some ("EVALPUSH-LIMIT must be at least 1, got ".toList ++ Sprint o.EvalPushLimit)
  else if !(Float64.le ⟨0⟩ o.NewERCNameProbabilty
      && Float64.le o.NewERCNameProbabilty ⟨0x3FF0000000000000⟩) then
    some ("NEW-ERC-NAME-PROBABILITY must be between 0 and 1 inclusive, got ".toList
      ++ FormatFloat o.NewERCNameProbabilty)
  else if o.MinRandomInteger > o.MaxRandomInteger then
    some ("MIN-RANDOM-INTEGER (".toList ++ Sprint o.MinRandomInteger
      ++ ") must be less than or equal to MAX-RANDOM-INTEGER (".toList
      ++ Sprint o.MaxRandomInteger ++ ")".toList)
  else if !Float64.le o.MinRandomFloat o.MaxRandomFloat then
    some ("MIN-RANDOM-FLOAT (".toList ++ FormatFloat o.MinRandomFloat
      ++ ") must be less than or equal to MAX-RANDOM-FLOAT (".toList
      ++ FormatFloat o.MaxRandomFloat ++ ")".toList)
  else none

/-- Whether the configuration violates one of the joint constraints of
section 4.6 of the spec. -/
def Options.Violates (o : Options) : Prop :=
  o.MinRandomInteger > o.MaxRandomInteger
    ∨ Float64.le o.MinRandomFloat o.MaxRandomFloat = false
    ∨ (Float64.le ⟨0⟩ o.NewERCNameProbabilty
        && Float64.le o.NewERCNameProbabilty ⟨0x3FF0000000000000⟩) = false
    ∨ o.MaxPointsInRandomExpression < 1
    ∨ o.MaxPointsInProgram < 1
    ∨ o.EvalPushLimit < 1

/-! ## The step counter -/

/-- An action that leaves the step counter and the Options as they were. -/
def Act.Keeps {α : Type} (m : Act α) : Prop :=
  ∀ i, (m i).1.numEvalPush = i.numEvalPush ∧ (m i).1.Options = i.Options

/-- The instructions registered outside the embedded files leave the step
counter and the Options as they were, as the integer instructions do. -/
def Lib.KeepsCounter (L : Lib) : Prop :=
  ∀ s o f, L.Functions s o = some f → f.Keeps

/-- Line 156 of `runCode`: `item := i.Stacks["exec"].Pop().(Code)`. -/
def runCode.popItem : Act Code := fun i =>
  match pop Key.exec i with
  | (i1, .ok v) => asCode v i1
  | (i1, .error p) => (i1, .error p)

/-- The number of items the `Pop()` of line 156 takes from the exec stack in
the state `i`: the depth of the stack before it, less the depth after it. -/
def runCode.popped (i : Interpreter) : Nat :=
  i.depth Key.exec - (pop Key.exec i).1.depth Key.exec

/-- The number of items line 156 yields as a program tree in the state `i`:
`1` when its type assertion holds, `0` when the line panics. -/
def runCode.trees (i : Interpreter) : Nat :=
  match runCode.popItem i with
  | (_, .ok _) => 1
  | (_, .error _) => 0

/-- The loop of `runCode` with two tallies over its iterations: the items
line 156 has popped from the exec stack, and those of them that were program
trees. -/
def runCode.loopCount (L : Lib) :
    Nat → Interpreter → Option ((Interpreter × Except Panic (Option GoString)) × Nat × Nat)
  | 0, _ => none
  | fuel + 1, i =>
    match len Key.exec i with
    | (i1, .error p) => some ((i1, .error p), 0, 0)
    | (i1, .ok n) =>
      if n > 0 ∧ i1.numEvalPush < i1.Options.EvalPushLimit then
        match runCode.body L i1 with
        | (i2, .error p) => some ((i2, .error p), runCode.popped i1, runCode.trees i1)
        | (i2, .ok (some err)) =>
          some ((i2, .ok (some err)), runCode.popped i1, runCode.trees i1)
        | (i2, .ok none) =>
          match runCode.loopCount L fuel i2 with
          | none => none
          | some (r, k, t) => some (r, k + runCode.popped i1, t + runCode.trees i1)
      else if i1.numEvalPush ≥ i1.Options.EvalPushLimit then
        some ((i1, .ok (some "the EvalPushLimit was exceeded".toList)), 0, 0)
      else some ((i1, .ok none), 0, 0)

/-- The interpreter `NewInterpreter` builds from the default options with
`EvalPushLimit` set to `1`. -/
def Interpreter.limitOne : Interpreter :=
  NewInterpreter { DefaultOptions 0 with EvalPushLimit := 1 }

/-- The state in which `runCode` on the literal `1` leaves
`Interpreter.limitOne`: the literal popped, one step counted, `1` pushed. -/
def Interpreter.limitOneDone : Interpreter :=
  ((Interpreter.limitOne.setStack Key.exec ⟨[] ++ [.code (Code.atom "1".toList)]⟩).setStack
    Key.exec ⟨[]⟩).incr.setStack Key.integer ⟨[] ++ [.int 1]⟩

/-- A token that the loop treats as an instruction reference: an atomic token
that is no integer, float or boolean literal and contains a dot. -/
def IsInstructionToken (L : Lib) (t : GoString) : Prop :=
  t ≠ [] ∧ ParseInt t = none ∧ L.ParseFloat t = none ∧ ParseBool t = none
    ∧ containsDot t = true

/-- The state at the head of the loop of `runCode` after `n` complete
iterations from `i`: each of them found the test of line 150 true and ran its
body to a `continue` or to its end. `none` when the loop ends before. -/
def runCode.headAfter (L : Lib) : Nat → Interpreter → Option Interpreter
  | 0, i => some i
  | n + 1, i =>
    match len Key.exec i with
    | (_, .error _) => none
    | (i1, .ok k) =>
      if k > 0 ∧ i1.numEvalPush < i1.Options.EvalPushLimit then
        match runCode.body L i1 with
        | (i2, .ok none) => runCode.headAfter L n i2
        | _ => none
      else none

/-! ## Lemmas on the strconv routines -/

theorem digitVal_digitChar (d : Nat) (h : d < 10) : digitVal (Nat.digitChar d) = some d := by
  interval_cases d <;> decide

theorem parseDigits_toDigitsCore (fuel : Nat) :
    ∀ (n : Nat) (ds : List Char), n < fuel →
      parseDigits 0 (Nat.toDigitsCore 10 fuel n ds) = parseDigits n ds := by
  induction fuel with
  | zero => intro n ds h; omega
  | succ f ih =>
    intro n ds h
    have hd : digitVal (Nat.digitChar (n % 10)) = some (n % 10) :=
      digitVal_digitChar _ (Nat.mod_lt _ (by decide))
    unfold Nat.toDigitsCore
    by_cases h0 : n / 10 = 0
    · simp only [h0, if_true, parseDigits, hd]
      have : n % 10 = n := by omega
      simp [this]
    · simp only [h0, if_false]
      rw [ih (n / 10) _ (by omega)]
      simp only [parseDigits, hd]
      congr 1
      omega

theorem toDigitsCore_head (fuel : Nat) :
    ∀ (n : Nat) (ds : List Char), n < fuel →
      ∃ c cs d, Nat.toDigitsCore 10 fuel n ds = c :: cs ∧ digitVal c = some d := by
  induction fuel with
  | zero => intro n ds h; omega
  | succ f ih =>
    intro n ds h
    unfold Nat.toDigitsCore
    by_cases h0 : n / 10 = 0
    · exact ⟨_, ds, n % 10, by simp [h0], digitVal_digitChar _ (Nat.mod_lt _ (by decide))⟩
    · simp only [h0, if_false]
      exact ih (n / 10) _ (by omega)

theorem toDigits_head (n : Nat) :
    ∃ c cs, Nat.toDigits 10 n = c :: cs ∧ c ≠ '+' ∧ c ≠ '-' := by
  obtain ⟨c, cs, d, h, hd⟩ := toDigitsCore_head (n + 1) n [] (by omega)
  refine ⟨c, cs, h, ?_, ?_⟩
  · rintro rfl
    have : digitVal '+' = none := by decide
    rw [this] at hd; cases hd
  · rintro rfl
    have : digitVal '-' = none := by decide
    rw [this] at hd; cases hd

theorem ParseUint_toDigits (n : Nat) : ParseUint (Nat.toDigits 10 n) = some n := by
  obtain ⟨c, cs, h, -, -⟩ := toDigits_head n
  unfold ParseUint
  rw [if_neg (by rw [h]; simp)]
  exact parseDigits_toDigitsCore (n+1) n [] (by omega)

theorem ParseInt_Sprint (v : Int) (h : isInt64 v) : ParseInt (Sprint v) = some v := by
  obtain ⟨hlo, hhi⟩ := h
  unfold Sprint
  by_cases hneg : v < 0
  · rw [if_pos hneg]
    have h1 : ¬ (v.natAbs > 2 ^ 63) := by omega
    have h2 : ¬ ((2 : Nat) ^ 63 < v.natAbs) := by omega
    simp [ParseInt, ParseUint_toDigits, h2]
    rw [abs_of_neg hneg]
    omega
  · rw [if_neg hneg]
    obtain ⟨c, cs, hcs, hp, hm⟩ := toDigits_head v.toNat
    have hu := ParseUint_toDigits v.toNat
    rw [hcs] at hu ⊢
    simp only [ParseInt, hp, hm, or_self, if_false, hu]
    have h1 : ¬ (v.toNat ≥ 2 ^ 63) := by omega
    simp [h1]
    omega


/-! ## Lemmas on the state -/

theorem Key.exec_ne_integer : Key.exec ≠ Key.integer := by decide

theorem Key.integer_ne_exec : Key.integer ≠ Key.exec := by decide

theorem Key.name_ne_exec : Key.name ≠ Key.exec := by decide

theorem Key.exec_ne_name : Key.exec ≠ Key.name := by decide

theorem Key.name_ne_integer : Key.name ≠ Key.integer := by decide

theorem Key.integer_ne_name : Key.integer ≠ Key.name := by decide

theorem Interpreter.ext_of {a b : Interpreter} (hS : ∀ n, a.Stacks n = b.Stacks n)
    (hO : a.Options = b.Options) (hR : a.Rand = b.Rand)
    (hD : ∀ n, a.Definitions n = b.Definitions n)
    (hc : a.numEvalPush = b.numEvalPush) (hq : a.quoteNextName = b.quoteNextName) : a = b := by
  cases a; cases b
  simp only at hO hR hc hq
  have h1 := funext hS
  have h2 := funext hD
  simp only at h1 h2
  subst hO hR hc hq h1 h2
  rfl

theorem setStack_Stacks_same (i : Interpreter) (n : GoString) (s : Stack) :
    (i.setStack n s).Stacks n = some s := by simp [Interpreter.setStack]

theorem setStack_Stacks_other (i : Interpreter) {n m : GoString} (s : Stack) (h : m ≠ n) :
    (i.setStack n s).Stacks m = i.Stacks m := by simp [Interpreter.setStack, h]

theorem setStack_setStack (i : Interpreter) (n : GoString) (s t : Stack) :
    (i.setStack n s).setStack n t = i.setStack n t := by
  refine Interpreter.ext_of (fun m => ?_) rfl rfl (fun _ => rfl) rfl rfl
  by_cases h : m = n <;> simp [Interpreter.setStack, h]

theorem setStack_self (i : Interpreter) (n : GoString) (s : Stack) (h : i.Stacks n = some s) :
    i.setStack n s = i := by
  refine Interpreter.ext_of (fun m => ?_) rfl rfl (fun _ => rfl) rfl rfl
  by_cases hm : m = n
  · subst hm; simp [Interpreter.setStack, h]
  · simp [Interpreter.setStack, hm]

theorem Stack.Pop_concat (xs : List Value) (v : Value) :
    (Stack.mk (xs ++ [v])).Pop = (v, ⟨xs⟩) := by
  simp [Stack.Pop]

theorem Stack.Peek_concat (xs : List Value) (v : Value) :
    (Stack.mk (xs ++ [v])).Peek = v := by
  simp [Stack.Peek]

theorem stackOK_true {i : Interpreter} {n : GoString} {s : Stack} (d : Int)
    (h : i.Stacks n = some s) (hd : d ≤ s.Items.length) : i.stackOK n d = true := by
  simp [Interpreter.stackOK, h, Stack.Len]; omega

theorem stackOK_false {i : Interpreter} {n : GoString} (d : Nat)
    (h : i.depth n < d) : i.stackOK n d = false := by
  unfold Interpreter.depth at h
  unfold Interpreter.stackOK
  cases hs : i.Stacks n with
  | none => rfl
  | some s =>
    rw [hs] at h
    simp only [Stack.Len] at h ⊢
    have : ((s.Items.length : Int) < (d : Int)) := by exact_mod_cast h
    simp [this]

theorem pop_run {i : Interpreter} {n : GoString} (xs : List Value) (v : Value)
    (h : i.Stacks n = some ⟨xs ++ [v]⟩) : pop n i = (i.setStack n ⟨xs⟩, .ok v) := by
  simp [pop, h, Stack.Pop_concat]

theorem peek_run {i : Interpreter} {n : GoString} (xs : List Value) (v : Value)
    (h : i.Stacks n = some ⟨xs ++ [v]⟩) : peek n i = (i, .ok v) := by
  simp [peek, h, Stack.Peek_concat]

theorem push_run {i : Interpreter} {n : GoString} (xs : List Value) (v : Value)
    (h : i.Stacks n = some ⟨xs⟩) : push n v i = (i.setStack n ⟨xs ++ [v]⟩, .ok ()) := by
  simp [push, onStack, h, Stack.Push]

theorem isInt64_wrap64 (x : Int) : isInt64 (wrap64 x) := by
  unfold isInt64 wrap64
  constructor <;> omega

theorem wrap64_congruent (x : Int) : (2 ^ 64 : Int) ∣ wrap64 x - x := by
  unfold wrap64
  omega

theorem wrap64_of_isInt64 (x : Int) (h : isInt64 x) : wrap64 x = x := by
  unfold isInt64 at h
  unfold wrap64
  omega

/-! ## The integer instructions -/

theorem add_run (i : Interpreter) (rest : List Value) (a b : Int)
    (h : i.Stacks Key.integer = some ⟨rest ++ [.int a, .int b]⟩) :
    newIntStack.add i = (i.setStack Key.integer ⟨rest ++ [.int (wrap64 (a + b))]⟩, .ok ()) := by
  have hok : i.stackOK Key.integer 2 = true := stackOK_true 2 h (by simp)
  have h1 : i.Stacks Key.integer = some ⟨(rest ++ [.int a]) ++ [.int b]⟩ := by simpa using h
  simp [newIntStack.add, bind, Act.bind, pure, Act.pure, stackOK, hok, asInt64,
    pop_run _ _ h1, pop_run rest (.int a) (setStack_Stacks_same _ _ _),
    push_run _ _ (setStack_Stacks_same _ _ _), setStack_setStack, add_comm]

theorem sub_run (i : Interpreter) (rest : List Value) (a b : Int)
    (h : i.Stacks Key.integer = some ⟨rest ++ [.int a, .int b]⟩) :
    newIntStack.sub i = (i.setStack Key.integer ⟨rest ++ [.int (wrap64 (a - b))]⟩, .ok ()) := by
  have hok : i.stackOK Key.integer 2 = true := stackOK_true 2 h (by simp)
  have h1 : i.Stacks Key.integer = some ⟨(rest ++ [.int a]) ++ [.int b]⟩ := by simpa using h
  simp [newIntStack.sub, bind, Act.bind, pure, Act.pure, stackOK, hok, asInt64,
    pop_run _ _ h1, pop_run rest (.int a) (setStack_Stacks_same _ _ _),
    push_run _ _ (setStack_Stacks_same _ _ _), setStack_setStack]

/-- C8: on an integer stack whose top two elements are `a` (second from top)
and `b` (top), `integer.+` replaces them by `a + b` and `integer.-` by
`a - b`, reduced to `int64` in two's complement; the elements below, every
other stack and the rest of the state are unchanged, and the integer stack is
one element shorter. -/
theorem integer_add_sub_top_two (L : Lib) (i : Interpreter) (rest : List Value) (a b : Int)
    (h : i.Stacks Key.integer = some ⟨rest ++ [.int a, .int b]⟩) :
    Functions L Key.integer "+".toList = some newIntStack.add
    ∧ Functions L Key.integer "-".toList = some newIntStack.sub
    ∧ newIntStack.add i
        = (i.setStack Key.integer ⟨rest ++ [.int (wrap64 (a + b))]⟩, .ok ())
    ∧ newIntStack.sub i
        = (i.setStack Key.integer ⟨rest ++ [.int (wrap64 (a - b))]⟩, .ok ())
    ∧ isInt64 (wrap64 (a + b)) ∧ (2 ^ 64 : Int) ∣ wrap64 (a + b) - (a + b)
    ∧ isInt64 (wrap64 (a - b)) ∧ (2 ^ 64 : Int) ∣ wrap64 (a - b) - (a - b)
    ∧ (rest ++ [Value.int (wrap64 (a + b))]).length + 1 = (rest ++ [Value.int a, .int b]).length :=
  ⟨rfl, rfl, add_run i rest a b h, sub_run i rest a b h, isInt64_wrap64 _, wrap64_congruent _,
    isInt64_wrap64 _, wrap64_congruent _, by simp⟩

theorem integer_add_sub_top_two_witness :
    (Interpreter.sample [.int 3, .int 4] []).Stacks Key.integer = some ⟨[] ++ [.int 3, .int 4]⟩
    ∧ newIntStack.add (Interpreter.sample [.int 3, .int 4] [])
        = ((Interpreter.sample [.int 3, .int 4] []).setStack Key.integer
            ⟨[] ++ [.int (wrap64 (3 + 4))]⟩, .ok ())
    ∧ newIntStack.sub (Interpreter.sample [.int 3, .int 4] [])
        = ((Interpreter.sample [.int 3, .int 4] []).setStack Key.integer
            ⟨[] ++ [.int (wrap64 (3 - 4))]⟩, .ok ()) :=
  have h := integer_add_sub_top_two Lib.integerOnly (Interpreter.sample [.int 3, .int 4] [])
    [] 3 4 (by decide)
  ⟨by decide, h.2.2.1, h.2.2.2.1⟩


theorem quo_zero_run (i : Interpreter) (rest : List Value)
    (h : i.Stacks Key.integer = some ⟨rest ++ [.int 0]⟩) :
    newIntStack.quo i = (i, .ok ()) := by
  cases hok : i.stackOK Key.integer 2 <;>
    simp [newIntStack.quo, bind, Act.bind, pure, Act.pure, stackOK, hok, asInt64,
      peek_run _ _ h]

theorem rem_zero_run (i : Interpreter) (rest : List Value)
    (h : i.Stacks Key.integer = some ⟨rest ++ [.int 0]⟩) :
    newIntStack.rem i = (i, .ok ()) := by
  cases hok : i.stackOK Key.integer 2 <;>
    simp [newIntStack.rem, bind, Act.bind, pure, Act.pure, stackOK, hok, asInt64,
      peek_run _ _ h]

theorem quo_run (i : Interpreter) (rest : List Value) (a b : Int) (hb : b ≠ 0)
    (h : i.Stacks Key.integer = some ⟨rest ++ [.int a, .int b]⟩) :
    newIntStack.quo i
      = (i.setStack Key.integer ⟨rest ++ [.int (wrap64 (Int.tdiv a b))]⟩, .ok ()) := by
  have hok : i.stackOK Key.integer 2 = true := stackOK_true 2 h (by simp)
  have h1 : i.Stacks Key.integer = some ⟨(rest ++ [.int a]) ++ [.int b]⟩ := by simpa using h
  simp [newIntStack.quo, bind, Act.bind, pure, Act.pure, stackOK, hok, asInt64, quoInt64, hb,
    peek_run _ _ h1, pop_run _ _ h1, pop_run rest (.int a) (setStack_Stacks_same _ _ _),
    push_run _ _ (setStack_Stacks_same _ _ _), setStack_setStack]

theorem rem_run (i : Interpreter) (rest : List Value) (a b : Int) (hb : b ≠ 0)
    (h : i.Stacks Key.integer = some ⟨rest ++ [.int a, .int b]⟩) :
    newIntStack.rem i
      = (i.setStack Key.integer ⟨rest ++ [.int (if (a < 0 ∧ b > 0) ∨ (a > 0 ∧ b < 0)
          then wrap64 (b + Int.tmod a b) else Int.tmod a b)]⟩, .ok ()) := by
  have hok : i.stackOK Key.integer 2 = true := stackOK_true 2 h (by simp)
  have h1 : i.Stacks Key.integer = some ⟨(rest ++ [.int a]) ++ [.int b]⟩ := by simpa using h
  simp [newIntStack.rem, bind, Act.bind, pure, Act.pure, stackOK, hok, asInt64, remInt64, hb,
    peek_run _ _ h1, pop_run _ _ h1, pop_run rest (.int a) (setStack_Stacks_same _ _ _),
    push_run _ _ (setStack_Stacks_same _ _ _), setStack_setStack]

/-- C9: when the top of the integer stack is `0`, at any depth, `integer./`
and `integer.%` return with the whole state as it was and without a panic, so
no division by zero is evaluated; when the top `b` is not zero and another
integer `a` lies below it, both instructions complete without a panic and
replace the two by the quotient, respectively the adjusted remainder. -/
theorem integer_quo_rem_zero_guard (L : Lib) (i j : Interpreter) (rest below : List Value)
    (a b : Int)
    (hzero : i.Stacks Key.integer = some ⟨rest ++ [.int 0]⟩)
    (hj : j.Stacks Key.integer = some ⟨below ++ [.int a, .int b]⟩) (hb : b ≠ 0) :
    Functions L Key.integer "/".toList = some newIntStack.quo
    ∧ Functions L Key.integer "%".toList = some newIntStack.rem
    ∧ newIntStack.quo i = (i, .ok ())
    ∧ newIntStack.rem i = (i, .ok ())
    ∧ newIntStack.quo j
        = (j.setStack Key.integer ⟨below ++ [.int (wrap64 (Int.tdiv a b))]⟩, .ok ())
    ∧ newIntStack.rem j
        = (j.setStack Key.integer ⟨below ++ [.int (if (a < 0 ∧ b > 0) ∨ (a > 0 ∧ b < 0)
            then wrap64 (b + Int.tmod a b) else Int.tmod a b)]⟩, .ok ()) :=
  ⟨rfl, rfl, quo_zero_run i rest hzero, rem_zero_run i rest hzero, quo_run j below a b hb hj,
    rem_run j below a b hb hj⟩

theorem integer_quo_rem_zero_guard_witness :
    (Interpreter.sample [.int 3, .int 0] []).Stacks Key.integer = some ⟨[.int 3] ++ [.int 0]⟩
    ∧ (Interpreter.sample [.int (-(2 ^ 63)), .int (-1)] []).Stacks Key.integer
        = some ⟨[] ++ [.int (-(2 ^ 63)), .int (-1)]⟩
    ∧ newIntStack.quo (Interpreter.sample [.int 3, .int 0] [])
        = (Interpreter.sample [.int 3, .int 0] [], .ok ())
    ∧ newIntStack.quo (Interpreter.sample [.int (-(2 ^ 63)), .int (-1)] [])
        = ((Interpreter.sample [.int (-(2 ^ 63)), .int (-1)] []).setStack Key.integer
            ⟨[] ++ [.int (wrap64 (Int.tdiv (-(2 ^ 63)) (-1)))]⟩, .ok ()) :=
  have h := integer_quo_rem_zero_guard Lib.integerOnly (Interpreter.sample [.int 3, .int 0] [])
    (Interpreter.sample [.int (-(2 ^ 63)), .int (-1)] []) [.int 3] [] (-(2 ^ 63)) (-1)
    (by decide) (by decide) (by decide)
  ⟨by decide, by decide, h.2.2.1, h.2.2.2.2.1⟩


/-! ## The loop of `runCode` -/

theorem incr_Stacks (i : Interpreter) : i.incr.Stacks = i.Stacks := rfl

theorem clearQuote_Stacks (i : Interpreter) : i.clearQuote.Stacks = i.Stacks := rfl

theorem loop_succ (L : Lib) (fuel : Nat) (i : Interpreter) (ex : Stack)
    (hexec : i.Stacks Key.exec = some ex) (hne : ex.Items ≠ [])
    (hbudget : i.numEvalPush < i.Options.EvalPushLimit) :
    runCode.loop L (fuel + 1) i =
      match runCode.body L i with
      | (i2, .error p) => some (i2, .error p)
      | (i2, .ok (some err)) => some (i2, .ok (some err))
      | (i2, .ok none) => runCode.loop L fuel i2 := by
  have hlen : (0 : Int) < ex.Len := by
    unfold Stack.Len
    have : 0 < ex.Items.length := List.length_pos.mpr hne
    exact_mod_cast this
  simp only [runCode.loop, len, hexec, gt_iff_lt, hlen, hbudget, and_self, if_true]

theorem body_int (L : Lib) (i : Interpreter) (rest ints : List Value) (t : Code) (v : Int)
    (ht : ParseInt t.Literal = some v)
    (hexec : i.Stacks Key.exec = some ⟨rest ++ [.code t]⟩)
    (hint : i.Stacks Key.integer = some ⟨ints⟩) :
    runCode.body L i =
      (((i.setStack Key.exec ⟨rest⟩).incr).setStack Key.integer ⟨ints ++ [.int v]⟩,
        .ok none) := by
  have hlit : t.Literal ≠ [] := by
    intro h; rw [h] at ht; cases ht
  have hint1 : (i.setStack Key.exec ⟨rest⟩).incr.Stacks Key.integer = some ⟨ints⟩ := by
    rw [incr_Stacks, setStack_Stacks_other _ _ Key.integer_ne_exec, hint]
  simp [runCode.body, bind, Act.bind, pure, Act.pure, asCode, pop_run _ _ hexec, hlit, ht,
    push_run _ _ hint1]


theorem pushEach_run (n : GoString) (vs : List Value) :
    ∀ (i : Interpreter) (xs : List Value), i.Stacks n = some ⟨xs⟩ →
      pushEach n vs i = (i.setStack n ⟨xs ++ vs⟩, .ok ()) := by
  induction vs with
  | nil =>
    intro i xs h
    simp [pushEach, Act.pure, setStack_self _ _ _ h]
  | cons v vs ih =>
    intro i xs h
    simp [pushEach, Act.bind, push_run _ _ h, ih _ _ (setStack_Stacks_same _ _ _),
      setStack_setStack]

theorem body_composite (L : Lib) (i : Interpreter) (rest : List Value) (t : Code)
    (ht : t.Literal = [])
    (hexec : i.Stacks Key.exec = some ⟨rest ++ [.code t]⟩) :
    runCode.body L i =
      ((i.setStack Key.exec ⟨rest⟩).incr.setStack Key.exec
        ⟨rest ++ t.Elems.reverse.map Value.code⟩, .ok none) := by
  have h1 : (i.setStack Key.exec ⟨rest⟩).incr.Stacks Key.exec = some ⟨rest⟩ := by
    rw [incr_Stacks, setStack_Stacks_same]
  simp [runCode.body, bind, Act.bind, pure, Act.pure, asCode, pop_run _ _ hexec, ht,
    pushEach_run _ _ _ _ h1]

theorem body_unknown_stack (L : Lib) (i : Interpreter) (rest : List Value) (t : Code)
    (hlit : t.Literal ≠ []) (hint : ParseInt t.Literal = none)
    (hfloat : L.ParseFloat t.Literal = none) (hbool : ParseBool t.Literal = none)
    (hdot : containsDot t.Literal = true)
    (hexec : i.Stacks Key.exec = some ⟨rest ++ [.code t]⟩)
    (hS : i.Stacks (ToLower L (beforeDot t.Literal)) = none) :
    runCode.body L i =
      ((i.setStack Key.exec ⟨rest⟩).incr,
        .ok (some ("unknown or disabled stack: ".toList ++ ToLower L (beforeDot t.Literal)))) := by
  have hne : ToLower L (beforeDot t.Literal) ≠ Key.exec := by
    intro h; rw [h, hexec] at hS; cases hS
  have h1 : (i.setStack Key.exec ⟨rest⟩).incr.Stacks (ToLower L (beforeDot t.Literal))
      = none := by
    rw [incr_Stacks, setStack_Stacks_other _ _ hne, hS]
  simp [runCode.body, bind, Act.bind, pure, Act.pure, asCode, pop_run _ _ hexec, hlit, hint,
    hfloat, hbool, hdot, h1]

theorem body_unknown_instruction (L : Lib) (i : Interpreter) (rest : List Value) (t : Code)
    (s : Stack)
    (hlit : t.Literal ≠ []) (hint : ParseInt t.Literal = none)
    (hfloat : L.ParseFloat t.Literal = none) (hbool : ParseBool t.Literal = none)
    (hdot : containsDot t.Literal = true)
    (hexec : i.Stacks Key.exec = some ⟨rest ++ [.code t]⟩)
    (hS : i.Stacks (ToLower L (beforeDot t.Literal)) = some s)
    (hO : Functions L (ToLower L (beforeDot t.Literal)) (ToLower L (afterDot t.Literal))
      = none) :
    runCode.body L i =
      ((i.setStack Key.exec ⟨rest⟩).incr,
        .ok (some ("unknown or disabled instruction ".toList
          ++ ToLower L (beforeDot t.Literal) ++ ".".toList
          ++ ToLower L (afterDot t.Literal)))) := by
  have h1 : ∃ s1, (i.setStack Key.exec ⟨rest⟩).incr.Stacks (ToLower L (beforeDot t.Literal))
      = some s1 := by
    rw [incr_Stacks]
    by_cases hne : ToLower L (beforeDot t.Literal) = Key.exec
    · rw [hne, setStack_Stacks_same]; exact ⟨_, rfl⟩
    · rw [setStack_Stacks_other _ _ hne, hS]; exact ⟨_, rfl⟩
  obtain ⟨s1, h1⟩ := h1
  simp [runCode.body, bind, Act.bind, pure, Act.pure, asCode, pop_run _ _ hexec, hlit, hint,
    hfloat, hbool, hdot, h1, hO]

theorem body_name_push (L : Lib) (i : Interpreter) (rest names : List Value) (t : Code)
    (ht : IsNameToken L t.Literal)
    (hexec : i.Stacks Key.exec = some ⟨rest ++ [.code t]⟩)
    (hname : i.Stacks Key.name = some ⟨names⟩)
    (hq : i.quoteNextName = true ∨ i.Definitions (ToLower L t.Literal) = none) :
    runCode.body L i =
      (((i.setStack Key.exec ⟨rest⟩).incr.setStack Key.name
        ⟨names ++ [.str (ToLower L t.Literal)]⟩).clearQuote, .ok none) := by
  obtain ⟨hlit, hint, hfloat, hbool, hdot⟩ := ht
  have h1 : (i.setStack Key.exec ⟨rest⟩).incr.Stacks Key.name = some ⟨names⟩ := by
    rw [incr_Stacks, setStack_Stacks_other _ _ Key.name_ne_exec, hname]
  have h2 : (if !(i.setStack Key.exec ⟨rest⟩).incr.quoteNextName
      then (i.setStack Key.exec ⟨rest⟩).incr.Definitions (ToLower L t.Literal) else none)
      = none := by
    show (if !i.quoteNextName then i.Definitions (ToLower L t.Literal) else none) = none
    rcases hq with hq | hq
    · simp [hq]
    · simp [hq]
  simp only [runCode.body, bind, Act.bind, pure, Act.pure, asCode, pop_run _ _ hexec, hlit,
    hint, hfloat, hbool, hdot, Bool.false_eq_true, if_false, h2, push_run _ _ h1]

theorem body_name_expand (L : Lib) (i : Interpreter) (rest : List Value) (t d : Code)
    (ht : IsNameToken L t.Literal)
    (hexec : i.Stacks Key.exec = some ⟨rest ++ [.code t]⟩)
    (hq : i.quoteNextName = false) (hd : i.Definitions (ToLower L t.Literal) = some d) :
    runCode.body L i =
      ((i.setStack Key.exec ⟨rest⟩).incr.setStack Key.exec ⟨rest ++ [.code d]⟩,
        .ok none) := by
  obtain ⟨hlit, hint, hfloat, hbool, hdot⟩ := ht
  have h1 : (i.setStack Key.exec ⟨rest⟩).incr.Stacks Key.exec = some ⟨rest⟩ := by
    rw [incr_Stacks, setStack_Stacks_same]
  have h2 : (if !(i.setStack Key.exec ⟨rest⟩).incr.quoteNextName
      then (i.setStack Key.exec ⟨rest⟩).incr.Definitions (ToLower L t.Literal) else none)
      = some d := by
    show (if !i.quoteNextName then i.Definitions (ToLower L t.Literal) else none) = some d
    simp [hq, hd]
  simp only [runCode.body, bind, Act.bind, pure, Act.pure, asCode, pop_run _ _ hexec, hlit,
    hint, hfloat, hbool, hdot, Bool.false_eq_true, if_false, h2, push_run _ _ h1]


theorem body_not_literal (L : Lib) (i : Interpreter) (rest : List Value) (t : Code)
    (hlit : t.Literal ≠ []) (hint : ParseInt t.Literal = none)
    (hfloat : L.ParseFloat t.Literal = none) (hbool : ParseBool t.Literal = none)
    (hexec : i.Stacks Key.exec = some ⟨rest ++ [.code t]⟩) :
    runCode.body L i
      = runCode.instructionOrName L t.Literal (i.setStack Key.exec ⟨rest⟩).incr := by
  simp only [runCode.body, bind, Act.bind, pure, Act.pure, asCode, pop_run _ _ hexec, hlit,
    hint, hfloat, hbool, if_false, runCode.instructionOrName]

theorem runCode_push (L : Lib) (fuel : Nat) (program : Code) (i : Interpreter)
    (ex : List Value) (hexec : i.Stacks Key.exec = some ⟨ex⟩) :
    runCode L fuel program i =
      match runCode.loop L fuel (i.setStack Key.exec ⟨ex ++ [.code program]⟩) with
      | none => none
      | some (i2, .error p) => some (i2, recovered p)
      | some (i2, .ok (some e)) => some (i2, .err (.errorString e))
      | some (i2, .ok none) => some (i2, .nil) := by
  simp only [runCode, push_run _ _ hexec]

theorem incr_setStack (i : Interpreter) (n : GoString) (s : Stack) :
    (i.setStack n s).incr = i.incr.setStack n s := rfl

/-- C2: one iteration of the loop on an atomic token that parses as the
`int64` value `v` pops the token, counts one step, pushes `v` on the integer
stack and goes on with the loop; the Definitions table, the quote-next-name
flag and every stack other than `exec` and `integer` are as before, whatever
the table binds and whether or not the flag is set. -/
theorem integer_literal_step (L : Lib) (i : Interpreter) (rest ints : List Value) (t : Code)
    (v : Int) (fuel : Nat)
    (ht : ParseInt t.Literal = some v)
    (hexec : i.Stacks Key.exec = some ⟨rest ++ [.code t]⟩)
    (hint : i.Stacks Key.integer = some ⟨ints⟩)
    (hbudget : i.numEvalPush < i.Options.EvalPushLimit) :
    runCode.body L i
      = ((i.setStack Key.exec ⟨rest⟩).incr.setStack Key.integer ⟨ints ++ [.int v]⟩, .ok none)
    ∧ runCode.loop L (fuel + 1) i
      = runCode.loop L fuel
          ((i.setStack Key.exec ⟨rest⟩).incr.setStack Key.integer ⟨ints ++ [.int v]⟩)
    ∧ ((i.setStack Key.exec ⟨rest⟩).incr.setStack Key.integer
          ⟨ints ++ [.int v]⟩).Definitions = i.Definitions
    ∧ ((i.setStack Key.exec ⟨rest⟩).incr.setStack Key.integer
          ⟨ints ++ [.int v]⟩).quoteNextName = i.quoteNextName
    ∧ (∀ n, n ≠ Key.exec → n ≠ Key.integer →
        ((i.setStack Key.exec ⟨rest⟩).incr.setStack Key.integer
          ⟨ints ++ [.int v]⟩).Stacks n = i.Stacks n) := by
  have hb := body_int L i rest ints t v ht hexec hint
  refine ⟨hb, ?_, rfl, rfl, ?_⟩
  · rw [loop_succ L fuel i _ hexec (by simp) hbudget, hb]
  · intro n h1 h2
    rw [setStack_Stacks_other _ _ h2, incr_Stacks, setStack_Stacks_other _ _ h1]

theorem integer_literal_step_witness :
    ParseInt (Code.atom "-42".toList).Literal = some (-42)
    ∧ (((Interpreter.sample [.int 7] []).define Lib.integerOnly "-42".toList
          (Code.atom "foo".toList)).quoted.setStack Key.exec
          ⟨[.code (Code.atom "-42".toList)]⟩).Definitions "-42".toList
        = some (Code.atom "foo".toList)
    ∧ runCode.body Lib.integerOnly
        (((Interpreter.sample [.int 7] []).define Lib.integerOnly "-42".toList
          (Code.atom "foo".toList)).quoted.setStack Key.exec
          ⟨[.code (Code.atom "-42".toList)]⟩)
      = (((((Interpreter.sample [.int 7] []).define Lib.integerOnly "-42".toList
          (Code.atom "foo".toList)).quoted.setStack Key.exec
          ⟨[.code (Code.atom "-42".toList)]⟩).setStack Key.exec ⟨[]⟩).incr.setStack
            Key.integer ⟨[.int 7] ++ [.int (-42)]⟩, .ok none) :=
  ⟨by decide, by decide,
    (integer_literal_step Lib.integerOnly
      (((Interpreter.sample [.int 7] []).define Lib.integerOnly "-42".toList
          (Code.atom "foo".toList)).quoted.setStack Key.exec
          ⟨[.code (Code.atom "-42".toList)]⟩)
      [] [.int 7] (Code.atom "-42".toList) (-42) 0 (by decide) (by decide) (by decide)
      (by decide)).1⟩


/-- C7: one iteration of the loop on a name token `t`. When the
quote-next-name flag is set or Definitions has no entry for the lower-cased
`t`, the step pops the token, counts one step, pushes the lower-cased `t` on
the name stack and leaves the flag clear; Definitions and every stack other
than `exec` and `name` are as before. When the flag is clear and the
lower-cased `t` is bound to `d`, the step pops the token, counts one step and
pushes `d` on the exec stack; the name stack and the flag are as before. In
both cases the loop goes on. -/
theorem name_token_step (L : Lib) (i : Interpreter) (rest names : List Value) (t d : Code)
    (fuel : Nat)
    (ht : IsNameToken L t.Literal)
    (hexec : i.Stacks Key.exec = some ⟨rest ++ [.code t]⟩)
    (hbudget : i.numEvalPush < i.Options.EvalPushLimit) :
    ((i.quoteNextName = true ∨ i.Definitions (ToLower L t.Literal) = none) →
      i.Stacks Key.name = some ⟨names⟩ →
        runCode.body L i
          = (((i.setStack Key.exec ⟨rest⟩).incr.setStack Key.name
              ⟨names ++ [.str (ToLower L t.Literal)]⟩).clearQuote, .ok none)
        ∧ runCode.loop L (fuel + 1) i
          = runCode.loop L fuel (((i.setStack Key.exec ⟨rest⟩).incr.setStack Key.name
              ⟨names ++ [.str (ToLower L t.Literal)]⟩).clearQuote)
        ∧ (((i.setStack Key.exec ⟨rest⟩).incr.setStack Key.name
              ⟨names ++ [.str (ToLower L t.Literal)]⟩).clearQuote).quoteNextName = false
        ∧ (((i.setStack Key.exec ⟨rest⟩).incr.setStack Key.name
              ⟨names ++ [.str (ToLower L t.Literal)]⟩).clearQuote).Definitions = i.Definitions
        ∧ (∀ n, n ≠ Key.exec → n ≠ Key.name →
            (((i.setStack Key.exec ⟨rest⟩).incr.setStack Key.name
              ⟨names ++ [.str (ToLower L t.Literal)]⟩).clearQuote).Stacks n = i.Stacks n))
    ∧ (i.quoteNextName = false → i.Definitions (ToLower L t.Literal) = some d →
        runCode.body L i
          = ((i.setStack Key.exec ⟨rest⟩).incr.setStack Key.exec ⟨rest ++ [.code d]⟩,
              .ok none)
        ∧ runCode.loop L (fuel + 1) i
          = runCode.loop L fuel
              ((i.setStack Key.exec ⟨rest⟩).incr.setStack Key.exec ⟨rest ++ [.code d]⟩)
        ∧ ((i.setStack Key.exec ⟨rest⟩).incr.setStack Key.exec
              ⟨rest ++ [.code d]⟩).Stacks Key.name = i.Stacks Key.name
        ∧ ((i.setStack Key.exec ⟨rest⟩).incr.setStack Key.exec
              ⟨rest ++ [.code d]⟩).quoteNextName = i.quoteNextName) := by
  constructor
  · intro hq hname
    have hb := body_name_push L i rest names t ht hexec hname hq
    refine ⟨hb, ?_, rfl, rfl, ?_⟩
    · rw [loop_succ L fuel i _ hexec (by simp) hbudget, hb]
    · intro n h1 h2
      rw [clearQuote_Stacks, setStack_Stacks_other _ _ h2, incr_Stacks,
        setStack_Stacks_other _ _ h1]
  · intro hq hd
    have hb := body_name_expand L i rest t d ht hexec hq hd
    refine ⟨hb, ?_, ?_, rfl⟩
    · rw [loop_succ L fuel i _ hexec (by simp) hbudget, hb]
    · rw [setStack_Stacks_other _ _ Key.name_ne_exec, incr_Stacks,
        setStack_Stacks_other _ _ Key.name_ne_exec]

theorem name_token_step_witness :
    IsNameToken Lib.integerOnly (Code.atom "Foo".toList).Literal
    ∧ runCode.body Lib.integerOnly
        (((Interpreter.sample [] [.str "bar".toList]).define Lib.integerOnly "foo".toList
          (Code.atom "42".toList)).quoted.setStack Key.exec
          ⟨[.code (Code.atom "Foo".toList)]⟩)
      = ((((((Interpreter.sample [] [.str "bar".toList]).define Lib.integerOnly "foo".toList
          (Code.atom "42".toList)).quoted.setStack Key.exec
          ⟨[.code (Code.atom "Foo".toList)]⟩).setStack Key.exec ⟨[]⟩).incr.setStack Key.name
            ⟨[.str "bar".toList]
              ++ [.str (ToLower Lib.integerOnly (Code.atom "Foo".toList).Literal)]⟩).clearQuote,
          .ok none)
    ∧ runCode.body Lib.integerOnly
        (((Interpreter.sample [] [.str "bar".toList]).define Lib.integerOnly "foo".toList
          (Code.atom "42".toList)).setStack Key.exec ⟨[.code (Code.atom "Foo".toList)]⟩)
      = (((((Interpreter.sample [] [.str "bar".toList]).define Lib.integerOnly "foo".toList
          (Code.atom "42".toList)).setStack Key.exec
          ⟨[.code (Code.atom "Foo".toList)]⟩).setStack Key.exec ⟨[]⟩).incr.setStack Key.exec
            ⟨[] ++ [.code (Code.atom "42".toList)]⟩, .ok none) :=
  have ht : IsNameToken Lib.integerOnly (Code.atom "Foo".toList).Literal := by
    unfold IsNameToken; decide
  ⟨ht,
    ((name_token_step Lib.integerOnly
      (((Interpreter.sample [] [.str "bar".toList]).define Lib.integerOnly "foo".toList
          (Code.atom "42".toList)).quoted.setStack Key.exec
          ⟨[.code (Code.atom "Foo".toList)]⟩)
      [] [.str "bar".toList] (Code.atom "Foo".toList) (Code.atom "42".toList) 0 ht
      (by decide) (by decide)).1 (Or.inl (by decide)) (by decide)).1,
    ((name_token_step Lib.integerOnly
      (((Interpreter.sample [] [.str "bar".toList]).define Lib.integerOnly "foo".toList
          (Code.atom "42".toList)).setStack Key.exec ⟨[.code (Code.atom "Foo".toList)]⟩)
      [] [] (Code.atom "Foo".toList) (Code.atom "42".toList) 0 ht
      (by decide) (by decide)).2 (by decide) (by decide)).1⟩


theorem loop_unknown_stack (L : Lib) (i : Interpreter) (rest : List Value) (t : Code)
    (fuel : Nat)
    (hlit : t.Literal ≠ []) (hint : ParseInt t.Literal = none)
    (hfloat : L.ParseFloat t.Literal = none) (hbool : ParseBool t.Literal = none)
    (hdot : containsDot t.Literal = true)
    (hexec : i.Stacks Key.exec = some ⟨rest⟩)
    (hbudget : i.numEvalPush < i.Options.EvalPushLimit)
    (hS : i.Stacks (ToLower L (beforeDot t.Literal)) = none) :
    runCode.loop L (fuel + 1) (i.setStack Key.exec ⟨rest ++ [.code t]⟩)
      = some (i.incr, .ok (some ("unknown or disabled stack: ".toList
          ++ ToLower L (beforeDot t.Literal)))) := by
  have hne : ToLower L (beforeDot t.Literal) ≠ Key.exec := by
    intro h; rw [h, hexec] at hS; cases hS
  have hS1 : (i.setStack Key.exec ⟨rest ++ [.code t]⟩).Stacks
      (ToLower L (beforeDot t.Literal)) = none := by
    rw [setStack_Stacks_other _ _ hne, hS]
  rw [loop_succ L fuel _ _ (setStack_Stacks_same _ _ _) (by simp) hbudget,
    body_unknown_stack L _ rest t hlit hint hfloat hbool hdot (setStack_Stacks_same _ _ _) hS1,
    setStack_setStack, setStack_self _ _ _ hexec]

theorem loop_unknown_instruction (L : Lib) (i : Interpreter) (rest : List Value) (t : Code)
    (s : Stack) (fuel : Nat)
    (hlit : t.Literal ≠ []) (hint : ParseInt t.Literal = none)
    (hfloat : L.ParseFloat t.Literal = none) (hbool : ParseBool t.Literal = none)
    (hdot : containsDot t.Literal = true)
    (hexec : i.Stacks Key.exec = some ⟨rest⟩)
    (hbudget : i.numEvalPush < i.Options.EvalPushLimit)
    (hS : i.Stacks (ToLower L (beforeDot t.Literal)) = some s)
    (hO : Functions L (ToLower L (beforeDot t.Literal)) (ToLower L (afterDot t.Literal))
      = none) :
    runCode.loop L (fuel + 1) (i.setStack Key.exec ⟨rest ++ [.code t]⟩)
      = some (i.incr, .ok (some ("unknown or disabled instruction ".toList
          ++ ToLower L (beforeDot t.Literal) ++ ".".toList
          ++ ToLower L (afterDot t.Literal)))) := by
  have hS1 : ∃ s1, (i.setStack Key.exec ⟨rest ++ [.code t]⟩).Stacks
      (ToLower L (beforeDot t.Literal)) = some s1 := by
    by_cases hne : ToLower L (beforeDot t.Literal) = Key.exec
    · rw [hne, setStack_Stacks_same]; exact ⟨_, rfl⟩
    · rw [setStack_Stacks_other _ _ hne, hS]; exact ⟨_, rfl⟩
  obtain ⟨s1, hS1⟩ := hS1
  rw [loop_succ L fuel _ _ (setStack_Stacks_same _ _ _) (by simp) hbudget,
    body_unknown_instruction L _ rest t s1 hlit hint hfloat hbool hdot
      (setStack_Stacks_same _ _ _) hS1 hO,
    setStack_setStack, setStack_self _ _ _ hexec]

/-- C6: let `t` be an atomic token that contains a dot and is no integer,
float or boolean literal, `S` the lower-cased part before its first dot and
`O` the lower-cased part after it, and let the step counter be below the
limit. If no stack is stored under `S`, `runCode` on `t` returns the error
`unknown or disabled stack: S`; if a stack is stored under `S` whose registry
has no `O`, it returns `unknown or disabled instruction S.O`. In both cases
the state it leaves is the one it started in with the step counter one
higher: every stack (the items of the exec stack below the token included)
and Definitions are as before. The same holds when the loop meets the token
on top of the exec stack in the middle of a run. -/
theorem unknown_stack_or_instruction (L : Lib) (i : Interpreter) (rest : List Value)
    (t : Code) (fuel : Nat)
    (hlit : t.Literal ≠ []) (hint : ParseInt t.Literal = none)
    (hfloat : L.ParseFloat t.Literal = none) (hbool : ParseBool t.Literal = none)
    (hdot : containsDot t.Literal = true)
    (hexec : i.Stacks Key.exec = some ⟨rest⟩)
    (hbudget : i.numEvalPush < i.Options.EvalPushLimit) :
    (i.Stacks (ToLower L (beforeDot t.Literal)) = none →
      runCode L (fuel + 1) t i
        = some (i.incr, .err (.errorString ("unknown or disabled stack: ".toList
            ++ ToLower L (beforeDot t.Literal))))
      ∧ runCode.loop L (fuel + 1) (i.setStack Key.exec ⟨rest ++ [.code t]⟩)
        = some (i.incr, .ok (some ("unknown or disabled stack: ".toList
            ++ ToLower L (beforeDot t.Literal)))))
    ∧ ((i.Stacks (ToLower L (beforeDot t.Literal))).isSome = true →
      Functions L (ToLower L (beforeDot t.Literal)) (ToLower L (afterDot t.Literal)) = none →
      runCode L (fuel + 1) t i
        = some (i.incr, .err (.errorString ("unknown or disabled instruction ".toList
            ++ ToLower L (beforeDot t.Literal) ++ ".".toList
            ++ ToLower L (afterDot t.Literal))))
      ∧ runCode.loop L (fuel + 1) (i.setStack Key.exec ⟨rest ++ [.code t]⟩)
        = some (i.incr, .ok (some ("unknown or disabled instruction ".toList
            ++ ToLower L (beforeDot t.Literal) ++ ".".toList
            ++ ToLower L (afterDot t.Literal)))))
    ∧ i.incr.Stacks = i.Stacks ∧ i.incr.Definitions = i.Definitions
    ∧ i.incr.numEvalPush = i.numEvalPush + 1 := by
  refine ⟨?_, ?_, rfl, rfl, rfl⟩
  · intro hS
    have hl := loop_unknown_stack L i rest t fuel hlit hint hfloat hbool hdot hexec hbudget hS
    exact ⟨by rw [runCode_push L _ t i rest hexec, hl], hl⟩
  · intro hS hO
    obtain ⟨s, hs⟩ := Option.isSome_iff_exists.mp hS
    have hl := loop_unknown_instruction L i rest t s fuel hlit hint hfloat hbool hdot hexec
      hbudget hs hO
    exact ⟨by rw [runCode_push L _ t i rest hexec, hl], hl⟩

theorem unknown_stack_or_instruction_witness :
    runCode Lib.integerOnly 1 (Code.atom "Foo.Bar".toList) (Interpreter.sample [.int 1] [])
        = some ((Interpreter.sample [.int 1] []).incr,
            .err (.errorString "unknown or disabled stack: foo".toList))
    ∧ runCode Lib.integerOnly 1 (Code.atom "Integer.Bar".toList)
          (Interpreter.sample [.int 1] [])
        = some ((Interpreter.sample [.int 1] []).incr,
            .err (.errorString "unknown or disabled instruction integer.bar".toList)) :=
  ⟨((unknown_stack_or_instruction Lib.integerOnly (Interpreter.sample [.int 1] []) []
      (Code.atom "Foo.Bar".toList) 0 (by decide) (by decide) (by decide) (by decide)
      (by decide) (by decide) (by decide)).1 (by decide)).1,
    ((unknown_stack_or_instruction Lib.integerOnly (Interpreter.sample [.int 1] []) []
      (Code.atom "Integer.Bar".toList) 0 (by decide) (by decide) (by decide) (by decide)
      (by decide) (by decide) (by decide)).2.1 (by decide) rfl).1⟩


/-! ## Failed preconditions of the integer instructions -/

theorem onStack_fixed (n : GoString) (m : Stack → Stack) (i : Interpreter)
    (h : ∀ s, i.Stacks n = some s → m s = s) : (onStack n m i).1 = i := by
  unfold onStack
  cases hs : i.Stacks n with
  | none => rfl
  | some s => simp only [h s hs, setStack_self _ _ _ hs]

theorem depth_eq {i : Interpreter} {n : GoString} {s : Stack} (h : i.Stacks n = some s) :
    i.depth n = s.Items.length := by
  simp [Interpreter.depth, h]

theorem rem_noop (i : Interpreter) (h : i.depth Key.integer < 2) :
    (newIntStack.rem i).1 = i := by
  have hok := stackOK_false 2 h
  simp only [Nat.cast_ofNat] at hok
  simp [newIntStack.rem, bind, Act.bind, pure, Act.pure, stackOK, hok]

theorem mul_noop (i : Interpreter) (h : i.depth Key.integer < 2) :
    (newIntStack.mul i).1 = i := by
  have hok := stackOK_false 2 h
  simp only [Nat.cast_ofNat] at hok
  simp [newIntStack.mul, bind, Act.bind, pure, Act.pure, stackOK, hok]

theorem add_noop (i : Interpreter) (h : i.depth Key.integer < 2) :
    (newIntStack.add i).1 = i := by
  have hok := stackOK_false 2 h
  simp only [Nat.cast_ofNat] at hok
  simp [newIntStack.add, bind, Act.bind, pure, Act.pure, stackOK, hok]

theorem sub_noop (i : Interpreter) (h : i.depth Key.integer < 2) :
    (newIntStack.sub i).1 = i := by
  have hok := stackOK_false 2 h
  simp only [Nat.cast_ofNat] at hok
  simp [newIntStack.sub, bind, Act.bind, pure, Act.pure, stackOK, hok]

theorem quo_noop (i : Interpreter) (h : i.depth Key.integer < 2) :
    (newIntStack.quo i).1 = i := by
  have hok := stackOK_false 2 h
  simp only [Nat.cast_ofNat] at hok
  simp [newIntStack.quo, bind, Act.bind, pure, Act.pure, stackOK, hok]

theorem lt_noop (i : Interpreter) (h : i.depth Key.integer < 2) :
    (newIntStack.lt i).1 = i := by
  have hok := stackOK_false 2 h
  simp only [Nat.cast_ofNat] at hok
  simp [newIntStack.lt, bind, Act.bind, pure, Act.pure, stackOK, hok]

theorem eq_noop (i : Interpreter) (h : i.depth Key.integer < 2) :
    (newIntStack.eq i).1 = i := by
  have hok := stackOK_false 2 h
  simp only [Nat.cast_ofNat] at hok
  simp [newIntStack.eq, bind, Act.bind, pure, Act.pure, stackOK, hok]

theorem gt_noop (i : Interpreter) (h : i.depth Key.integer < 2) :
    (newIntStack.gt i).1 = i := by
  have hok := stackOK_false 2 h
  simp only [Nat.cast_ofNat] at hok
  simp [newIntStack.gt, bind, Act.bind, pure, Act.pure, stackOK, hok]

theorem max_noop (i : Interpreter) (h : i.depth Key.integer < 2) :
    (newIntStack.max i).1 = i := by
  have hok := stackOK_false 2 h
  simp only [Nat.cast_ofNat] at hok
  simp [newIntStack.max, bind, Act.bind, pure, Act.pure, stackOK, hok]

theorem min_noop (i : Interpreter) (h : i.depth Key.integer < 2) :
    (newIntStack.min i).1 = i := by
  have hok := stackOK_false 2 h
  simp only [Nat.cast_ofNat] at hok
  simp [newIntStack.min, bind, Act.bind, pure, Act.pure, stackOK, hok]

theorem shove_noop (i : Interpreter) (h : i.depth Key.integer < 2) :
    (newIntStack.shove i).1 = i := by
  have hok := stackOK_false 2 h
  simp only [Nat.cast_ofNat] at hok
  simp [newIntStack.shove, bind, Act.bind, pure, Act.pure, stackOK, hok]

theorem yank_noop (i : Interpreter) (h : i.depth Key.integer < 2) :
    (newIntStack.yank i).1 = i := by
  have hok := stackOK_false 2 h
  simp only [Nat.cast_ofNat] at hok
  simp [newIntStack.yank, bind, Act.bind, pure, Act.pure, stackOK, hok]

theorem yankdup_noop (i : Interpreter) (h : i.depth Key.integer < 2) :
    (newIntStack.yankdup i).1 = i := by
  have hok := stackOK_false 2 h
  simp only [Nat.cast_ofNat] at hok
  simp [newIntStack.yankdup, bind, Act.bind, pure, Act.pure, stackOK, hok]

theorem define_noop (L : Lib) (i : Interpreter)
    (h : i.depth Key.name = 0 ∨ i.depth Key.integer = 0) :
    (newIntStack.define L i).1 = i := by
  rcases h with h | h
  · have hok := stackOK_false (n := Key.name) 1 (by omega : i.depth Key.name < 1)
    simp only [Nat.cast_one] at hok
    simp [newIntStack.define, bind, Act.bind, pure, Act.pure, stackOK, hok]
  · have hok := stackOK_false (n := Key.integer) 1 (by omega : i.depth Key.integer < 1)
    simp only [Nat.cast_one] at hok
    cases hn : i.stackOK Key.name 1 <;>
      simp [newIntStack.define, bind, Act.bind, pure, Act.pure, stackOK, hok, hn]

theorem fromboolean_noop (i : Interpreter) (h : i.depth Key.boolean = 0) :
    (newIntStack.fromboolean i).1 = i := by
  have hok := stackOK_false (n := Key.boolean) 1 (by omega : i.depth Key.boolean < 1)
  simp only [Nat.cast_one] at hok
  simp [newIntStack.fromboolean, bind, Act.bind, pure, Act.pure, stackOK, hok]

theorem fromfloat_noop (L : Lib) (i : Interpreter) (h : i.depth Key.float = 0) :
    (newIntStack.fromfloat L i).1 = i := by
  have hok := stackOK_false (n := Key.float) 1 (by omega : i.depth Key.float < 1)
  simp only [Nat.cast_one] at hok
  simp [newIntStack.fromfloat, bind, Act.bind, pure, Act.pure, stackOK, hok]

theorem dup_noop (i : Interpreter) (h : i.depth Key.integer = 0) :
    (newIntStack.dup i).1 = i := by
  apply onStack_fixed
  intro s hs
  rw [depth_eq hs] at h
  simp [Stack.Dup, h]

theorem pop_noop (i : Interpreter) (h : i.depth Key.integer = 0) :
    (newIntStack.pop i).1 = i := by
  cases hs : i.Stacks Key.integer with
  | none => simp [newIntStack.pop, bind, Act.bind, pop, hs]
  | some s =>
    rw [depth_eq hs] at h
    have h0 : s.Items = [] := List.length_eq_zero.mp h
    have hp : s.Pop = (Value.empty, s) := by simp [Stack.Pop, h0]
    simp [newIntStack.pop, bind, Act.bind, pure, Act.pure, pop, hs, hp,
      setStack_self _ _ _ hs]

theorem swap_noop (i : Interpreter) (h : i.depth Key.integer < 2) :
    (newIntStack.swap i).1 = i := by
  apply onStack_fixed
  intro s hs
  rw [depth_eq hs] at h
  simp [Stack.Swap, h]

theorem rot_noop (i : Interpreter) (h : i.depth Key.integer < 3) :
    (newIntStack.rot i).1 = i := by
  apply onStack_fixed
  intro s hs
  rw [depth_eq hs] at h
  simp [Stack.Rot, h]


/-- C10: an integer instruction whose depth precondition fails leaves the
whole state as it was, so no stack and no Definitions entry changes. The
preconditions are: two integers for `%`, `*`, `+`, `-`, `/`, `<`, `=`, `>`,
`max`, `min`, `shove`, `yank` and `yankdup`; a name and an integer for
`define`; a boolean for `fromboolean`; a float for `fromfloat`; an integer for
`dup` and `pop`; two integers for `swap` and three for `rot`. A stack that is
not registered counts as empty. -/
theorem failed_precondition_changes_nothing (L : Lib) (i : Interpreter) (op : GoString)
    (f : Act Unit) (hf : newIntStack L op = some f)
    (hpre :
      (op ∈ ["%".toList, "*".toList, "+".toList, "-".toList, "/".toList, "<".toList,
          "=".toList, ">".toList, "max".toList, "min".toList, "shove".toList, "yank".toList,
          "yankdup".toList] ∧ i.depth Key.integer < 2)
      ∨ (op = "define".toList ∧ (i.depth Key.name = 0 ∨ i.depth Key.integer = 0))
      ∨ (op = "fromboolean".toList ∧ i.depth Key.boolean = 0)
      ∨ (op = "fromfloat".toList ∧ i.depth Key.float = 0)
      ∨ (op ∈ ["dup".toList, "pop".toList] ∧ i.depth Key.integer = 0)
      ∨ (op = "swap".toList ∧ i.depth Key.integer < 2)
      ∨ (op = "rot".toList ∧ i.depth Key.integer < 3)) :
    (f i).1 = i := by
  rcases hpre with ⟨hop, h⟩ | ⟨rfl, h⟩ | ⟨rfl, h⟩ | ⟨rfl, h⟩ | ⟨hop, h⟩ | ⟨rfl, h⟩ | ⟨rfl, h⟩
  · simp only [List.mem_cons, List.mem_singleton, List.not_mem_nil, or_false] at hop
    rcases hop with rfl | rfl | rfl | rfl | rfl | rfl | rfl | rfl | rfl | rfl | rfl | rfl | rfl
    · cases hf; exact rem_noop i h
    · cases hf; exact mul_noop i h
    · cases hf; exact add_noop i h
    · cases hf; exact sub_noop i h
    · cases hf; exact quo_noop i h
    · cases hf; exact lt_noop i h
    · cases hf; exact eq_noop i h
    · cases hf; exact gt_noop i h
    · cases hf; exact max_noop i h
    · cases hf; exact min_noop i h
    · cases hf; exact shove_noop i h
    · cases hf; exact yank_noop i h
    · cases hf; exact yankdup_noop i h
  · cases hf; exact define_noop L i h
  · cases hf; exact fromboolean_noop i h
  · cases hf; exact fromfloat_noop L i h
  · simp only [List.mem_cons, List.mem_singleton, List.not_mem_nil, or_false] at hop
    rcases hop with rfl | rfl
    · cases hf; exact dup_noop i h
    · cases hf; exact pop_noop i h
  · cases hf; exact swap_noop i h
  · cases hf; exact rot_noop i h

theorem failed_precondition_changes_nothing_witness :
    newIntStack Lib.integerOnly "define".toList = some (newIntStack.define Lib.integerOnly)
    ∧ (Interpreter.sample [.int 5] []).depth Key.name = 0
    ∧ (newIntStack.define Lib.integerOnly (Interpreter.sample [.int 5] [])).1
        = Interpreter.sample [.int 5] [] :=
  ⟨rfl, by decide,
    failed_precondition_changes_nothing Lib.integerOnly (Interpreter.sample [.int 5] [])
      "define".toList (newIntStack.define Lib.integerOnly) rfl
      (Or.inr (Or.inl ⟨rfl, Or.inl (by decide)⟩))⟩


/-! ## Runs over integer literals -/

theorem loop_exec_empty (L : Lib) (fuel : Nat) (i : Interpreter)
    (hexec : i.Stacks Key.exec = some ⟨[]⟩)
    (hbudget : i.numEvalPush < i.Options.EvalPushLimit) :
    runCode.loop L (fuel + 1) i = some (i, .ok none) := by
  have h2 : ¬ (i.numEvalPush ≥ i.Options.EvalPushLimit) := by omega
  simp [runCode.loop, len, hexec, Stack.Len, h2]

theorem loop_int_literals (L : Lib) (cs : List Code) :
    ∀ (vs : List Int) (i : Interpreter) (below ints : List Value) (fuel : Nat),
      List.Forall₂ (fun c v => ParseInt c.Literal = some v) cs vs →
      i.Stacks Key.exec = some ⟨below ++ cs.reverse.map Value.code⟩ →
      i.Stacks Key.integer = some ⟨ints⟩ →
      i.numEvalPush + cs.length ≤ i.Options.EvalPushLimit →
      runCode.loop L (fuel + cs.length) i
        = runCode.loop L fuel
            { Stacks := fun n =>
                if n = Key.integer then some ⟨ints ++ vs.map Value.int⟩
                else if n = Key.exec then some ⟨below⟩ else i.Stacks n
              Options := i.Options
              Rand := i.Rand
              Definitions := i.Definitions
              numEvalPush := i.numEvalPush + cs.length
              quoteNextName := i.quoteNextName } := by
  induction cs with
  | nil =>
    intro vs i below ints fuel hcv hexec hint _
    cases hcv
    congr 1
    refine Interpreter.ext_of (fun n => ?_) rfl rfl (fun _ => rfl) (by simp) rfl
    by_cases h1 : n = Key.integer
    · subst h1; simp [hint]
    · by_cases h2 : n = Key.exec
      · subst h2; simpa using hexec
      · simp [h1, h2]
  | cons c cs ih =>
    intro vs i below ints fuel hcv hexec hint hlim
    cases hcv with
    | cons hc hrest =>
      rename_i v vs
      have hexec1 : i.Stacks Key.exec
          = some ⟨(below ++ cs.reverse.map Value.code) ++ [.code c]⟩ := by
        simpa using hexec
      have hlen : ((c :: cs).length : Int) = (cs.length : Int) + 1 := by simp
      have hbudget : i.numEvalPush < i.Options.EvalPushLimit := by omega
      have hstep := body_int L i _ ints c v hc hexec1 hint
      rw [show fuel + (c :: cs).length = (fuel + cs.length) + 1 from rfl,
        loop_succ L _ i _ hexec1 (by simp) hbudget, hstep]
      simp only
      rw [ih vs ((i.setStack Key.exec ⟨below ++ cs.reverse.map Value.code⟩).incr.setStack
          Key.integer ⟨ints ++ [Value.int v]⟩) below (ints ++ [Value.int v]) fuel hrest
        (by rw [setStack_Stacks_other _ _ Key.exec_ne_integer, incr_Stacks,
          setStack_Stacks_same])
        (setStack_Stacks_same _ _ _)
        (by show i.numEvalPush + 1 + (cs.length : Int) ≤ i.Options.EvalPushLimit; omega)]
      congr 1
      refine Interpreter.ext_of (fun n => ?_) rfl rfl (fun _ => rfl) ?_ rfl
      · by_cases h1 : n = Key.integer
        · subst h1; simp
        · by_cases h2 : n = Key.exec
          · subst h2; simp [h1]
          · simp [h1, h2, Interpreter.setStack, Interpreter.incr]
      · show i.numEvalPush + 1 + (cs.length : Int) = i.numEvalPush + ((c :: cs).length : Int)
        omega

theorem runCode_literal_children (L : Lib) (cs : List Code) (vs : List Int)
    (i : Interpreter) (ints : List Value) (fuel : Nat) (len : Int)
    (hcv : List.Forall₂ (fun c v => ParseInt c.Literal = some v) cs vs)
    (hexec : i.Stacks Key.exec = some ⟨[]⟩)
    (hint : i.Stacks Key.integer = some ⟨ints⟩)
    (hcount : i.numEvalPush = 0)
    (hlimit : (cs.length : Int) + 2 ≤ i.Options.EvalPushLimit)
    (hfuel : cs.length + 2 ≤ fuel) :
    runCode L fuel (Code.mk len [] cs) i
      = some ({ i.setStack Key.integer ⟨ints ++ vs.map Value.int⟩ with
                numEvalPush := (cs.length : Int) + 1 }, Returned.nil) := by
  obtain ⟨k, rfl⟩ : ∃ k, fuel = (k + 1 + cs.length) + 1 := ⟨fuel - (cs.length + 2), by omega⟩
  have hb0 : i.numEvalPush < i.Options.EvalPushLimit := by omega
  rw [runCode_push L _ _ i [] hexec,
    loop_succ L _ _ _ (setStack_Stacks_same _ _ _) (by simp) hb0,
    body_composite L _ [] (Code.mk len [] cs) rfl (setStack_Stacks_same _ _ _)]
  simp only [setStack_setStack, Code.Elems, List.nil_append]
  rw [loop_int_literals L cs vs ((i.setStack Key.exec ⟨[]⟩).incr.setStack Key.exec
      ⟨cs.reverse.map Value.code⟩) [] ints (k + 1) hcv
    (by rw [setStack_Stacks_same]; rfl)
    (by rw [setStack_Stacks_other _ _ Key.integer_ne_exec, incr_Stacks,
      setStack_Stacks_other _ _ Key.integer_ne_exec, hint])
    (by show i.numEvalPush + 1 + (cs.length : Int) ≤ i.Options.EvalPushLimit; omega)]
  rw [loop_exec_empty L k _ (by simp [Key.exec_ne_integer])
    (by show i.numEvalPush + 1 + (cs.length : Int) < i.Options.EvalPushLimit; omega)]
  simp only
  congr 2
  refine Interpreter.ext_of (fun n => ?_) rfl rfl (fun _ => rfl) ?_ rfl
  · by_cases h1 : n = Key.integer
    · subst h1; simp [Interpreter.setStack]
    · by_cases h2 : n = Key.exec
      · subst h2; simp [h1, Interpreter.setStack, hexec]
      · simp [h1, h2, Interpreter.setStack, Interpreter.incr]
  · show i.numEvalPush + 1 + (cs.length : Int) = (cs.length : Int) + 1
    omega


theorem forall₂_Sprint (vs : List Int) (hv : ∀ v ∈ vs, isInt64 v) :
    List.Forall₂ (fun c v => ParseInt c.Literal = some v)
      (vs.map (fun v => Code.atom (Sprint v))) vs := by
  induction vs with
  | nil => exact List.Forall₂.nil
  | cons v vs ih =>
    refine List.Forall₂.cons ?_ (ih (fun w hw => hv w (List.mem_cons_of_mem _ hw)))
    exact ParseInt_Sprint v (hv v (List.mem_cons_self _ _))

/-- C1: on an interpreter with an empty exec stack, step counter `0` and
`EvalPushLimit` at least `n + 2`, `runCode` on the composite whose children
are the decimal literals of the `int64` values `v0, ..., v(n-1)` returns
`nil`; the integer stack is its previous contents followed by
`v0, ..., v(n-1)`, bottom to top, the exec stack is empty again, and every
other stack and Definitions are as before. -/
theorem runCode_integer_literals (L : Lib) (vs : List Int) (i : Interpreter)
    (ints : List Value) (fuel : Nat) (len : Int)
    (hv : ∀ v ∈ vs, isInt64 v)
    (hexec : i.Stacks Key.exec = some ⟨[]⟩)
    (hint : i.Stacks Key.integer = some ⟨ints⟩)
    (hcount : i.numEvalPush = 0)
    (hlimit : (vs.length : Int) + 2 ≤ i.Options.EvalPushLimit)
    (hfuel : vs.length + 2 ≤ fuel) :
    runCode L fuel (Code.mk len [] (vs.map (fun v => Code.atom (Sprint v)))) i
      = some ({ i.setStack Key.integer ⟨ints ++ vs.map Value.int⟩ with
                numEvalPush := (vs.length : Int) + 1 }, Returned.nil)
    ∧ (i.setStack Key.integer ⟨ints ++ vs.map Value.int⟩).Stacks Key.exec = some ⟨[]⟩
    ∧ (i.setStack Key.integer ⟨ints ++ vs.map Value.int⟩).Stacks Key.integer
        = some ⟨ints ++ vs.map Value.int⟩
    ∧ (∀ n, n ≠ Key.integer →
        (i.setStack Key.integer ⟨ints ++ vs.map Value.int⟩).Stacks n = i.Stacks n)
    ∧ (i.setStack Key.integer ⟨ints ++ vs.map Value.int⟩).Definitions = i.Definitions := by
  refine ⟨?_, ?_, setStack_Stacks_same _ _ _, fun n hn => setStack_Stacks_other _ _ hn, rfl⟩
  · have h := runCode_literal_children L (vs.map (fun v => Code.atom (Sprint v))) vs i ints
      fuel len (forall₂_Sprint vs hv) hexec hint hcount (by simpa using hlimit)
      (by simpa using hfuel)
    simpa using h
  · rw [setStack_Stacks_other _ _ Key.exec_ne_integer, hexec]

theorem runCode_integer_literals_witness :
    runCode Lib.integerOnly 4 (Code.mk 3 [] ([1, 2].map (fun v => Code.atom (Sprint v))))
        (Interpreter.sample [.int 5] [])
      = some ({ (Interpreter.sample [.int 5] []).setStack Key.integer
                  ⟨[.int 5] ++ [1, 2].map Value.int⟩ with
                numEvalPush := (([1, 2] : List Int).length : Int) + 1 }, Returned.nil)
    ∧ [1, 2].map (fun v => Code.atom (Sprint v))
        = [Code.atom "1".toList, Code.atom "2".toList] :=
  ⟨(runCode_integer_literals Lib.integerOnly [1, 2] (Interpreter.sample [.int 5] [])
      [.int 5] 4 3 (by decide) (by decide) (by decide) (by decide) (by decide)
      (by decide)).1, by decide⟩


/-! ## `integer.define` and the expansion of a bound name -/

theorem define_run (L : Lib) (i : Interpreter) (ints names : List Value) (v : Int)
    (n : GoString)
    (hint : i.Stacks Key.integer = some ⟨ints ++ [.int v]⟩)
    (hname : i.Stacks Key.name = some ⟨names ++ [.str n]⟩) :
    newIntStack.define L i
      = (((i.setStack Key.name ⟨names⟩).setStack Key.integer ⟨ints⟩).define L n
          (Code.mk 1 (Sprint v) []), .ok ()) := by
  have hok1 : i.stackOK Key.name 1 = true := stackOK_true 1 hname (by simp)
  have hok2 : i.stackOK Key.integer 1 = true := stackOK_true 1 hint (by simp)
  have hint1 : (i.setStack Key.name ⟨names⟩).Stacks Key.integer = some ⟨ints ++ [.int v]⟩ := by
    rw [setStack_Stacks_other _ _ Key.integer_ne_name, hint]
  simp [newIntStack.define, bind, Act.bind, pure, Act.pure, stackOK, hok1, hok2, asString,
    asInt64, pop_run _ _ hname, pop_run _ _ hint1]

theorem loop_bound_name (L : Lib) (j : Interpreter) (ex js : List Value) (t : Code) (v : Int)
    (k : Int) (lit : GoString) (cs : List Code) (fuel : Nat)
    (ht : IsNameToken L t.Literal)
    (hlit : ParseInt lit = some v)
    (hbind : j.Definitions (ToLower L t.Literal) = some (Code.mk k lit cs))
    (hq : j.quoteNextName = false)
    (hexec : j.Stacks Key.exec = some ⟨ex ++ [.code t]⟩)
    (hint : j.Stacks Key.integer = some ⟨js⟩)
    (hbudget : j.numEvalPush + 2 ≤ j.Options.EvalPushLimit) :
    runCode.loop L (fuel + 2) j
      = runCode.loop L fuel
          ((j.setStack Key.exec ⟨ex⟩).incr.incr.setStack Key.integer ⟨js ++ [.int v]⟩) := by
  have hb1 : j.numEvalPush < j.Options.EvalPushLimit := by omega
  rw [loop_succ L (fuel + 1) j _ hexec (by simp) hb1,
    body_name_expand L j ex t _ ht hexec hq hbind]
  simp only
  rw [loop_succ L fuel _ _ (setStack_Stacks_same _ _ _) (by simp)
      (by show j.numEvalPush + 1 < j.Options.EvalPushLimit; omega),
    body_int L _ ex js (Code.mk k lit cs) v hlit (setStack_Stacks_same _ _ _)
      (by rw [setStack_Stacks_other _ _ Key.integer_ne_exec, incr_Stacks,
        setStack_Stacks_other _ _ Key.integer_ne_exec, hint])]
  simp only [setStack_setStack, incr_setStack]


/-- C3, as amended: on a state whose integer stack has the `int64` value `v`
on top and whose name stack has the lower-case name token `n` on top,
`integer.define` pops exactly these two items and binds `n` to the decimal
literal of `v`. In a later state where this binding is in place and the
quote-next-name flag is clear, with at least two steps of budget left, the
loop executes the atomic token `n` by pushing `v` on the integer stack in two
steps; the name stack is as before. -/
theorem integer_define_then_name (L : Lib) (i j : Interpreter)
    (ints names ex js : List Value) (v : Int) (n : GoString) (fuel : Nat)
    (hv : isInt64 v) (hn : IsNameToken L n) (hlow : ToLower L n = n)
    (hint : i.Stacks Key.integer = some ⟨ints ++ [.int v]⟩)
    (hname : i.Stacks Key.name = some ⟨names ++ [.str n]⟩)
    (hbind : j.Definitions n = (newIntStack.define L i).1.Definitions n)
    (hq : j.quoteNextName = false)
    (hexec : j.Stacks Key.exec = some ⟨ex ++ [.code (Code.atom n)]⟩)
    (hjint : j.Stacks Key.integer = some ⟨js⟩)
    (hbudget : j.numEvalPush + 2 ≤ j.Options.EvalPushLimit) :
    Functions L Key.integer "define".toList = some (newIntStack.define L)
    ∧ newIntStack.define L i
        = (((i.setStack Key.name ⟨names⟩).setStack Key.integer ⟨ints⟩).define L n
            (Code.mk 1 (Sprint v) []), .ok ())
    ∧ (newIntStack.define L i).1.Definitions n = some (Code.mk 1 (Sprint v) [])
    ∧ runCode.loop L (fuel + 2) j
        = runCode.loop L fuel
            ((j.setStack Key.exec ⟨ex⟩).incr.incr.setStack Key.integer ⟨js ++ [.int v]⟩)
    ∧ ((j.setStack Key.exec ⟨ex⟩).incr.incr.setStack Key.integer
          ⟨js ++ [.int v]⟩).Stacks Key.name = j.Stacks Key.name := by
  have hd := define_run L i ints names v n hint hname
  have hdef : (newIntStack.define L i).1.Definitions n = some (Code.mk 1 (Sprint v) []) := by
    rw [hd]
    simp [Interpreter.define, hlow]
  refine ⟨rfl, hd, hdef, ?_, ?_⟩
  · refine loop_bound_name L j ex js (Code.atom n) v 1 (Sprint v) [] fuel hn
      (ParseInt_Sprint v hv) ?_ hq hexec hjint hbudget
    show j.Definitions (ToLower L n) = _
    rw [hlow, hbind, hdef]
  · rw [setStack_Stacks_other _ _ Key.name_ne_integer]
    show (j.setStack Key.exec ⟨ex⟩).Stacks Key.name = _
    rw [setStack_Stacks_other _ _ Key.name_ne_exec]

theorem integer_define_then_name_witness :
    IsNameToken Lib.integerOnly "foo".toList
    ∧ newIntStack.define Lib.integerOnly (Interpreter.sample [.int 42] [.str "foo".toList])
        = ((((Interpreter.sample [.int 42] [.str "foo".toList]).setStack Key.name
              ⟨[]⟩).setStack Key.integer ⟨[]⟩).define Lib.integerOnly "foo".toList
            (Code.mk 1 (Sprint 42) []), .ok ())
    ∧ runCode.loop Lib.integerOnly (1 + 2)
          ((newIntStack.define Lib.integerOnly
            (Interpreter.sample [.int 42] [.str "foo".toList])).1.setStack Key.exec
              ⟨[.code (Code.atom "foo".toList)]⟩)
        = runCode.loop Lib.integerOnly 1
            ((((newIntStack.define Lib.integerOnly
              (Interpreter.sample [.int 42] [.str "foo".toList])).1.setStack Key.exec
                ⟨[.code (Code.atom "foo".toList)]⟩).setStack Key.exec
                  ⟨[]⟩).incr.incr.setStack Key.integer ⟨[] ++ [.int 42]⟩) :=
  have ht : IsNameToken Lib.integerOnly "foo".toList := by unfold IsNameToken; decide
  have h := integer_define_then_name Lib.integerOnly
    (Interpreter.sample [.int 42] [.str "foo".toList])
    ((newIntStack.define Lib.integerOnly
      (Interpreter.sample [.int 42] [.str "foo".toList])).1.setStack Key.exec
        ⟨[.code (Code.atom "foo".toList)]⟩)
    [] [] [] [] 42 "foo".toList 1 (by decide) ht (by decide) (by decide) (by decide) rfl
    (by decide) (by decide) (by decide) (by decide)
  ⟨ht, h.2.1, h.2.2.2.1⟩

/-- C3, counterexample: with the quote-next-name flag set, `integer.define`
binds `foo` to `42`, and the run of the token `foo` that follows pushes `foo`
on the name stack and nothing on the integer stack. -/
theorem integer_define_then_quoted_name :
    IsNameToken Lib.integerOnly "foo".toList
    ∧ ToLower Lib.integerOnly "foo".toList = "foo".toList
    ∧ (newIntStack.define Lib.integerOnly
        (Interpreter.sample [.int 42] [.str "foo".toList]).quoted).2 = .ok ()
    ∧ (newIntStack.define Lib.integerOnly
        (Interpreter.sample [.int 42] [.str "foo".toList]).quoted).1.Definitions "foo".toList
        = some (Code.mk 1 "42".toList [])
    ∧ (newIntStack.define Lib.integerOnly
        (Interpreter.sample [.int 42] [.str "foo".toList]).quoted).1.Stacks Key.name
        = some ⟨[]⟩
    ∧ (runCode Lib.integerOnly 3 (Code.atom "foo".toList)
        (newIntStack.define Lib.integerOnly
          (Interpreter.sample [.int 42] [.str "foo".toList]).quoted).1).map
          (fun r => (r.1.Stacks Key.integer, r.1.Stacks Key.name, r.2))
        = some (some ⟨[]⟩, some ⟨[.str "foo".toList]⟩, Returned.nil) := by
  refine ⟨?_, ?_, ?_, ?_, ?_, ?_⟩
  · unfold IsNameToken; decide
  · decide
  · rfl
  · decide
  · decide
  · decide


/-! ## A name bound to a tree that contains the name -/

theorem ExpandingExec.ne_nil {n : GoString} {items : List Value}
    (h : ExpandingExec n items) : items ≠ [] := by
  obtain ⟨-, c, hc, -⟩ := h
  intro h0
  rw [h0] at hc
  cases hc

theorem body_expanding (L : Lib) (n : GoString) (t : Code) (i : Interpreter)
    (hn : IsNameToken L n) (hlow : ToLower L n = n)
    (hleaf : HasLeaf n t) (hleaves : LeavesIn n t) (hinv : Expanding n t i) :
    ∃ i1, runCode.body L i = (i1, .ok none) ∧ Expanding n t i1
      ∧ i1.numEvalPush = i.numEvalPush + 1 ∧ i1.Options = i.Options := by
  obtain ⟨⟨items, hexec, hitems⟩, ⟨ints, hint⟩, hq, hbind⟩ := hinv
  obtain ⟨hall, c0, hc0, hc0leaf⟩ := hitems
  rcases List.eq_nil_or_concat items with h0 | ⟨rest, x, h1⟩
  · rw [h0] at hc0; cases hc0
  rw [List.concat_eq_append] at h1
  subst h1
  obtain ⟨c, rfl, hc⟩ := hall x (by simp)
  have hallrest : ∀ y ∈ rest, ∃ d, y = Value.code d ∧ LeavesIn n d :=
    fun y hy => hall y (by simp [hy])
  have hc0' : Value.code c0 ∈ rest ∨ c0 = c := by
    simp only [List.mem_append, List.mem_singleton] at hc0
    rcases hc0 with h | h
    · exact Or.inl h
    · exact Or.inr (by cases h; rfl)
  obtain ⟨hne, hnint, -, -, -⟩ := id hn
  cases hc with
  | name k cs =>
    have hb := body_name_expand L i rest (Code.mk k n cs) t hn hexec hq
      (by show i.Definitions (ToLower L n) = some t; rw [hlow, hbind])
    refine ⟨_, hb, ⟨⟨_, setStack_Stacks_same _ _ _, ?_, t, by simp, hleaf⟩, ⟨ints, ?_⟩, hq, hbind⟩,
      rfl, rfl⟩
    · intro y hy
      simp only [List.mem_append, List.mem_singleton] at hy
      rcases hy with hy | rfl
      · exact hallrest y hy
      · exact ⟨t, rfl, hleaves⟩
    · rw [setStack_Stacks_other _ _ Key.integer_ne_exec, incr_Stacks,
        setStack_Stacks_other _ _ Key.integer_ne_exec, hint]
  | int k l cs v hv =>
    have hb := body_int L i rest ints (Code.mk k l cs) v hv hexec hint
    have hrest : Value.code c0 ∈ rest := by
      rcases hc0' with h | rfl
      · exact h
      · exfalso
        cases hc0leaf with
        | here => rw [hnint] at hv; cases hv
        | inside _ _ _ _ => cases hv
    refine ⟨_, hb, ⟨⟨rest, ?_, hallrest, c0, hrest, hc0leaf⟩, ⟨_, setStack_Stacks_same _ _ _⟩,
      hq, hbind⟩, rfl, rfl⟩
    rw [setStack_Stacks_other _ _ Key.exec_ne_integer, incr_Stacks, setStack_Stacks_same]
  | node k cs hcs =>
    have hb := body_composite L i rest (Code.mk k [] cs) rfl hexec
    refine ⟨_, hb, ⟨⟨_, setStack_Stacks_same _ _ _, ?_, ?_⟩, ⟨ints, ?_⟩, hq, hbind⟩, rfl, rfl⟩
    · intro y hy
      simp only [Code.Elems, List.mem_append, List.mem_map, List.mem_reverse] at hy
      rcases hy with hy | ⟨d, hd, rfl⟩
      · exact hallrest y hy
      · exact ⟨d, rfl, hcs d hd⟩
    · rcases hc0' with h | rfl
      · exact ⟨c0, by simp [h], hc0leaf⟩
      · cases hc0leaf with
        | here => exact absurd rfl hne
        | inside _ _ d hd hdleaf =>
          exact ⟨d, by simp [Code.Elems, hd], hdleaf⟩
    · rw [setStack_Stacks_other _ _ Key.integer_ne_exec, incr_Stacks,
        setStack_Stacks_other _ _ Key.integer_ne_exec, hint]

theorem loop_expanding (L : Lib) (n : GoString) (t : Code)
    (hn : IsNameToken L n) (hlow : ToLower L n = n)
    (hleaf : HasLeaf n t) (hleaves : LeavesIn n t) (m : Nat) :
    ∀ (i : Interpreter) (fuel : Nat), Expanding n t i →
      i.numEvalPush + m = i.Options.EvalPushLimit → m < fuel →
      ∃ r, runCode.loop L fuel i
            = some (r, .ok (some "the EvalPushLimit was exceeded".toList))
        ∧ r.numEvalPush = i.Options.EvalPushLimit ∧ Expanding n t r := by
  induction m with
  | zero =>
    intro i fuel hinv hm hfuel
    obtain ⟨k, rfl⟩ : ∃ k, fuel = k + 1 := ⟨fuel - 1, by omega⟩
    obtain ⟨⟨items, hexec, hitems⟩, -⟩ := id hinv
    have h1 : ¬ (i.numEvalPush < i.Options.EvalPushLimit) := by
      simp only [Nat.cast_zero, add_zero] at hm; omega
    have h2 : i.numEvalPush ≥ i.Options.EvalPushLimit := by omega
    refine ⟨i, ?_, by simp only [Nat.cast_zero, add_zero] at hm; exact hm, hinv⟩
    simp [runCode.loop, len, hexec, h1, h2]
  | succ m ih =>
    intro i fuel hinv hm hfuel
    obtain ⟨k, rfl⟩ : ∃ k, fuel = k + 1 := ⟨fuel - 1, by omega⟩
    obtain ⟨⟨items, hexec, hitems⟩, -⟩ := id hinv
    have hb : i.numEvalPush < i.Options.EvalPushLimit := by
      push_cast at hm; omega
    obtain ⟨i1, hbody, hinv1, hcount1, hopt1⟩ :=
      body_expanding L n t i hn hlow hleaf hleaves hinv
    obtain ⟨r, hr, hrc, hrinv⟩ := ih i1 k hinv1
      (by rw [hcount1, hopt1]; push_cast at hm; omega) (by omega)
    refine ⟨r, ?_, by rw [hrc, hopt1], hrinv⟩
    rw [loop_succ L k i _ hexec hitems.ne_nil hb, hbody]
    exact hr


/-- C4: let the name token `n` be bound to a tree `t` that has `n` as a leaf
and whose other leaves are integer literals. On an interpreter with step
counter `0`, empty exec stack, clear quote-next-name flag and
`EvalPushLimit` at least `1`, `runCode` on the atom `n` ends (any `fuel` above
the limit suffices), returns the error `the EvalPushLimit was exceeded`, and
leaves the step counter equal to `EvalPushLimit` and the exec stack
non-empty. -/
theorem runaway_expansion_stops_at_limit (L : Lib) (i : Interpreter) (n : GoString)
    (t : Code) (ints : List Value) (fuel : Nat)
    (hn : IsNameToken L n) (hlow : ToLower L n = n)
    (hleaf : HasLeaf n t) (hleaves : LeavesIn n t)
    (hlimit : 1 ≤ i.Options.EvalPushLimit)
    (hcount : i.numEvalPush = 0)
    (hexec : i.Stacks Key.exec = some ⟨[]⟩)
    (hq : i.quoteNextName = false)
    (hint : i.Stacks Key.integer = some ⟨ints⟩)
    (hbind : i.Definitions n = some t)
    (hfuel : i.Options.EvalPushLimit < fuel) :
    ∃ r items,
      runCode L fuel (Code.atom n) i
        = some (r, .err (.errorString "the EvalPushLimit was exceeded".toList))
      ∧ r.numEvalPush = i.Options.EvalPushLimit
      ∧ r.Stacks Key.exec = some ⟨items⟩ ∧ items ≠ [] := by
  have hinv : Expanding n t (i.setStack Key.exec ⟨[] ++ [.code (Code.atom n)]⟩) := by
    refine ⟨⟨_, setStack_Stacks_same _ _ _, ?_, Code.atom n, by simp, HasLeaf.here 1 []⟩,
      ⟨ints, ?_⟩, hq, hbind⟩
    · intro x hx
      simp only [List.nil_append, List.mem_singleton] at hx
      exact ⟨Code.atom n, hx, LeavesIn.name 1 []⟩
    · rw [setStack_Stacks_other _ _ Key.integer_ne_exec, hint]
  obtain ⟨r, hr, hrc, ⟨items, hritems, hexp⟩, -⟩ :=
    loop_expanding L n t hn hlow hleaf hleaves i.Options.EvalPushLimit.toNat
      (i.setStack Key.exec ⟨[] ++ [.code (Code.atom n)]⟩) fuel hinv
      (by show i.numEvalPush + (i.Options.EvalPushLimit.toNat : Int) = i.Options.EvalPushLimit
          omega)
      (by omega)
  refine ⟨r, items, ?_, hrc, hritems, hexp.ne_nil⟩
  rw [runCode_push L fuel (Code.atom n) i [] hexec, hr]

theorem runaway_expansion_stops_at_limit_witness :
    ∃ r items,
      runCode Lib.integerOnly 1001 (Code.atom "x".toList)
          ((Interpreter.sample [] []).define Lib.integerOnly "x".toList
            (Code.mk 2 [] [Code.atom "x".toList, Code.atom "1".toList]))
        = some (r, .err (.errorString "the EvalPushLimit was exceeded".toList))
      ∧ r.numEvalPush = 1000
      ∧ r.Stacks Key.exec = some ⟨items⟩ ∧ items ≠ [] :=
  runaway_expansion_stops_at_limit Lib.integerOnly
    ((Interpreter.sample [] []).define Lib.integerOnly "x".toList
      (Code.mk 2 [] [Code.atom "x".toList, Code.atom "1".toList]))
    "x".toList (Code.mk 2 [] [Code.atom "x".toList, Code.atom "1".toList]) [] 1001
    (by unfold IsNameToken; decide) (by decide)
    (HasLeaf.inside 2 _ (Code.atom "x".toList) (by simp) (HasLeaf.here 1 []))
    (LeavesIn.node 2 _ (by
      intro c hc
      simp only [List.mem_cons, List.mem_singleton, List.not_mem_nil, or_false] at hc
      rcases hc with rfl | rfl
      · exact LeavesIn.name 1 []
      · exact LeavesIn.int 1 _ [] 1 (by decide)))
    (by decide) (by decide) (by decide) (by decide) (by decide) (by decide) (by decide)


/-! ## The errors `runCode` returns -/

theorem bind_pure_none_ne {α : Type} (m : Act α) (i i2 : Interpreter) (e : GoString) :
    (m.bind fun _ => Act.pure (none : Option GoString)) i ≠ (i2, .ok (some e)) := by
  unfold Act.bind Act.pure
  split <;> simp

theorem headAfter_loop (L : Lib) (n : Nat) :
    ∀ (i j : Interpreter) (m : Nat), runCode.headAfter L n i = some j →
      runCode.loop L (n + m) i = runCode.loop L m j := by
  induction n with
  | zero =>
    intro i j m h
    simp only [runCode.headAfter, Option.some.injEq] at h
    subst h
    simp
  | succ n ih =>
    intro i j m h
    simp only [runCode.headAfter] at h
    split at h
    · simp at h
    · rename_i i1 k hlen
      split at h
      · rename_i hcond
        split at h
        · rename_i i2 hbody
          have hfuel : n + 1 + m = (n + m) + 1 := by omega
          rw [hfuel]
          simp only [runCode.loop, hlen, if_pos hcond, hbody]
          exact ih _ _ _ h
        · simp at h
      · simp at h

theorem loop_first (L : Lib) (i : Interpreter) :
    (∃ y, ∀ fuel, runCode.loop L (fuel + 1) i = some y)
    ∨ ∃ i2, (∀ fuel, runCode.loop L (fuel + 1) i = runCode.loop L fuel i2)
        ∧ ∀ n, runCode.headAfter L (n + 1) i = runCode.headAfter L n i2 := by
  cases hlen : len Key.exec i with
  | mk i1 res =>
    cases res with
    | error p =>
      exact Or.inl ⟨(i1, .error p), fun fuel => by simp only [runCode.loop, hlen]⟩
    | ok k =>
      by_cases hcond : k > 0 ∧ i1.numEvalPush < i1.Options.EvalPushLimit
      · cases hbody : runCode.body L i1 with
        | mk i2 out =>
          cases out with
          | error p =>
            exact Or.inl ⟨(i2, .error p), fun fuel => by
              simp only [runCode.loop, hlen, if_pos hcond, hbody]⟩
          | ok o =>
            cases o with
            | some e =>
              exact Or.inl ⟨(i2, .ok (some e)), fun fuel => by
                simp only [runCode.loop, hlen, if_pos hcond, hbody]⟩
            | none =>
              exact Or.inr ⟨i2, fun fuel => by
                  simp only [runCode.loop, hlen, if_pos hcond, hbody],
                fun n => by simp only [runCode.headAfter, hlen, if_pos hcond, hbody]⟩
      · by_cases hge : i1.numEvalPush ≥ i1.Options.EvalPushLimit
        · exact Or.inl ⟨(i1, .ok (some "the EvalPushLimit was exceeded".toList)), fun fuel => by
            simp only [runCode.loop, hlen, if_neg hcond, if_pos hge]⟩
        · exact Or.inl ⟨(i1, .ok none), fun fuel => by
            simp only [runCode.loop, hlen, if_neg hcond, if_neg hge]⟩

theorem loop_headAfter (L : Lib) (fuel : Nat) :
    ∀ (i : Interpreter) (x : Interpreter × Except Panic (Option GoString)),
      runCode.loop L fuel i = some x →
      ∃ n j, n < fuel ∧ runCode.headAfter L n i = some j ∧ runCode.loop L 1 j = some x := by
  induction fuel with
  | zero => intro i x h; simp [runCode.loop] at h
  | succ fuel ih =>
    intro i x h
    rcases loop_first L i with ⟨y, hy⟩ | ⟨i2, hloop, hhead⟩
    · rw [hy fuel] at h
      exact ⟨0, i, by omega, rfl, by rw [hy 0, h]⟩
    · rw [hloop fuel] at h
      obtain ⟨n, j, hn, hj, hx⟩ := ih i2 x h
      exact ⟨n + 1, j, by omega, by rw [hhead n, hj], hx⟩

theorem body_literal_continues (L : Lib) (i i2 : Interpreter) (xs : List Value) (t : Code)
    (e : GoString) (hexec : i.Stacks Key.exec = some ⟨xs ++ [.code t]⟩)
    (h : t.Literal = [] ∨ ParseInt t.Literal ≠ none ∨ L.ParseFloat t.Literal ≠ none
      ∨ ParseBool t.Literal ≠ none) :
    runCode.body L i ≠ (i2, .ok (some e)) := by
  by_cases hlit : t.Literal = []
  · rw [body_composite L i xs t hlit hexec]
    simp
  · cases hP : ParseInt t.Literal with
    | some v =>
      have hb : runCode.body L i
          = ((push Key.integer (.int v)).bind fun _ => Act.pure none)
              (i.setStack Key.exec ⟨xs⟩).incr := by
        simp [runCode.body, bind, Act.bind, pure, Act.pure, asCode, pop_run _ _ hexec, hlit, hP]
      rw [hb]
      exact bind_pure_none_ne _ _ _ _
    | none =>
      cases hF : L.ParseFloat t.Literal with
      | some v =>
        have hb : runCode.body L i
            = ((push Key.float (.float v)).bind fun _ => Act.pure none)
                (i.setStack Key.exec ⟨xs⟩).incr := by
          simp [runCode.body, bind, Act.bind, pure, Act.pure, asCode, pop_run _ _ hexec, hlit,
            hP, hF]
        rw [hb]
        exact bind_pure_none_ne _ _ _ _
      | none =>
        cases hB : ParseBool t.Literal with
        | some v =>
          have hb : runCode.body L i
              = ((push Key.boolean (.bool v)).bind fun _ => Act.pure none)
                  (i.setStack Key.exec ⟨xs⟩).incr := by
            simp [runCode.body, bind, Act.bind, pure, Act.pure, asCode, pop_run _ _ hexec, hlit,
              hP, hF, hB]
          rw [hb]
          exact bind_pure_none_ne _ _ _ _
        | none =>
          rcases h with h | h | h | h
          · exact absurd h hlit
          · exact absurd hP h
          · exact absurd hF h
          · exact absurd hB h

theorem body_error_token (L : Lib) (i r : Interpreter) (e : GoString)
    (h : runCode.body L i = (r, .ok (some e))) :
    ∃ xs t, i.Stacks Key.exec = some ⟨xs ++ [.code t]⟩ ∧ IsInstructionToken L t.Literal
      ∧ r = (i.setStack Key.exec ⟨xs⟩).incr
      ∧ ((i.Stacks (ToLower L (beforeDot t.Literal)) = none
          ∧ e = "unknown or disabled stack: ".toList ++ ToLower L (beforeDot t.Literal))
        ∨ ((∃ s, i.Stacks (ToLower L (beforeDot t.Literal)) = some s)
          ∧ Functions L (ToLower L (beforeDot t.Literal)) (ToLower L (afterDot t.Literal)) = none
          ∧ e = "unknown or disabled instruction ".toList ++ ToLower L (beforeDot t.Literal)
              ++ ".".toList ++ ToLower L (afterDot t.Literal))) := by
  cases hs : i.Stacks Key.exec with
  | none =>
    simp [runCode.body, bind, Act.bind, pop, hs] at h
  | some s =>
    obtain ⟨items⟩ := s
    rcases List.eq_nil_or_concat items with rfl | ⟨xs, v, rfl⟩
    · simp [runCode.body, bind, Act.bind, pop, hs, Stack.Pop, asCode, Act.panic] at h
    · rw [List.concat_eq_append] at hs
      cases v with
      | code t =>
        by_cases hlit : t.Literal = []
        · exact absurd h (body_literal_continues L i r xs t e hs (Or.inl hlit))
        · cases hP : ParseInt t.Literal with
          | some v =>
            exact absurd h (body_literal_continues L i r xs t e hs
              (Or.inr (Or.inl (by rw [hP]; simp))))
          | none =>
            cases hF : L.ParseFloat t.Literal with
            | some v =>
              exact absurd h (body_literal_continues L i r xs t e hs
                (Or.inr (Or.inr (Or.inl (by rw [hF]; simp)))))
            | none =>
              cases hB : ParseBool t.Literal with
              | some v =>
                exact absurd h (body_literal_continues L i r xs t e hs
                  (Or.inr (Or.inr (Or.inr (by rw [hB]; simp)))))
              | none =>
                rw [body_not_literal L i xs t hlit hP hF hB hs] at h
                unfold runCode.instructionOrName at h
                by_cases hdot : containsDot t.Literal = true
                · refine ⟨xs, t, by rw [List.concat_eq_append], ⟨hlit, hP, hF, hB, hdot⟩, ?_⟩
                  simp only [hdot, if_true] at h
                  split at h
                  · rename_i hS
                    simp only [Prod.mk.injEq, Except.ok.injEq, Option.some.injEq] at h
                    have hS2 : i.Stacks (ToLower L (beforeDot t.Literal)) = none := by
                      by_cases hx : ToLower L (beforeDot t.Literal) = Key.exec
                      · rw [hx, incr_Stacks, setStack_Stacks_same] at hS
                        cases hS
                      · rw [incr_Stacks, setStack_Stacks_other _ _ hx] at hS
                        exact hS
                    exact ⟨h.1.symm, Or.inl ⟨hS2, h.2.symm⟩⟩
                  · rename_i s0 hS
                    have hS2 : ∃ s, i.Stacks (ToLower L (beforeDot t.Literal)) = some s := by
                      by_cases hx : ToLower L (beforeDot t.Literal) = Key.exec
                      · rw [hx, hs]
                        exact ⟨_, rfl⟩
                      · rw [incr_Stacks, setStack_Stacks_other _ _ hx] at hS
                        exact ⟨_, hS⟩
                    split at h
                    · rename_i hO
                      simp only [Prod.mk.injEq, Except.ok.injEq, Option.some.injEq] at h
                      exact ⟨h.1.symm, Or.inr ⟨hS2, hO, h.2.symm⟩⟩
                    · split at h <;> simp at h
                · simp only [hdot, Bool.false_eq_true, if_false] at h
                  split at h
                  · split at h <;> simp at h
                  · split at h <;> simp at h
      | int _ => simp [runCode.body, bind, Act.bind, pop_run _ _ hs, asCode, Act.panic] at h
      | float _ => simp [runCode.body, bind, Act.bind, pop_run _ _ hs, asCode, Act.panic] at h
      | bool _ => simp [runCode.body, bind, Act.bind, pop_run _ _ hs, asCode, Act.panic] at h
      | str _ => simp [runCode.body, bind, Act.bind, pop_run _ _ hs, asCode, Act.panic] at h
      | empty => simp [runCode.body, bind, Act.bind, pop_run _ _ hs, asCode, Act.panic] at h

theorem loop_at_limit (L : Lib) (fuel : Nat) (j : Interpreter) (s : Stack)
    (hexec : j.Stacks Key.exec = some s)
    (hj : j.numEvalPush ≥ j.Options.EvalPushLimit) :
    runCode.loop L (fuel + 1) j
      = some (j, .ok (some "the EvalPushLimit was exceeded".toList)) := by
  have h1 : ¬ (j.numEvalPush < j.Options.EvalPushLimit) := by omega
  simp [runCode.loop, len, hexec, h1, hj]

theorem loop_one_shape (L : Lib) (j r : Interpreter) (out : Except Panic (Option GoString))
    (h : runCode.loop L 1 j = some (r, out)) :
    (j.Stacks Key.exec = some ⟨[]⟩ ∧ j.numEvalPush < j.Options.EvalPushLimit ∧ r = j
      ∧ out = .ok none)
    ∨ ((∃ s, j.Stacks Key.exec = some s) ∧ j.numEvalPush ≥ j.Options.EvalPushLimit ∧ r = j
      ∧ out = .ok (some "the EvalPushLimit was exceeded".toList))
    ∨ (∃ e, j.numEvalPush < j.Options.EvalPushLimit ∧ runCode.body L j = (r, .ok (some e))
      ∧ out = .ok (some e))
    ∨ ∃ p, out = .error p ∧ ((j.Stacks Key.exec = none ∧ r = j ∧ p = nilDereference)
      ∨ ∃ s, j.Stacks Key.exec = some s ∧ s.Items ≠ []
        ∧ j.numEvalPush < j.Options.EvalPushLimit ∧ runCode.body L j = (r, .error p)) := by
  cases hs : j.Stacks Key.exec with
  | none =>
    simp only [runCode.loop, len, hs, Option.some.injEq, Prod.mk.injEq] at h
    exact Or.inr (Or.inr (Or.inr ⟨nilDereference, h.2.symm, Or.inl ⟨rfl, h.1.symm, rfl⟩⟩))
  | some s =>
    by_cases hb : j.numEvalPush < j.Options.EvalPushLimit
    · by_cases hne : s.Items = []
      · have hs2 : j.Stacks Key.exec = some ⟨[]⟩ := by
          rw [hs]; cases s; simp only at hne; rw [hne]
        rw [loop_exec_empty L 0 j hs2 hb] at h
        simp only [Option.some.injEq, Prod.mk.injEq] at h
        refine Or.inl ⟨?_, hb, h.1.symm, h.2.symm⟩
        cases s; simp only at hne; rw [hne]
      · have hsucc := loop_succ L 0 j s hs hne hb
        simp only [Nat.zero_add] at hsucc
        rw [hsucc] at h
        split at h
        · rename_i i2 p hbody
          simp only [Option.some.injEq, Prod.mk.injEq] at h
          obtain ⟨rfl, rfl⟩ := h
          exact Or.inr (Or.inr (Or.inr ⟨p, rfl, Or.inr ⟨s, rfl, hne, hb, hbody⟩⟩))
        · rename_i i2 e hbody
          simp only [Option.some.injEq, Prod.mk.injEq] at h
          obtain ⟨rfl, rfl⟩ := h
          exact Or.inr (Or.inr (Or.inl ⟨e, hb, hbody, rfl⟩))
        · simp [runCode.loop] at h
    · have hge : j.numEvalPush ≥ j.Options.EvalPushLimit := by omega
      rw [loop_at_limit L 0 j s hs hge] at h
      simp only [Option.some.injEq, Prod.mk.injEq] at h
      exact Or.inr (Or.inl ⟨⟨s, rfl⟩, hge, h.1.symm, h.2.symm⟩)

/-- C5, as amended: a call of `runCode` that stops has run some complete
iterations of its loop and then ended in one of five ways, each of which
fixes what is returned. The loop test failed with the exec stack empty and the
step counter below `EvalPushLimit`: `nil`. The loop test failed with the step
counter at or above `EvalPushLimit`: the `EvalPushLimit` error, also when the
exec stack is empty. The item on top of the exec stack was a dotted token
that is no literal, with the lower-cased stack part `S` and instruction part
`O`: the error `unknown or disabled stack: S` when no stack is registered
under `S`, the error `unknown or disabled instruction S.O` when the stack is
registered and has no instruction `O`. The iteration panicked: what the
deferred function makes of the panic. The first conjunct gives the value
returned for each way of ending, the second says that every call that stops
has ended in one of them, the third that `nil` is returned exactly when the
loop test failed with the exec stack empty and the step counter below
`EvalPushLimit`. -/
theorem runCode_empty_exec_return (L : Lib) (program : Code) (i : Interpreter)
    (ex : List Value) (hexec : i.Stacks Key.exec = some ⟨ex⟩) :
    (∀ (n fuel : Nat) (j : Interpreter),
        runCode.headAfter L n (i.setStack Key.exec ⟨ex ++ [.code program]⟩) = some j →
        n < fuel →
        (j.Stacks Key.exec = some ⟨[]⟩ → j.numEvalPush < j.Options.EvalPushLimit →
          runCode L fuel program i = some (j, .nil))
        ∧ (∀ s, j.Stacks Key.exec = some s → j.numEvalPush ≥ j.Options.EvalPushLimit →
          runCode L fuel program i
            = some (j, .err (.errorString "the EvalPushLimit was exceeded".toList)))
        ∧ (∀ xs t, j.Stacks Key.exec = some ⟨xs ++ [.code t]⟩ →
            j.numEvalPush < j.Options.EvalPushLimit → IsInstructionToken L t.Literal →
            (j.Stacks (ToLower L (beforeDot t.Literal)) = none →
              runCode L fuel program i = some ((j.setStack Key.exec ⟨xs⟩).incr,
                .err (.errorString ("unknown or disabled stack: ".toList
                  ++ ToLower L (beforeDot t.Literal)))))
            ∧ ((∃ s, j.Stacks (ToLower L (beforeDot t.Literal)) = some s) →
              Functions L (ToLower L (beforeDot t.Literal)) (ToLower L (afterDot t.Literal))
                = none →
              runCode L fuel program i = some ((j.setStack Key.exec ⟨xs⟩).incr,
                .err (.errorString ("unknown or disabled instruction ".toList
                  ++ ToLower L (beforeDot t.Literal) ++ ".".toList
                  ++ ToLower L (afterDot t.Literal))))))
        ∧ (∀ s r p, j.Stacks Key.exec = some s → s.Items ≠ [] →
            j.numEvalPush < j.Options.EvalPushLimit → runCode.body L j = (r, .error p) →
            runCode L fuel program i = some (r, recovered p)))
    ∧ (∀ (fuel : Nat) (r : Interpreter) (ret : Returned),
        runCode L fuel program i = some (r, ret) →
        ∃ n j, n < fuel
          ∧ runCode.headAfter L n (i.setStack Key.exec ⟨ex ++ [.code program]⟩) = some j
          ∧ ((j.Stacks Key.exec = some ⟨[]⟩ ∧ j.numEvalPush < j.Options.EvalPushLimit
              ∧ r = j ∧ ret = .nil)
            ∨ ((∃ s, j.Stacks Key.exec = some s) ∧ j.numEvalPush ≥ j.Options.EvalPushLimit
              ∧ r = j ∧ ret = .err (.errorString "the EvalPushLimit was exceeded".toList))
            ∨ (∃ xs t, j.Stacks Key.exec = some ⟨xs ++ [.code t]⟩
              ∧ j.numEvalPush < j.Options.EvalPushLimit ∧ IsInstructionToken L t.Literal
              ∧ r = (j.setStack Key.exec ⟨xs⟩).incr
              ∧ ((j.Stacks (ToLower L (beforeDot t.Literal)) = none
                  ∧ ret = .err (.errorString ("unknown or disabled stack: ".toList
                      ++ ToLower L (beforeDot t.Literal))))
                ∨ ((∃ s, j.Stacks (ToLower L (beforeDot t.Literal)) = some s)
                  ∧ Functions L (ToLower L (beforeDot t.Literal))
                      (ToLower L (afterDot t.Literal)) = none
                  ∧ ret = .err (.errorString ("unknown or disabled instruction ".toList
                      ++ ToLower L (beforeDot t.Literal) ++ ".".toList
                      ++ ToLower L (afterDot t.Literal))))))
            ∨ ∃ p, ret = recovered p ∧ ((j.Stacks Key.exec = none ∧ r = j ∧ p = nilDereference)
              ∨ ∃ s, j.Stacks Key.exec = some s ∧ s.Items ≠ []
                ∧ j.numEvalPush < j.Options.EvalPushLimit
                ∧ runCode.body L j = (r, .error p))))
    ∧ (∀ (fuel : Nat) (r : Interpreter) (ret : Returned),
        runCode L fuel program i = some (r, ret) →
        (ret = .nil ↔ ∃ n, n < fuel
          ∧ runCode.headAfter L n (i.setStack Key.exec ⟨ex ++ [.code program]⟩) = some r
          ∧ r.Stacks Key.exec = some ⟨[]⟩ ∧ r.numEvalPush < r.Options.EvalPushLimit)) := by
  refine ⟨?_, ?_, ?_⟩
  · intro n fuel j hhead hn
    obtain ⟨m, rfl⟩ : ∃ m, fuel = n + (m + 1) := ⟨fuel - n - 1, by omega⟩
    have hrun := runCode_push L (n + (m + 1)) program i ex hexec
    rw [headAfter_loop L n _ j (m + 1) hhead] at hrun
    refine ⟨fun h1 h2 => ?_, fun s h1 h2 => ?_, fun xs t h1 h2 h3 => ⟨fun h4 => ?_,
      fun h4 h5 => ?_⟩, fun s r p h1 h2 h3 h4 => ?_⟩
    · rw [hrun, loop_exec_empty L m j h1 h2]
    · rw [hrun, loop_at_limit L m j s h1 h2]
    · obtain ⟨hlit, hP, hF, hB, hdot⟩ := h3
      rw [hrun, loop_succ L m j _ h1 (by simp) h2,
        body_unknown_stack L j xs t hlit hP hF hB hdot h1 h4]
    · obtain ⟨hlit, hP, hF, hB, hdot⟩ := h3
      obtain ⟨s, h4⟩ := h4
      rw [hrun, loop_succ L m j _ h1 (by simp) h2,
        body_unknown_instruction L j xs t s hlit hP hF hB hdot h1 h4 h5]
    · rw [hrun, loop_succ L m j s h1 h2 h3, h4]
  · intro fuel r ret hrun
    rw [runCode_push L fuel program i ex hexec] at hrun
    cases hloop : runCode.loop L fuel (i.setStack Key.exec ⟨ex ++ [.code program]⟩) with
    | none => simp [hloop] at hrun
    | some x =>
      obtain ⟨r1, out⟩ := x
      obtain ⟨n, j, hn, hj, hone⟩ := loop_headAfter L fuel _ _ hloop
      refine ⟨n, j, hn, hj, ?_⟩
      rw [hloop] at hrun
      rcases loop_one_shape L j r1 out hone with ⟨h1, h2, rfl, rfl⟩ | ⟨h1, h2, rfl, rfl⟩
        | ⟨e, h2, hbody, rfl⟩ | ⟨p, rfl, h⟩
      · simp only [Option.some.injEq, Prod.mk.injEq] at hrun
        exact Or.inl ⟨h1, h2, hrun.1.symm, hrun.2.symm⟩
      · simp only [Option.some.injEq, Prod.mk.injEq] at hrun
        exact Or.inr (Or.inl ⟨h1, h2, hrun.1.symm, hrun.2.symm⟩)
      · simp only [Option.some.injEq, Prod.mk.injEq] at hrun
        obtain ⟨rfl, rfl⟩ := hrun
        obtain ⟨xs, t, hx, htok, hr, hcase⟩ := body_error_token L j r1 e hbody
        refine Or.inr (Or.inr (Or.inl ⟨xs, t, hx, h2, htok, hr, ?_⟩))
        rcases hcase with ⟨hS, rfl⟩ | ⟨hS, hO, rfl⟩
        · exact Or.inl ⟨hS, rfl⟩
        · exact Or.inr ⟨hS, hO, rfl⟩
      · simp only [Option.some.injEq, Prod.mk.injEq] at hrun
        obtain ⟨rfl, rfl⟩ := hrun
        refine Or.inr (Or.inr (Or.inr ⟨p, rfl, ?_⟩))
        exact h
  · intro fuel r ret hrun
    rw [runCode_push L fuel program i ex hexec] at hrun
    constructor
    · intro hnil
      subst hnil
      cases hloop : runCode.loop L fuel (i.setStack Key.exec ⟨ex ++ [.code program]⟩) with
      | none => simp [hloop] at hrun
      | some x =>
        obtain ⟨r1, out⟩ := x
        obtain ⟨n, j, hn, hj, hone⟩ := loop_headAfter L fuel _ _ hloop
        rw [hloop] at hrun
        rcases loop_one_shape L j r1 out hone with ⟨h1, h2, rfl, rfl⟩ | ⟨-, -, -, rfl⟩
          | ⟨e, -, -, rfl⟩ | ⟨p, rfl, -⟩
        · simp only [Option.some.injEq, Prod.mk.injEq, and_true] at hrun
          subst hrun
          exact ⟨n, hn, hj, h1, h2⟩
        · simp at hrun
        · simp at hrun
        · cases p <;> simp [recovered] at hrun
    · rintro ⟨n, hn, hhead, h1, h2⟩
      obtain ⟨m, rfl⟩ : ∃ m, fuel = n + (m + 1) := ⟨fuel - n - 1, by omega⟩
      rw [headAfter_loop L n _ r (m + 1) hhead, loop_exec_empty L m r h1 h2] at hrun
      simp only [Option.some.injEq, Prod.mk.injEq, true_and] at hrun
      exact hrun.symm

theorem runCode_empty_exec_return_witness :
    runCode Lib.integerOnly 4
        (Code.mk 3 [] [Code.atom "1".toList, Code.atom "2".toList])
        (Interpreter.sample [] [])
      = some ({ (Interpreter.sample [] []).setStack Key.integer
                  ⟨[] ++ [1, 2].map Value.int⟩ with
                numEvalPush :=
                  (([Code.atom "1".toList, Code.atom "2".toList] : List Code).length : Int)
                    + 1 }, Returned.nil)
    ∧ ∃ n j, n < 4
      ∧ runCode.headAfter Lib.integerOnly n ((Interpreter.sample [] []).setStack Key.exec
          ⟨[] ++ [.code (Code.mk 3 [] [Code.atom "1".toList, Code.atom "2".toList])]⟩) = some j
      ∧ j.Stacks Key.exec = some ⟨[]⟩ ∧ j.numEvalPush < j.Options.EvalPushLimit
      ∧ ({ (Interpreter.sample [] []).setStack Key.integer
            ⟨[] ++ [1, 2].map Value.int⟩ with
          numEvalPush :=
            (([Code.atom "1".toList, Code.atom "2".toList] : List Code).length : Int)
              + 1 } : Interpreter) = j := by
  have hrun := runCode_literal_children Lib.integerOnly
    [Code.atom "1".toList, Code.atom "2".toList] [1, 2] (Interpreter.sample [] []) [] 4 3
    (List.Forall₂.cons (by decide) (List.Forall₂.cons (by decide) List.Forall₂.nil))
    (by decide) (by decide) (by decide) (by decide) (by decide)
  obtain ⟨n, j, hn, hj, h⟩ := (runCode_empty_exec_return Lib.integerOnly
    (Code.mk 3 [] [Code.atom "1".toList, Code.atom "2".toList]) (Interpreter.sample [] []) []
    (by decide)).2.1 4 _ _ hrun
  refine ⟨hrun, n, j, hn, hj, ?_⟩
  rcases h with ⟨h1, h2, h3, -⟩ | ⟨-, -, -, h⟩ | ⟨xs, t, -, -, -, -, h⟩ | ⟨p, h, -⟩
  · exact ⟨h1, h2, h3⟩
  · cases h
  · rcases h with ⟨-, h⟩ | ⟨-, -, h⟩ <;> cases h
  · cases p <;> simp [recovered] at h

/-- C5, counterexample: on a fresh interpreter with `EvalPushLimit` at least
`1`, `runCode` on the token `foo.bar` stops with the exec stack empty and
returns the unknown-stack error; and with `EvalPushLimit` equal to `1`,
`runCode` on the literal `1` stops with the exec stack empty and returns the
`EvalPushLimit` error. -/
theorem runCode_empty_exec_with_error :
    (NewInterpreter (DefaultOptions 0)).numEvalPush = 0
    ∧ (NewInterpreter (DefaultOptions 0)).Stacks Key.exec = some ⟨[]⟩
    ∧ 1 ≤ (NewInterpreter (DefaultOptions 0)).Options.EvalPushLimit
    ∧ (runCode Lib.integerOnly 2 (Code.atom "foo.bar".toList)
          (NewInterpreter (DefaultOptions 0))).map (fun r => (r.1.Stacks Key.exec, r.2))
        = some (some ⟨[]⟩, .err (.errorString "unknown or disabled stack: foo".toList))
    ∧ (runCode Lib.integerOnly 2 (Code.atom "1".toList)
          (NewInterpreter { DefaultOptions 0 with EvalPushLimit := 1 })).map
          (fun r => (r.1.Stacks Key.exec, r.1.Stacks Key.integer, r.1.numEvalPush, r.2))
        = some (some ⟨[]⟩, some ⟨[.int 1]⟩, 1,
            .err (.errorString "the EvalPushLimit was exceeded".toList)) := by
  refine ⟨by decide, by decide, by decide, by decide, by decide⟩


/-! ## The methods of `Stack` -/

theorem Stack.Dup_concat (xs : List Value) (x : Value) :
    (Stack.mk (xs ++ [x])).Dup = ⟨xs ++ [x] ++ [x]⟩ := by
  simp [Stack.Dup, Stack.Push, Stack.Peek]

theorem Stack.Swap_concat (xs : List Value) (a b : Value) :
    (Stack.mk (xs ++ [a, b])).Swap = ⟨xs ++ [b, a]⟩ := by
  have h : xs ++ [a, b] = (xs ++ [a]) ++ [b] := by simp
  simp only [Stack.Swap, h, Stack.Pop_concat, Stack.Push]
  simp

theorem Stack.Rot_concat (xs : List Value) (a b c : Value) :
    (Stack.mk (xs ++ [a, b, c])).Rot = ⟨xs ++ [b, c, a]⟩ := by
  have h : xs ++ [a, b, c] = ((xs ++ [a]) ++ [b]) ++ [c] := by simp
  simp only [Stack.Rot, h, Stack.Pop_concat, Stack.Push]
  simp

theorem onStack_run {i : Interpreter} {n : GoString} {s : Stack} (m : Stack → Stack)
    (h : i.Stacks n = some s) : onStack n m i = (i.setStack n (m s), .ok ()) := by
  simp [onStack, h]

/-- C11: `Dup` on a non-empty stack appends one copy of the top element, so
the length grows by one and the previous elements stay in place; on the empty
stack it does nothing. `integer.dup` applies `Dup` to the integer stack and
changes nothing else. -/
theorem Dup_copies_top (L : Lib) (i : Interpreter) (s : Stack) (xs : List Value) (x : Value)
    (hs : i.Stacks Key.integer = some s) :
    (Stack.mk (xs ++ [x])).Dup = ⟨xs ++ [x] ++ [x]⟩
    ∧ ((Stack.mk (xs ++ [x])).Dup).Items.length = (xs ++ [x]).length + 1
    ∧ (Stack.mk []).Dup = ⟨[]⟩
    ∧ Functions L Key.integer "dup".toList = some newIntStack.dup
    ∧ newIntStack.dup i = (i.setStack Key.integer s.Dup, .ok ()) := by
  refine ⟨Stack.Dup_concat xs x, ?_, rfl, rfl, onStack_run _ hs⟩
  rw [Stack.Dup_concat]
  simp

theorem Dup_copies_top_witness :
    (Interpreter.sample [.int 5] []).Stacks Key.integer = some ⟨[.int 5]⟩
    ∧ (Stack.mk ([] ++ [.int 5])).Dup = ⟨[] ++ [.int 5] ++ [.int 5]⟩
    ∧ newIntStack.dup (Interpreter.sample [.int 5] [])
        = ((Interpreter.sample [.int 5] []).setStack Key.integer
            (Stack.mk [.int 5]).Dup, .ok ()) :=
  have h := Dup_copies_top Lib.integerOnly (Interpreter.sample [.int 5] []) ⟨[.int 5]⟩ []
    (.int 5) (by decide)
  ⟨by decide, h.1, h.2.2.2.2⟩

/-- C12: `Swap` on a stack with at least two elements exchanges the top two
and leaves the elements below and the length as they were; on a stack with
fewer than two elements it does nothing. `integer.swap` applies `Swap` to the
integer stack and changes nothing else. -/
theorem Swap_exchanges_top_two (L : Lib) (i : Interpreter) (s t : Stack) (xs : List Value)
    (a b : Value)
    (hs : i.Stacks Key.integer = some s) (ht : t.Items.length < 2) :
    (Stack.mk (xs ++ [a, b])).Swap = ⟨xs ++ [b, a]⟩
    ∧ ((Stack.mk (xs ++ [a, b])).Swap).Items.length = (xs ++ [a, b]).length
    ∧ t.Swap = t
    ∧ Functions L Key.integer "swap".toList = some newIntStack.swap
    ∧ newIntStack.swap i = (i.setStack Key.integer s.Swap, .ok ()) := by
  refine ⟨Stack.Swap_concat xs a b, ?_, ?_, rfl, onStack_run _ hs⟩
  · rw [Stack.Swap_concat]
    simp
  · simp [Stack.Swap, ht]

theorem Swap_exchanges_top_two_witness :
    (Stack.mk ([] ++ [.int 1, .int 2])).Swap = ⟨[] ++ [.int 2, .int 1]⟩
    ∧ (Stack.mk [.int 1]).Swap = ⟨[.int 1]⟩
    ∧ newIntStack.swap (Interpreter.sample [.int 1, .int 2] [])
        = ((Interpreter.sample [.int 1, .int 2] []).setStack Key.integer
            (Stack.mk [.int 1, .int 2]).Swap, .ok ()) :=
  have h := Swap_exchanges_top_two Lib.integerOnly (Interpreter.sample [.int 1, .int 2] [])
    ⟨[.int 1, .int 2]⟩ ⟨[.int 1]⟩ [] (.int 1) (.int 2) (by decide) (by decide)
  ⟨h.1, h.2.2.1, h.2.2.2.2⟩

/-- C13, as amended: on a stack whose top three elements are `a`, `b`, `c`
(`c` on top, `a` third from top), `Rot` pops `c`, `b`, `a` and pushes back
`b`, then `c`, then `a`: the top three read, bottom to top, `b`, `c`, `a` (the
third from top moves to the top), and the elements below are as before. On a
stack with fewer than three elements it does nothing. -/
theorem Rot_pulls_third_to_top (L : Lib) (t : Stack) (xs : List Value) (a b c : Value)
    (ht : t.Items.length < 3) :
    (Stack.mk (xs ++ [a, b, c])).Rot = ⟨xs ++ [b, c, a]⟩
    ∧ t.Rot = t
    ∧ Functions L Key.integer "rot".toList = some newIntStack.rot := by
  refine ⟨Stack.Rot_concat xs a b c, ?_, rfl⟩
  simp [Stack.Rot, ht]

theorem Rot_pulls_third_to_top_witness :
    (Stack.mk ([.int 0] ++ [.int 1, .int 2, .int 3])).Rot
        = ⟨[.int 0] ++ [.int 2, .int 3, .int 1]⟩
    ∧ (Stack.mk [.int 1, .int 2]).Rot = ⟨[.int 1, .int 2]⟩ :=
  have h := Rot_pulls_third_to_top Lib.integerOnly ⟨[.int 1, .int 2]⟩ [.int 0] (.int 1)
    (.int 2) (.int 3) (by decide)
  ⟨h.1, h.2.1⟩

/-- C13, counterexample: on the stack `1, 2, 3` (`3` on top) `Rot` leaves
`2, 3, 1`, not `2, 1, 3`. -/
theorem Rot_not_b_a_c :
    (Stack.mk [.int 1, .int 2, .int 3]).Rot = ⟨[.int 2, .int 3, .int 1]⟩
    ∧ (Stack.mk [.int 1, .int 2, .int 3]).Rot ≠ ⟨[.int 2, .int 1, .int 3]⟩ := by
  decide

/-- C14: `Peek` and `Pop` on the empty stack return the sentinel and leave the
stack empty; on a non-empty stack `Peek` returns the element pushed last and
`Pop` returns it and removes exactly it; `Pop` after `Push x` returns `x` and
gives the stack back. -/
theorem Pop_Peek_total (s : Stack) (xs : List Value) (x : Value) :
    (Stack.mk []).Peek = Value.empty
    ∧ (Stack.mk []).Pop = (Value.empty, ⟨[]⟩)
    ∧ (Stack.mk (xs ++ [x])).Peek = x
    ∧ (Stack.mk (xs ++ [x])).Pop = (x, ⟨xs⟩)
    ∧ (s.Push x).Peek = x
    ∧ (s.Push x).Pop = (x, s) :=
  ⟨rfl, rfl, Stack.Peek_concat xs x, Stack.Pop_concat xs x, Stack.Peek_concat s.Items x,
    Stack.Pop_concat s.Items x⟩


/-! ## Evaluations of `YankDup`, `integer.%` and `integer.rand` -/

/-- C17, the code at the failing input: `YankDup(0)` on the stack holding `7`
leaves the stack as it was, and `integer.yankdup` on `7, 0` pops the index and
leaves `7`; no copy is pushed. -/
theorem YankDup_pushes_nothing :
    (Stack.mk [.int 7]).YankDup 0 = ⟨[.int 7]⟩
    ∧ newIntStack Lib.integerOnly "yankdup".toList = some newIntStack.yankdup
    ∧ (newIntStack.yankdup (Interpreter.sample [.int 7, .int 0] [])).1.Stacks Key.integer
        = some ⟨[.int 7]⟩ :=
  ⟨rfl, rfl, by decide⟩

/-- C20, the code at the failing input: on the integer stack `-4, 2` (`2` on
top) `integer.%` leaves `2`, while the floored modulus of `-4` by `2` is
`0`. -/
theorem rem_of_exact_multiple :
    newIntStack Lib.integerOnly "%".toList = some newIntStack.rem
    ∧ (newIntStack.rem (Interpreter.sample [.int (-4), .int 2] [])).1.Stacks Key.integer
        = some ⟨[.int 2]⟩
    ∧ Int.fmod (-4) 2 = 0 :=
  ⟨rfl, by decide, by decide⟩

/-- C16, the code at the failing input: with `MinRandomInteger = 0` and
`MaxRandomInteger = 9223372036854775807` the argument `high + 1 - low` of
`Int63n` wraps around to the most negative `int64`, `Int63n` panics with a
string, nothing is pushed, and since the string is no `error` the deferred
function of `runCode` panics in turn: a panic escapes `runCode`. -/
theorem rand_full_range_panics :
    (0 : Int) ≤ 9223372036854775807
    ∧ isInt64 9223372036854775807
    ∧ wrap64 (wrap64 (9223372036854775807 + 1) - 0) = -9223372036854775808
    ∧ newIntStack Lib.integerOnly "rand".toList = some (newIntStack.rand Lib.integerOnly)
    ∧ (newIntStack.rand Lib.integerOnly
          (NewInterpreter { DefaultOptions 0 with
            MaxRandomInteger := 9223372036854775807, MinRandomInteger := 0 })).1.Stacks
          Key.integer = some ⟨[]⟩
    ∧ (newIntStack.rand Lib.integerOnly
          (NewInterpreter { DefaultOptions 0 with
            MaxRandomInteger := 9223372036854775807, MinRandomInteger := 0 })).2
        = .error (.other "invalid argument to Int63n".toList)
    ∧ (runCode Lib.integerOnly 2 (Code.atom "integer.rand".toList)
          (NewInterpreter { DefaultOptions 0 with
            MaxRandomInteger := 9223372036854775807, MinRandomInteger := 0 })).map
          (fun r => (r.1.Stacks Key.integer, r.2))
        = some (some ⟨[]⟩, .panicked (.runtimeError
            "interface conversion: string is not error: missing method Error".toList)) :=
  ⟨by decide, by decide, by decide, rfl, by decide, rfl, by decide⟩


/-! ## Boolean literals -/

theorem Key.boolean_ne_exec : Key.boolean ≠ Key.exec := by decide

theorem Key.exec_ne_boolean : Key.exec ≠ Key.boolean := by decide

theorem ParseBool_true_iff (lit : GoString) (hint : ParseInt lit = none) :
    ParseBool lit = some true ↔ lit ∈ trueSpellings := by
  have h1 : lit ≠ "1".toList := by
    intro h; rw [h] at hint; revert hint; decide
  unfold ParseBool trueSpellings
  simp only [List.mem_cons, List.mem_singleton, List.not_mem_nil, or_false]
  constructor
  · intro h
    split at h
    · rename_i hc
      rcases hc with hc | hc
      · exact absurd hc h1
      · exact hc
    · split at h <;> simp at h
  · intro h
    rw [if_pos (Or.inr h)]

theorem ParseBool_false_iff (lit : GoString) (hint : ParseInt lit = none) :
    ParseBool lit = some false ↔ lit ∈ falseSpellings := by
  have h0 : lit ≠ "0".toList := by
    intro h; rw [h] at hint; revert hint; decide
  unfold ParseBool falseSpellings
  simp only [List.mem_cons, List.mem_singleton, List.not_mem_nil, or_false]
  constructor
  · intro h
    split at h
    · simp at h
    · split at h
      · rename_i hc
        rcases hc with hc | hc
        · exact absurd hc h0
        · exact hc
      · simp at h
  · intro h
    have hnt : ¬ (lit = "1".toList ∨ lit = "t".toList ∨ lit = "T".toList ∨ lit = "TRUE".toList
        ∨ lit = "true".toList ∨ lit = "True".toList) := by
      rcases h with h | h | h | h | h <;> (rw [h]; decide)
    rw [if_neg hnt, if_pos (Or.inr h)]

theorem body_bool (L : Lib) (i : Interpreter) (rest bs : List Value) (t : Code) (b : Bool)
    (hlit : t.Literal ≠ []) (hint : ParseInt t.Literal = none)
    (hfloat : L.ParseFloat t.Literal = none) (hbool : ParseBool t.Literal = some b)
    (hexec : i.Stacks Key.exec = some ⟨rest ++ [.code t]⟩)
    (hb : i.Stacks Key.boolean = some ⟨bs⟩) :
    runCode.body L i =
      ((i.setStack Key.exec ⟨rest⟩).incr.setStack Key.boolean ⟨bs ++ [.bool b]⟩, .ok none) := by
  have hb1 : (i.setStack Key.exec ⟨rest⟩).incr.Stacks Key.boolean = some ⟨bs⟩ := by
    rw [incr_Stacks, setStack_Stacks_other _ _ Key.boolean_ne_exec, hb]
  simp [runCode.body, bind, Act.bind, pure, Act.pure, asCode, pop_run _ _ hexec, hlit, hint,
    hfloat, hbool, push_run _ _ hb1]


/-- C15, as amended: an atomic token that is neither an integer literal nor a
float literal is a boolean literal for the loop exactly when it is one of
`t`, `T`, `TRUE`, `true`, `True`, `f`, `F`, `FALSE`, `false`, `False`. The
step then pushes `true` for the first five and `false` for the last five on
the boolean stack. On every other such token the step goes on to the
dispatch of an instruction reference or the handling of a name. -/
theorem boolean_literal_spellings (L : Lib) (i : Interpreter) (rest bs : List Value)
    (t : Code)
    (hlit : t.Literal ≠ []) (hint : ParseInt t.Literal = none)
    (hfloat : L.ParseFloat t.Literal = none)
    (hexec : i.Stacks Key.exec = some ⟨rest ++ [.code t]⟩)
    (hb : i.Stacks Key.boolean = some ⟨bs⟩) :
    ((ParseBool t.Literal).isSome = true
      ↔ t.Literal ∈ trueSpellings ∨ t.Literal ∈ falseSpellings)
    ∧ (t.Literal ∈ trueSpellings →
        runCode.body L i
          = ((i.setStack Key.exec ⟨rest⟩).incr.setStack Key.boolean ⟨bs ++ [.bool true]⟩,
              .ok none))
    ∧ (t.Literal ∈ falseSpellings →
        runCode.body L i
          = ((i.setStack Key.exec ⟨rest⟩).incr.setStack Key.boolean ⟨bs ++ [.bool false]⟩,
              .ok none))
    ∧ (t.Literal ∉ trueSpellings → t.Literal ∉ falseSpellings →
        runCode.body L i
          = runCode.instructionOrName L t.Literal (i.setStack Key.exec ⟨rest⟩).incr) := by
  have ht := ParseBool_true_iff t.Literal hint
  have hf := ParseBool_false_iff t.Literal hint
  refine ⟨?_, ?_, ?_, ?_⟩
  · constructor
    · intro h
      cases hp : ParseBool t.Literal with
      | none => rw [hp] at h; simp at h
      | some b =>
        cases b with
        | true => exact Or.inl (ht.mp hp)
        | false => exact Or.inr (hf.mp hp)
    · rintro (h | h)
      · rw [ht.mpr h]; rfl
      · rw [hf.mpr h]; rfl
  · intro h
    exact body_bool L i rest bs t true hlit hint hfloat (ht.mpr h) hexec hb
  · intro h
    exact body_bool L i rest bs t false hlit hint hfloat (hf.mpr h) hexec hb
  · intro h1 h2
    have hnone : ParseBool t.Literal = none := by
      cases hp : ParseBool t.Literal with
      | none => rfl
      | some b =>
        cases b with
        | true => exact absurd (ht.mp hp) h1
        | false => exact absurd (hf.mp hp) h2
    exact body_not_literal L i rest t hlit hint hfloat hnone hexec

theorem boolean_literal_spellings_witness :
    (Code.atom "F".toList).Literal ∈ falseSpellings
    ∧ runCode.body Lib.integerOnly (Interpreter.sampleExec [.code (Code.atom "F".toList)])
        = (((Interpreter.sampleExec [.code (Code.atom "F".toList)]).setStack Key.exec
              ⟨[]⟩).incr.setStack Key.boolean ⟨[] ++ [.bool false]⟩, .ok none)
    ∧ runCode.body Lib.integerOnly (Interpreter.sampleExec [.code (Code.atom "yes".toList)])
        = runCode.instructionOrName Lib.integerOnly (Code.atom "yes".toList).Literal
            ((Interpreter.sampleExec [.code (Code.atom "yes".toList)]).setStack Key.exec
              ⟨[]⟩).incr :=
  ⟨by decide,
    (boolean_literal_spellings Lib.integerOnly
      (Interpreter.sampleExec [.code (Code.atom "F".toList)]) [] [] (Code.atom "F".toList)
      (by decide) (by decide) (by decide) (by decide) (by decide)).2.2.1 (by decide),
    (boolean_literal_spellings Lib.integerOnly
      (Interpreter.sampleExec [.code (Code.atom "yes".toList)]) [] [] (Code.atom "yes".toList)
      (by decide) (by decide) (by decide) (by decide) (by decide)).2.2.2 (by decide)
      (by decide)⟩

/-- C15, counterexample: the token `t`, which is neither `true` nor `false`
in any letter case, is run as a boolean literal and pushes `true`; the token
`TrUe`, which is `true` up to letter case, is run as a name and pushes nothing
on the boolean stack. -/
theorem boolean_literal_not_case_insensitive :
    ParseInt "t".toList = none ∧ ParseInt "TrUe".toList = none
    ∧ ToLower Lib.integerOnly "t".toList ≠ "true".toList
    ∧ ToLower Lib.integerOnly "t".toList ≠ "false".toList
    ∧ ToLower Lib.integerOnly "TrUe".toList = "true".toList
    ∧ (runCode Lib.integerOnly 2 (Code.atom "t".toList) (Interpreter.sample [] [])).map
          (fun r => (r.1.Stacks Key.boolean, r.1.Stacks Key.name, r.2))
        = some (some ⟨[.bool true]⟩, some ⟨[]⟩, Returned.nil)
    ∧ (runCode Lib.integerOnly 2 (Code.atom "TrUe".toList) (Interpreter.sample [] [])).map
          (fun r => (r.1.Stacks Key.boolean, r.1.Stacks Key.name, r.2))
        = some (some ⟨[]⟩, some ⟨[.str "true".toList]⟩, Returned.nil) := by
  refine ⟨by decide, by decide, by decide, by decide, by decide, by decide, by decide⟩


/-! ## Validation of `Options` -/

theorem bnot_eq_true_iff (b : Bool) : (!b) = true ↔ b = false := by
  cases b <;> simp

theorem default_probability_ge : Float64.le ⟨0⟩ ⟨0x3F50624DD2F1A9FC⟩ = true := by decide

theorem default_probability_le :
    Float64.le ⟨0x3F50624DD2F1A9FC⟩ ⟨0x3FF0000000000000⟩ = true := by decide

theorem default_floats_le :
    Float64.le ⟨0xBFF0000000000000⟩ ⟨0x3FF0000000000000⟩ = true := by decide

/-- C18: the validation of a configuration fails exactly when the
configuration violates one of the joint constraints; the message it fails
with belongs to a constraint that is violated and carries the name of its
field or fields and the value or values supplied; the default configuration
is accepted; and for `MinRandomInteger = 10`, `MaxRandomInteger = 0` the
message is the one `TestParseErrors` expects, with both names and both
values. -/
theorem validate_fails_iff_violation (FormatFloat : Float64 → GoString) (o : Options)
    (seed : Int) :
    ((o.validate FormatFloat).isSome = true ↔ o.Violates)
    ∧ (∀ msg, o.validate FormatFloat = some msg →
        (o.MaxPointsInRandomExpression < 1
          ∧ msg = "MAX-POINTS-IN-RANDOM-EXPRESSIONS must be at least 1, got ".toList
              ++ Sprint o.MaxPointsInRandomExpression)
        ∨ (o.MaxPointsInProgram < 1
          ∧ msg = "MAX-POINTS-IN-PROGRAM must be at least 1, got ".toList
              ++ Sprint o.MaxPointsInProgram)
        ∨ (o.EvalPushLimit < 1
          ∧ msg = "EVALPUSH-LIMIT must be at least 1, got ".toList ++ Sprint o.EvalPushLimit)
        ∨ ((Float64.le ⟨0⟩ o.NewERCNameProbabilty
              && Float64.le o.NewERCNameProbabilty ⟨0x3FF0000000000000⟩) = false
          ∧ msg = "NEW-ERC-NAME-PROBABILITY must be between 0 and 1 inclusive, got ".toList
              ++ FormatFloat o.NewERCNameProbabilty)
        ∨ (o.MinRandomInteger > o.MaxRandomInteger
          ∧ msg = "MIN-RANDOM-INTEGER (".toList ++ Sprint o.MinRandomInteger
              ++ ") must be less than or equal to MAX-RANDOM-INTEGER (".toList
              ++ Sprint o.MaxRandomInteger ++ ")".toList)
        ∨ (Float64.le o.MinRandomFloat o.MaxRandomFloat = false
          ∧ msg = "MIN-RANDOM-FLOAT (".toList ++ FormatFloat o.MinRandomFloat
              ++ ") must be less than or equal to MAX-RANDOM-FLOAT (".toList
              ++ FormatFloat o.MaxRandomFloat ++ ")".toList))
    ∧ (DefaultOptions seed).validate FormatFloat = none
    ∧ ({ DefaultOptions seed with MinRandomInteger := 10, MaxRandomInteger := 0 } :
          Options).validate FormatFloat
        = some ("MIN-RANDOM-INTEGER (10) must be less than or equal to "
            ++ "MAX-RANDOM-INTEGER (0)").toList
    ∧ ({ DefaultOptions seed with EvalPushLimit := -7 } : Options).validate FormatFloat
        = some "EVALPUSH-LIMIT must be at least 1, got -7".toList := by
  refine ⟨?_, ?_, ?_, ?_, ?_⟩
  · unfold Options.validate Options.Violates
    constructor
    · intro h
      split at h
      · rename_i h1; exact Or.inr (Or.inr (Or.inr (Or.inl h1)))
      · split at h
        · rename_i h1; exact Or.inr (Or.inr (Or.inr (Or.inr (Or.inl h1))))
        · split at h
          · rename_i h1; exact Or.inr (Or.inr (Or.inr (Or.inr (Or.inr h1))))
          · split at h
            · rename_i h1
              exact Or.inr (Or.inr (Or.inl ((bnot_eq_true_iff _).mp h1)))
            · split at h
              · rename_i h1; exact Or.inl h1
              · split at h
                · rename_i h1; exact Or.inr (Or.inl ((bnot_eq_true_iff _).mp h1))
                · simp at h
    · intro h
      split
      · rfl
      · split
        · rfl
        · split
          · rfl
          · split
            · rfl
            · split
              · rfl
              · split
                · rfl
                · rename_i h1 h2 h3 h4 h5 h6
                  exfalso
                  rcases h with h | h | h | h | h | h
                  · exact h5 h
                  · exact h6 ((bnot_eq_true_iff _).mpr h)
                  · exact h4 ((bnot_eq_true_iff _).mpr h)
                  · exact h1 h
                  · exact h2 h
                  · exact h3 h
  · intro msg h
    unfold Options.validate at h
    split at h
    · rename_i h1; exact Or.inl ⟨h1, (Option.some.inj h).symm⟩
    · split at h
      · rename_i h1; exact Or.inr (Or.inl ⟨h1, (Option.some.inj h).symm⟩)
      · split at h
        · rename_i h1; exact Or.inr (Or.inr (Or.inl ⟨h1, (Option.some.inj h).symm⟩))
        · split at h
          · rename_i h1
            exact Or.inr (Or.inr (Or.inr (Or.inl ⟨(bnot_eq_true_iff _).mp h1,
              (Option.some.inj h).symm⟩)))
          · split at h
            · rename_i h1
              exact Or.inr (Or.inr (Or.inr (Or.inr (Or.inl ⟨h1, (Option.some.inj h).symm⟩))))
            · split at h
              · rename_i h1
                exact Or.inr (Or.inr (Or.inr (Or.inr (Or.inr ⟨(bnot_eq_true_iff _).mp h1,
                  (Option.some.inj h).symm⟩))))
              · simp at h
  · simp only [Options.validate, DefaultOptions, default_probability_ge, default_probability_le,
      default_floats_le]
    simp
  · have h10 : Sprint 10 = "10".toList := by decide
    have h0 : Sprint 0 = "0".toList := by decide
    simp only [Options.validate, DefaultOptions, default_probability_ge,
      default_probability_le, default_floats_le, h10, h0]
    simp
  · have h7 : Sprint (-7) = "-7".toList := by decide
    simp only [Options.validate, DefaultOptions, h7]
    simp


/-! ## The step counter -/

theorem Act.Keeps.pure {α : Type} (a : α) : (Pure.pure a : Act α).Keeps :=
  fun _ => ⟨rfl, rfl⟩

theorem Act.Keeps.pure_act {α : Type} (a : α) : (Act.pure a).Keeps :=
  fun _ => ⟨rfl, rfl⟩

theorem Act.Keeps.panic {α : Type} (p : Panic) : (Act.panic p : Act α).Keeps :=
  fun _ => ⟨rfl, rfl⟩

theorem Act.Keeps.bind_act {α β : Type} {m : Act α} {f : α → Act β} (hm : m.Keeps)
    (hf : ∀ a, (f a).Keeps) : (Act.bind m f).Keeps := by
  intro i
  unfold Act.bind
  have h1 := hm i
  split
  · rename_i i1 a heq
    rw [heq] at h1
    have h2 := hf a i1
    exact ⟨h2.1.trans h1.1, h2.2.trans h1.2⟩
  · rename_i i1 p heq
    rw [heq] at h1
    exact h1

theorem Act.Keeps.bind {α β : Type} {m : Act α} {f : α → Act β} (hm : m.Keeps)
    (hf : ∀ a, (f a).Keeps) : (m >>= f).Keeps :=
  Act.Keeps.bind_act hm hf

theorem Act.Keeps.ite {α : Type} (c : Prop) [Decidable c] {a b : Act α} (ha : a.Keeps)
    (hb : b.Keeps) : (if c then a else b).Keeps := by
  split
  · exact ha
  · exact hb

theorem keeps_stackOK (n : GoString) (d : Int) : (stackOK n d).Keeps :=
  fun _ => ⟨rfl, rfl⟩

theorem keeps_onStack (n : GoString) (m : Stack → Stack) : (onStack n m).Keeps := by
  intro i
  unfold onStack
  split <;> exact ⟨rfl, rfl⟩

theorem keeps_push (n : GoString) (v : Value) : (push n v).Keeps := keeps_onStack n _

theorem keeps_pop (n : GoString) : (pop n).Keeps := by
  intro i
  unfold pop
  split <;> exact ⟨rfl, rfl⟩

theorem keeps_peek (n : GoString) : (peek n).Keeps := by
  intro i
  unfold peek
  split <;> exact ⟨rfl, rfl⟩

theorem keeps_len (n : GoString) : (len n).Keeps := by
  intro i
  unfold len
  split <;> exact ⟨rfl, rfl⟩

theorem keeps_asInt64 (v : Value) : (asInt64 v).Keeps := by
  cases v <;> exact fun _ => ⟨rfl, rfl⟩

theorem keeps_asFloat64 (v : Value) : (asFloat64 v).Keeps := by
  cases v <;> exact fun _ => ⟨rfl, rfl⟩

theorem keeps_asBool (v : Value) : (asBool v).Keeps := by
  cases v <;> exact fun _ => ⟨rfl, rfl⟩

theorem keeps_asString (v : Value) : (asString v).Keeps := by
  cases v <;> exact fun _ => ⟨rfl, rfl⟩

theorem keeps_asCode (v : Value) : (asCode v).Keeps := by
  cases v <;> exact fun _ => ⟨rfl, rfl⟩

theorem keeps_quoInt64 (a b : Int) : (quoInt64 a b).Keeps := by
  unfold quoInt64
  split <;> exact fun _ => ⟨rfl, rfl⟩

theorem keeps_remInt64 (a b : Int) : (remInt64 a b).Keeps := by
  unfold remInt64
  split <;> exact fun _ => ⟨rfl, rfl⟩

theorem keeps_pushEach (n : GoString) (vs : List Value) : (pushEach n vs).Keeps := by
  induction vs with
  | nil => exact Act.Keeps.pure_act ()
  | cons v vs ih => exact Act.Keeps.bind_act (keeps_push n v) (fun _ => ih)

theorem keeps_integer_add : newIntStack.add.Keeps := by
  unfold newIntStack.add
  repeat' first
    | exact Act.Keeps.pure _
    | exact keeps_stackOK _ _
    | exact keeps_push _ _
    | exact keeps_pop _
    | exact keeps_peek _
    | exact keeps_len _
    | exact keeps_onStack _ _
    | exact keeps_asInt64 _
    | exact keeps_asFloat64 _
    | exact keeps_asBool _
    | exact keeps_asString _
    | exact keeps_quoInt64 _ _
    | exact keeps_remInt64 _ _
    | apply Act.Keeps.ite
    | refine Act.Keeps.bind ?_ (fun _ => ?_)

theorem keeps_integer_rem : newIntStack.rem.Keeps := by
  unfold newIntStack.rem
  repeat' first
    | exact Act.Keeps.pure _
    | exact keeps_stackOK _ _
    | exact keeps_push _ _
    | exact keeps_pop _
    | exact keeps_peek _
    | exact keeps_len _
    | exact keeps_onStack _ _
    | exact keeps_asInt64 _
    | exact keeps_asFloat64 _
    | exact keeps_asBool _
    | exact keeps_asString _
    | exact keeps_quoInt64 _ _
    | exact keeps_remInt64 _ _
    | apply Act.Keeps.ite
    | refine Act.Keeps.bind ?_ (fun _ => ?_)


theorem keeps_integer_mul : newIntStack.mul.Keeps := by
  unfold newIntStack.mul
  repeat' first
    | exact Act.Keeps.pure _
    | exact keeps_stackOK _ _
    | exact keeps_push _ _
    | exact keeps_pop _
    | exact keeps_peek _
    | exact keeps_len _
    | exact keeps_onStack _ _
    | exact keeps_asInt64 _
    | exact keeps_asFloat64 _
    | exact keeps_asBool _
    | exact keeps_asString _
    | exact keeps_quoInt64 _ _
    | exact keeps_remInt64 _ _
    | apply Act.Keeps.ite
    | refine Act.Keeps.bind ?_ (fun _ => ?_)

theorem keeps_integer_sub : newIntStack.sub.Keeps := by
  unfold newIntStack.sub
  repeat' first
    | exact Act.Keeps.pure _
    | exact keeps_stackOK _ _
    | exact keeps_push _ _
    | exact keeps_pop _
    | exact keeps_peek _
    | exact keeps_len _
    | exact keeps_onStack _ _
    | exact keeps_asInt64 _
    | exact keeps_asFloat64 _
    | exact keeps_asBool _
    | exact keeps_asString _
    | exact keeps_quoInt64 _ _
    | exact keeps_remInt64 _ _
    | apply Act.Keeps.ite
    | refine Act.Keeps.bind ?_ (fun _ => ?_)

theorem keeps_integer_quo : newIntStack.quo.Keeps := by
  unfold newIntStack.quo
  repeat' first
    | exact Act.Keeps.pure _
    | exact keeps_stackOK _ _
    | exact keeps_push _ _
    | exact keeps_pop _
    | exact keeps_peek _
    | exact keeps_len _
    | exact keeps_onStack _ _
    | exact keeps_asInt64 _
    | exact keeps_asFloat64 _
    | exact keeps_asBool _
    | exact keeps_asString _
    | exact keeps_quoInt64 _ _
    | exact keeps_remInt64 _ _
    | apply Act.Keeps.ite
    | refine Act.Keeps.bind ?_ (fun _ => ?_)

theorem keeps_integer_lt : newIntStack.lt.Keeps := by
  unfold newIntStack.lt
  repeat' first
    | exact Act.Keeps.pure _
    | exact keeps_stackOK _ _
    | exact keeps_push _ _
    | exact keeps_pop _
    | exact keeps_peek _
    | exact keeps_len _
    | exact keeps_onStack _ _
    | exact keeps_asInt64 _
    | exact keeps_asFloat64 _
    | exact keeps_asBool _
    | exact keeps_asString _
    | exact keeps_quoInt64 _ _
    | exact keeps_remInt64 _ _
    | apply Act.Keeps.ite
    | refine Act.Keeps.bind ?_ (fun _ => ?_)

theorem keeps_integer_eq : newIntStack.eq.Keeps := by
  unfold newIntStack.eq
  repeat' first
    | exact Act.Keeps.pure _
    | exact keeps_stackOK _ _
    | exact keeps_push _ _
    | exact keeps_pop _
    | exact keeps_peek _
    | exact keeps_len _
    | exact keeps_onStack _ _
    | exact keeps_asInt64 _
    | exact keeps_asFloat64 _
    | exact keeps_asBool _
    | exact keeps_asString _
    | exact keeps_quoInt64 _ _
    | exact keeps_remInt64 _ _
    | apply Act.Keeps.ite
    | refine Act.Keeps.bind ?_ (fun _ => ?_)

theorem keeps_integer_gt : newIntStack.gt.Keeps := by
  unfold newIntStack.gt
  repeat' first
    | exact Act.Keeps.pure _
    | exact keeps_stackOK _ _
    | exact keeps_push _ _
    | exact keeps_pop _
    | exact keeps_peek _
    | exact keeps_len _
    | exact keeps_onStack _ _
    | exact keeps_asInt64 _
    | exact keeps_asFloat64 _
    | exact keeps_asBool _
    | exact keeps_asString _
    | exact keeps_quoInt64 _ _
    | exact keeps_remInt64 _ _
    | apply Act.Keeps.ite
    | refine Act.Keeps.bind ?_ (fun _ => ?_)

theorem keeps_integer_fromboolean : newIntStack.fromboolean.Keeps := by
  unfold newIntStack.fromboolean
  repeat' first
    | exact Act.Keeps.pure _
    | exact keeps_stackOK _ _
    | exact keeps_push _ _
    | exact keeps_pop _
    | exact keeps_peek _
    | exact keeps_len _
    | exact keeps_onStack _ _
    | exact keeps_asInt64 _
    | exact keeps_asFloat64 _
    | exact keeps_asBool _
    | exact keeps_asString _
    | exact keeps_quoInt64 _ _
    | exact keeps_remInt64 _ _
    | apply Act.Keeps.ite
    | refine Act.Keeps.bind ?_ (fun _ => ?_)

theorem keeps_integer_fromfloat (L : Lib) : (newIntStack.fromfloat L).Keeps := by
  unfold newIntStack.fromfloat
  repeat' first
    | exact Act.Keeps.pure _
    | exact keeps_stackOK _ _
    | exact keeps_push _ _
    | exact keeps_pop _
    | exact keeps_peek _
    | exact keeps_len _
    | exact keeps_onStack _ _
    | exact keeps_asInt64 _
    | exact keeps_asFloat64 _
    | exact keeps_asBool _
    | exact keeps_asString _
    | exact keeps_quoInt64 _ _
    | exact keeps_remInt64 _ _
    | apply Act.Keeps.ite
    | refine Act.Keeps.bind ?_ (fun _ => ?_)

theorem keeps_integer_max : newIntStack.max.Keeps := by
  unfold newIntStack.max
  repeat' first
    | exact Act.Keeps.pure _
    | exact keeps_stackOK _ _
    | exact keeps_push _ _
    | exact keeps_pop _
    | exact keeps_peek _
    | exact keeps_len _
    | exact keeps_onStack _ _
    | exact keeps_asInt64 _
    | exact keeps_asFloat64 _
    | exact keeps_asBool _
    | exact keeps_asString _
    | exact keeps_quoInt64 _ _
    | exact keeps_remInt64 _ _
    | apply Act.Keeps.ite
    | refine Act.Keeps.bind ?_ (fun _ => ?_)

theorem keeps_integer_min : newIntStack.min.Keeps := by
  unfold newIntStack.min
  repeat' first
    | exact Act.Keeps.pure _
    | exact keeps_stackOK _ _
    | exact keeps_push _ _
    | exact keeps_pop _
    | exact keeps_peek _
    | exact keeps_len _
    | exact keeps_onStack _ _
    | exact keeps_asInt64 _
    | exact keeps_asFloat64 _
    | exact keeps_asBool _
    | exact keeps_asString _
    | exact keeps_quoInt64 _ _
    | exact keeps_remInt64 _ _
    | apply Act.Keeps.ite
    | refine Act.Keeps.bind ?_ (fun _ => ?_)

theorem keeps_integer_pop : newIntStack.pop.Keeps := by
  unfold newIntStack.pop
  repeat' first
    | exact Act.Keeps.pure _
    | exact keeps_stackOK _ _
    | exact keeps_push _ _
    | exact keeps_pop _
    | exact keeps_peek _
    | exact keeps_len _
    | exact keeps_onStack _ _
    | exact keeps_asInt64 _
    | exact keeps_asFloat64 _
    | exact keeps_asBool _
    | exact keeps_asString _
    | exact keeps_quoInt64 _ _
    | exact keeps_remInt64 _ _
    | apply Act.Keeps.ite
    | refine Act.Keeps.bind ?_ (fun _ => ?_)

theorem keeps_integer_shove : newIntStack.shove.Keeps := by
  unfold newIntStack.shove
  repeat' first
    | exact Act.Keeps.pure _
    | exact keeps_stackOK _ _
    | exact keeps_push _ _
    | exact keeps_pop _
    | exact keeps_peek _
    | exact keeps_len _
    | exact keeps_onStack _ _
    | exact keeps_asInt64 _
    | exact keeps_asFloat64 _
    | exact keeps_asBool _
    | exact keeps_asString _
    | exact keeps_quoInt64 _ _
    | exact keeps_remInt64 _ _
    | apply Act.Keeps.ite
    | refine Act.Keeps.bind ?_ (fun _ => ?_)

theorem keeps_integer_stackdepth : newIntStack.stackdepth.Keeps := by
  unfold newIntStack.stackdepth
  repeat' first
    | exact Act.Keeps.pure _
    | exact keeps_stackOK _ _
    | exact keeps_push _ _
    | exact keeps_pop _
    | exact keeps_peek _
    | exact keeps_len _
    | exact keeps_onStack _ _
    | exact keeps_asInt64 _
    | exact keeps_asFloat64 _
    | exact keeps_asBool _
    | exact keeps_asString _
    | exact keeps_quoInt64 _ _
    | exact keeps_remInt64 _ _
    | apply Act.Keeps.ite
    | refine Act.Keeps.bind ?_ (fun _ => ?_)

theorem keeps_integer_yank : newIntStack.yank.Keeps := by
  unfold newIntStack.yank
  repeat' first
    | exact Act.Keeps.pure _
    | exact keeps_stackOK _ _
    | exact keeps_push _ _
    | exact keeps_pop _
    | exact keeps_peek _
    | exact keeps_len _
    | exact keeps_onStack _ _
    | exact keeps_asInt64 _
    | exact keeps_asFloat64 _
    | exact keeps_asBool _
    | exact keeps_asString _
    | exact keeps_quoInt64 _ _
    | exact keeps_remInt64 _ _
    | apply Act.Keeps.ite
    | refine Act.Keeps.bind ?_ (fun _ => ?_)

theorem keeps_integer_yankdup : newIntStack.yankdup.Keeps := by
  unfold newIntStack.yankdup
  repeat' first
    | exact Act.Keeps.pure _
    | exact keeps_stackOK _ _
    | exact keeps_push _ _
    | exact keeps_pop _
    | exact keeps_peek _
    | exact keeps_len _
    | exact keeps_onStack _ _
    | exact keeps_asInt64 _
    | exact keeps_asFloat64 _
    | exact keeps_asBool _
    | exact keeps_asString _
    | exact keeps_quoInt64 _ _
    | exact keeps_remInt64 _ _
    | apply Act.Keeps.ite
    | refine Act.Keeps.bind ?_ (fun _ => ?_)

theorem keeps_integer_define (L : Lib) : (newIntStack.define L).Keeps := by
  unfold newIntStack.define
  repeat' first
    | exact Act.Keeps.pure _
    | exact keeps_stackOK _ _
    | exact keeps_push _ _
    | exact keeps_pop _
    | exact keeps_peek _
    | exact keeps_len _
    | exact keeps_onStack _ _
    | exact keeps_asInt64 _
    | exact keeps_asFloat64 _
    | exact keeps_asBool _
    | exact keeps_asString _
    | exact keeps_quoInt64 _ _
    | exact keeps_remInt64 _ _
    | apply Act.Keeps.ite
    | refine Act.Keeps.bind ?_ (fun _ => ?_)
    | exact fun _ => ⟨rfl, rfl⟩

theorem keeps_integer_rand (L : Lib) : (newIntStack.rand L).Keeps := by
  intro st
  unfold newIntStack.rand
  simp only
  split
  · exact ⟨rfl, rfl⟩
  · exact keeps_push _ _ _

theorem keeps_newIntStack (L : Lib) (op : GoString) (f : Act Unit)
    (h : newIntStack L op = some f) : f.Keeps := by
  unfold newIntStack at h
  by_cases hop : op = "%".toList
  · rw [if_pos hop] at h; cases h; exact keeps_integer_rem
  rw [if_neg hop] at h
  clear hop
  by_cases hop : op = "*".toList
  · rw [if_pos hop] at h; cases h; exact keeps_integer_mul
  rw [if_neg hop] at h
  clear hop
  by_cases hop : op = "+".toList
  · rw [if_pos hop] at h; cases h; exact keeps_integer_add
  rw [if_neg hop] at h
  clear hop
  by_cases hop : op = "-".toList
  · rw [if_pos hop] at h; cases h; exact keeps_integer_sub
  rw [if_neg hop] at h
  clear hop
  by_cases hop : op = "/".toList
  · rw [if_pos hop] at h; cases h; exact keeps_integer_quo
  rw [if_neg hop] at h
  clear hop
  by_cases hop : op = "<".toList
  · rw [if_pos hop] at h; cases h; exact keeps_integer_lt
  rw [if_neg hop] at h
  clear hop
  by_cases hop : op = "=".toList
  · rw [if_pos hop] at h; cases h; exact keeps_integer_eq
  rw [if_neg hop] at h
  clear hop
  by_cases hop : op = ">".toList
  · rw [if_pos hop] at h; cases h; exact keeps_integer_gt
  rw [if_neg hop] at h
  clear hop
  by_cases hop : op = "define".toList
  · rw [if_pos hop] at h; cases h; exact keeps_integer_define L
  rw [if_neg hop] at h
  clear hop
  by_cases hop : op = "dup".toList
  · rw [if_pos hop] at h; cases h; exact keeps_onStack _ _
  rw [if_neg hop] at h
  clear hop
  by_cases hop : op = "flush".toList
  · rw [if_pos hop] at h; cases h; exact keeps_onStack _ _
  rw [if_neg hop] at h
  clear hop
  by_cases hop : op = "fromboolean".toList
  · rw [if_pos hop] at h; cases h; exact keeps_integer_fromboolean
  rw [if_neg hop] at h
  clear hop
  by_cases hop : op = "fromfloat".toList
  · rw [if_pos hop] at h; cases h; exact keeps_integer_fromfloat L
  rw [if_neg hop] at h
  clear hop
  by_cases hop : op = "max".toList
  · rw [if_pos hop] at h; cases h; exact keeps_integer_max
  rw [if_neg hop] at h
  clear hop
  by_cases hop : op = "min".toList
  · rw [if_pos hop] at h; cases h; exact keeps_integer_min
  rw [if_neg hop] at h
  clear hop
  by_cases hop : op = "pop".toList
  · rw [if_pos hop] at h; cases h; exact keeps_integer_pop
  rw [if_neg hop] at h
  clear hop
  by_cases hop : op = "rand".toList
  · rw [if_pos hop] at h; cases h; exact keeps_integer_rand L
  rw [if_neg hop] at h
  clear hop
  by_cases hop : op = "rot".toList
  · rw [if_pos hop] at h; cases h; exact keeps_onStack _ _
  rw [if_neg hop] at h
  clear hop
  by_cases hop : op = "shove".toList
  · rw [if_pos hop] at h; cases h; exact keeps_integer_shove
  rw [if_neg hop] at h
  clear hop
  by_cases hop : op = "stackdepth".toList
  · rw [if_pos hop] at h; cases h; exact keeps_integer_stackdepth
  rw [if_neg hop] at h
  clear hop
  by_cases hop : op = "swap".toList
  · rw [if_pos hop] at h; cases h; exact keeps_onStack _ _
  rw [if_neg hop] at h
  clear hop
  by_cases hop : op = "yank".toList
  · rw [if_pos hop] at h; cases h; exact keeps_integer_yank
  rw [if_neg hop] at h
  clear hop
  by_cases hop : op = "yankdup".toList
  · rw [if_pos hop] at h; cases h; exact keeps_integer_yankdup
  rw [if_neg hop] at h
  clear hop
  cases h

theorem Act.bind_apply {α β : Type} (m : Act α) (f : α → Act β) (i : Interpreter) :
    (m >>= f) i
      = match m i with
        | (i1, .ok a) => f a i1
        | (i1, .error p) => (i1, .error p) := rfl

theorem keeps_Functions (L : Lib) (hL : L.KeepsCounter) (s o : GoString) (f : Act Unit)
    (h : Functions L s o = some f) : f.Keeps := by
  unfold Functions at h
  split at h
  · exact keeps_newIntStack L o f h
  · exact hL s o f h

theorem keeps_afterPop (L : Lib) (hL : L.KeepsCounter) (c : Code)
    (X : Act (Option GoString))
    (hX : X = (if c.Literal = [] then
        (do
          pushEach Key.exec (c.Elems.reverse.map Value.code)
          pure none)
      else
        match ParseInt c.Literal with
        | some intlit => do
          push Key.integer (.int intlit)
          pure none
        | none =>
          match L.ParseFloat c.Literal with
          | some floatlit => do
            push Key.float (.float floatlit)
            pure none
          | none =>
            match ParseBool c.Literal with
            | some boollit => do
              push Key.boolean (.bool boollit)
              pure none
            | none => runCode.instructionOrName L c.Literal)) :
    X.Keeps := by
  subst hX
  apply Act.Keeps.ite
  · exact Act.Keeps.bind (keeps_pushEach _ _) (fun _ => Act.Keeps.pure _)
  split
  · exact Act.Keeps.bind (keeps_push _ _) (fun _ => Act.Keeps.pure _)
  split
  · exact Act.Keeps.bind (keeps_push _ _) (fun _ => Act.Keeps.pure _)
  split
  · exact Act.Keeps.bind (keeps_push _ _) (fun _ => Act.Keeps.pure _)
  unfold runCode.instructionOrName
  apply Act.Keeps.ite
  · intro j
    dsimp only
    split
    · exact ⟨rfl, rfl⟩
    · split
      · exact ⟨rfl, rfl⟩
      · rename_i f hf
        have hk := keeps_Functions L hL _ _ f hf j
        split
        · rename_i i1 a heq
          rw [heq] at hk
          exact hk
        · rename_i i1 p heq
          rw [heq] at hk
          exact hk
  · intro j
    dsimp only
    split
    · rename_i d _
      have hk := keeps_push Key.exec (.code d) j
      split
      · rename_i i1 a heq
        rw [heq] at hk
        exact hk
      · rename_i i1 p heq
        rw [heq] at hk
        exact hk
    · have hk := keeps_push Key.name (.str (ToLower L c.Literal)) j
      split
      · rename_i i1 a heq
        rw [heq] at hk
        exact hk
      · rename_i i1 p heq
        rw [heq] at hk
        exact hk


theorem body_counter (L : Lib) (hL : L.KeepsCounter) (i : Interpreter) :
    (runCode.body L i).1.Options = i.Options
    ∧ (runCode.body L i).1.numEvalPush = i.numEvalPush + runCode.trees i := by
  unfold runCode.trees runCode.popItem
  have hk := keeps_pop Key.exec i
  unfold runCode.body
  rw [Act.bind_apply]
  cases hpop : pop Key.exec i with
  | mk i1 r1 =>
    rw [hpop] at hk
    cases r1 with
    | error p =>
      simp only [Nat.cast_zero, add_zero]
      exact ⟨hk.2, hk.1⟩
    | ok v =>
      simp only
      rw [Act.bind_apply]
      cases v with
      | code c =>
        simp only [asCode, Act.pure]
        rw [Act.bind_apply]
        simp only
        have hX := keeps_afterPop L hL c _ rfl i1.incr
        have h1 : i1.numEvalPush = i.numEvalPush := hk.1
        have h2 : i1.Options = i.Options := hk.2
        refine ⟨hX.2.trans h2, hX.1.trans ?_⟩
        show i1.numEvalPush + 1 = i.numEvalPush + ((1 : Nat) : Int)
        rw [h1]
        rfl
      | int _ => simp only [asCode, Act.panic, Nat.cast_zero, add_zero]; exact ⟨hk.2, hk.1⟩
      | float _ => simp only [asCode, Act.panic, Nat.cast_zero, add_zero]; exact ⟨hk.2, hk.1⟩
      | bool _ => simp only [asCode, Act.panic, Nat.cast_zero, add_zero]; exact ⟨hk.2, hk.1⟩
      | str _ => simp only [asCode, Act.panic, Nat.cast_zero, add_zero]; exact ⟨hk.2, hk.1⟩
      | empty => simp only [asCode, Act.panic, Nat.cast_zero, add_zero]; exact ⟨hk.2, hk.1⟩

theorem popped_trees (L : Lib) (i : Interpreter) (s : Stack)
    (hexec : i.Stacks Key.exec = some s) (hne : s.Items ≠ []) :
    runCode.popped i = 1
    ∧ (runCode.trees i = 1
      ∨ (runCode.trees i = 0 ∧ ∃ v, (∀ c, v ≠ Value.code c)
          ∧ (runCode.body L i).2 = .error (interfaceConversion v "gopush.Code".toList))) := by
  obtain ⟨items⟩ := s
  simp only at hne
  rcases List.eq_nil_or_concat items with rfl | ⟨xs, v, rfl⟩
  · exact absurd rfl hne
  · rw [List.concat_eq_append] at hexec
    constructor
    · simp [runCode.popped, Interpreter.depth, pop_run _ _ hexec, hexec, setStack_Stacks_same]
    · cases v with
      | code c =>
        left
        simp [runCode.trees, runCode.popItem, pop_run _ _ hexec, asCode, Act.pure]
      | int a =>
        right
        exact ⟨by simp [runCode.trees, runCode.popItem, pop_run _ _ hexec, asCode, Act.panic],
          Value.int a, (fun c h => by cases h),
          by simp [runCode.body, bind, Act.bind, pop_run _ _ hexec, asCode, Act.panic]⟩
      | float a =>
        right
        exact ⟨by simp [runCode.trees, runCode.popItem, pop_run _ _ hexec, asCode, Act.panic],
          Value.float a, (fun c h => by cases h),
          by simp [runCode.body, bind, Act.bind, pop_run _ _ hexec, asCode, Act.panic]⟩
      | bool a =>
        right
        exact ⟨by simp [runCode.trees, runCode.popItem, pop_run _ _ hexec, asCode, Act.panic],
          Value.bool a, (fun c h => by cases h),
          by simp [runCode.body, bind, Act.bind, pop_run _ _ hexec, asCode, Act.panic]⟩
      | str a =>
        right
        exact ⟨by simp [runCode.trees, runCode.popItem, pop_run _ _ hexec, asCode, Act.panic],
          Value.str a, (fun c h => by cases h),
          by simp [runCode.body, bind, Act.bind, pop_run _ _ hexec, asCode, Act.panic]⟩
      | empty =>
        right
        exact ⟨by simp [runCode.trees, runCode.popItem, pop_run _ _ hexec, asCode, Act.panic],
          Value.empty, (fun c h => by cases h),
          by simp [runCode.body, bind, Act.bind, pop_run _ _ hexec, asCode, Act.panic]⟩

theorem len_state (n : GoString) (i i1 : Interpreter) (r : Except Panic Int)
    (h : len n i = (i1, r)) : i1 = i := by
  unfold len at h
  split at h <;> (simp only [Prod.mk.injEq] at h; exact h.1.symm)

theorem loopCount_fst (L : Lib) (fuel : Nat) :
    ∀ i, (runCode.loopCount L fuel i).map Prod.fst = runCode.loop L fuel i := by
  induction fuel with
  | zero => intro i; rfl
  | succ fuel ih =>
    intro i
    simp only [runCode.loopCount, runCode.loop]
    split
    · rfl
    · split
      · split
        · rfl
        · rfl
        · rename_i i2 hbody
          rw [← ih i2]
          cases runCode.loopCount L fuel i2 with
          | none => rfl
          | some rk => rfl
      · split <;> rfl

theorem loopCount_tallies (L : Lib) (fuel : Nat) :
    ∀ (i r : Interpreter) (out : Except Panic (Option GoString)) (k t : Nat),
      runCode.loopCount L fuel i = some ((r, out), k, t) →
      k = t ∨ (k = t + 1 ∧ ∃ v, (∀ c, v ≠ Value.code c)
        ∧ out = .error (interfaceConversion v "gopush.Code".toList)) := by
  induction fuel with
  | zero => intro i r out k t h; simp [runCode.loopCount] at h
  | succ fuel ih =>
    intro i r out k t h
    simp only [runCode.loopCount] at h
    split at h
    · simp only [Option.some.injEq, Prod.mk.injEq] at h
      obtain ⟨-, rfl, rfl⟩ := h
      exact Or.inl rfl
    · rename_i i1 n hlen
      unfold len at hlen
      split at hlen
      · simp at hlen
      · rename_i s hs
        simp only [Prod.mk.injEq, Except.ok.injEq] at hlen
        obtain ⟨rfl, rfl⟩ := hlen
        split at h
        · rename_i hcond
          have hne : s.Items ≠ [] := by
            intro h0
            have := hcond.1
            simp [Stack.Len, h0] at this
          obtain ⟨hp, ht⟩ := popped_trees L i s hs hne
          split at h
          · rename_i i2 p hbody
            simp only [Option.some.injEq, Prod.mk.injEq] at h
            obtain ⟨⟨-, rfl⟩, rfl, rfl⟩ := h
            rcases ht with ht | ⟨ht, v, hv, hb⟩
            · exact Or.inl (by rw [hp, ht])
            · rw [hbody] at hb
              exact Or.inr ⟨by rw [hp, ht], v, hv, hb⟩
          · rename_i i2 err hbody
            simp only [Option.some.injEq, Prod.mk.injEq] at h
            obtain ⟨⟨-, rfl⟩, rfl, rfl⟩ := h
            rcases ht with ht | ⟨ht, v, hv, hb⟩
            · exact Or.inl (by rw [hp, ht])
            · rw [hbody] at hb
              cases hb
          · rename_i i2 hbody
            split at h
            · simp at h
            · rename_i r1 k1 t1 hrec
              simp only [Option.some.injEq, Prod.mk.injEq] at h
              obtain ⟨rfl, rfl, rfl⟩ := h
              rcases ht with ht | ⟨ht, v, hv, hb⟩
              · rw [hp, ht]
                rcases ih i2 r out k1 t1 hrec with h1 | ⟨h1, hv⟩
                · exact Or.inl (by omega)
                · exact Or.inr ⟨by omega, hv⟩
              · rw [hbody] at hb
                cases hb
        · split at h
          · simp only [Option.some.injEq, Prod.mk.injEq] at h
            obtain ⟨-, rfl, rfl⟩ := h
            exact Or.inl rfl
          · simp only [Option.some.injEq, Prod.mk.injEq] at h
            obtain ⟨-, rfl, rfl⟩ := h
            exact Or.inl rfl

theorem loopCount_counter (L : Lib) (hL : L.KeepsCounter) (fuel : Nat) :
    ∀ (i r : Interpreter) (out : Except Panic (Option GoString)) (k t : Nat),
      runCode.loopCount L fuel i = some ((r, out), k, t) →
      r.Options = i.Options ∧ r.numEvalPush = i.numEvalPush + t
        ∧ (i.numEvalPush ≤ i.Options.EvalPushLimit →
            r.numEvalPush ≤ i.Options.EvalPushLimit) := by
  induction fuel with
  | zero => intro i r out k t h; simp [runCode.loopCount] at h
  | succ fuel ih =>
    intro i r out k t h
    simp only [runCode.loopCount] at h
    split at h
    · rename_i i1 p hlen
      have := len_state _ _ _ _ hlen
      subst this
      simp only [Option.some.injEq, Prod.mk.injEq] at h
      obtain ⟨⟨rfl, -⟩, -, rfl⟩ := h
      exact ⟨rfl, by simp, fun h => h⟩
    · rename_i i1 n hlen
      have := len_state _ _ _ _ hlen
      subst this
      have hb := body_counter L hL i1
      have hp : runCode.trees i1 ≤ 1 := by
        unfold runCode.trees
        split <;> simp
      split at h
      · rename_i hcond
        split at h
        · rename_i i2 p hbody
          rw [hbody] at hb
          simp only [Option.some.injEq, Prod.mk.injEq] at h
          obtain ⟨⟨rfl, -⟩, -, rfl⟩ := h
          refine ⟨hb.1, hb.2, fun _ => ?_⟩
          rw [hb.2]
          have : ((runCode.trees i1 : Nat) : Int) ≤ 1 := by exact_mod_cast hp
          omega
        · rename_i i2 err hbody
          rw [hbody] at hb
          simp only [Option.some.injEq, Prod.mk.injEq] at h
          obtain ⟨⟨rfl, -⟩, -, rfl⟩ := h
          refine ⟨hb.1, hb.2, fun _ => ?_⟩
          rw [hb.2]
          have : ((runCode.trees i1 : Nat) : Int) ≤ 1 := by exact_mod_cast hp
          omega
        · rename_i i2 hbody
          rw [hbody] at hb
          split at h
          · simp at h
          · rename_i r1 k1 t1 hrec
            simp only [Option.some.injEq, Prod.mk.injEq] at h
            obtain ⟨rfl, -, rfl⟩ := h
            obtain ⟨ho, hc, hle⟩ := ih i2 r out k1 t1 hrec
            have hpc : ((runCode.trees i1 : Nat) : Int) ≤ 1 := by exact_mod_cast hp
            refine ⟨ho.trans hb.1, ?_, fun _ => ?_⟩
            · rw [hc, hb.2]; push_cast; ring
            · have := hle (by rw [hb.2, hb.1]; omega)
              rw [hb.1] at this
              exact this
      · split at h
        · simp only [Option.some.injEq, Prod.mk.injEq] at h
          obtain ⟨⟨rfl, -⟩, -, rfl⟩ := h
          exact ⟨rfl, by simp, fun h => h⟩
        · simp only [Option.some.injEq, Prod.mk.injEq] at h
          obtain ⟨⟨rfl, -⟩, -, rfl⟩ := h
          exact ⟨rfl, by simp, fun h => h⟩

theorem loopCount_at_limit (L : Lib) (fuel : Nat) (j : Interpreter) (s : Stack)
    (hexec : j.Stacks Key.exec = some s)
    (hj : j.numEvalPush ≥ j.Options.EvalPushLimit) :
    runCode.loopCount L (fuel + 1) j
      = some ((j, .ok (some "the EvalPushLimit was exceeded".toList)), 0, 0) := by
  have h1 : ¬ (j.numEvalPush < j.Options.EvalPushLimit) := by omega
  simp [runCode.loopCount, len, hexec, h1, hj]

theorem loop_limit_error (L : Lib) (fuel : Nat) :
    ∀ (i r : Interpreter),
      runCode.loop L fuel i = some (r, .ok (some "the EvalPushLimit was exceeded".toList)) →
      r.numEvalPush ≥ r.Options.EvalPushLimit ∧ ∃ s, r.Stacks Key.exec = some s := by
  induction fuel with
  | zero => intro i r h; simp [runCode.loop] at h
  | succ fuel ih =>
    intro i r h
    simp only [runCode.loop] at h
    split at h
    · simp at h
    · rename_i i1 n hlen
      unfold len at hlen
      split at hlen
      · simp at hlen
      · rename_i s hs
        simp only [Prod.mk.injEq, Except.ok.injEq] at hlen
        obtain ⟨rfl, -⟩ := hlen
        split at h
        · split at h
          · simp at h
          · rename_i i2 err hbody
            simp only [Option.some.injEq, Prod.mk.injEq, Except.ok.injEq] at h
            obtain ⟨rfl, rfl⟩ := h
            exfalso
            obtain ⟨xs, t, -, -, -, hcase⟩ := body_error_token L _ _ _ hbody
            rcases hcase with ⟨-, hS⟩ | ⟨-, -, hS⟩
            · have := congrArg List.head? hS
              simp at this
            · have := congrArg List.head? hS
              simp at this
          · exact ih _ _ h
        · split at h
          · rename_i hge
            simp only [Option.some.injEq, Prod.mk.injEq, and_true] at h
            subst h
            exact ⟨hge, s, hs⟩
          · simp at h

/-- C19, as amended: let no registered instruction write the step counter or
the Options (the integer instructions do not), and let the exec stack be
registered. A call of `runCode` leaves the step counter at its start value
plus the number of items that line 156 has popped from the exec stack and that
were program trees, so never lower. That number is the number of all the items
line 156 has popped, unless the call ended on the failed type assertion of
that line: then one item more was popped than counted, and the call returns
the runtime error of the assertion. The call leaves the Options as they were
and never raises the counter above `EvalPushLimit` when it started at or below
it. When the call returns the `EvalPushLimit` error, the counter it leaves has
reached the limit. On any state whose counter has reached the limit, a call of
`runCode` pops nothing, returns the `EvalPushLimit` error, and leaves the
state as it was but for its program on top of the exec stack, so the same
holds for every call after it. -/
theorem step_counter_persists (L : Lib) (program later : Code) (i r j : Interpreter)
    (ret : Returned) (ex jex : List Value) (fuel fuel2 : Nat)
    (hL : L.KeepsCounter)
    (hexec : i.Stacks Key.exec = some ⟨ex⟩)
    (hrun : runCode L fuel program i = some (r, ret))
    (hjexec : j.Stacks Key.exec = some ⟨jex⟩)
    (hj : j.numEvalPush ≥ j.Options.EvalPushLimit) :
    (∃ out k t,
      runCode.loopCount L fuel (i.setStack Key.exec ⟨ex ++ [.code program]⟩)
        = some ((r, out), k, t)
      ∧ r.numEvalPush = i.numEvalPush + t
      ∧ (k = t ∨ (k = t + 1 ∧ ∃ v, (∀ c, v ≠ Value.code c)
          ∧ ret = recovered (interfaceConversion v "gopush.Code".toList))))
    ∧ i.numEvalPush ≤ r.numEvalPush
    ∧ r.Options = i.Options
    ∧ (i.numEvalPush ≤ i.Options.EvalPushLimit → r.numEvalPush ≤ i.Options.EvalPushLimit)
    ∧ (ret = .err (.errorString "the EvalPushLimit was exceeded".toList) →
        r.numEvalPush ≥ r.Options.EvalPushLimit ∧ ∃ s, r.Stacks Key.exec = some s)
    ∧ runCode L (fuel2 + 1) later j
        = some (j.setStack Key.exec ⟨jex ++ [.code later]⟩,
            .err (.errorString "the EvalPushLimit was exceeded".toList))
    ∧ runCode.loopCount L (fuel2 + 1) (j.setStack Key.exec ⟨jex ++ [.code later]⟩)
        = some ((j.setStack Key.exec ⟨jex ++ [.code later]⟩,
            .ok (some "the EvalPushLimit was exceeded".toList)), 0, 0)
    ∧ (∀ n, n ≠ Key.exec →
        (j.setStack Key.exec ⟨jex ++ [.code later]⟩).Stacks n = j.Stacks n)
    ∧ (j.setStack Key.exec ⟨jex ++ [.code later]⟩).Definitions = j.Definitions
    ∧ (j.setStack Key.exec ⟨jex ++ [.code later]⟩).numEvalPush
        ≥ (j.setStack Key.exec ⟨jex ++ [.code later]⟩).Options.EvalPushLimit := by
  have hfst := loopCount_fst L fuel (i.setStack Key.exec ⟨ex ++ [.code program]⟩)
  rw [runCode_push L fuel program i ex hexec] at hrun
  have hcount : ∃ out k t,
      runCode.loopCount L fuel (i.setStack Key.exec ⟨ex ++ [.code program]⟩)
        = some ((r, out), k, t)
      ∧ runCode.loop L fuel (i.setStack Key.exec ⟨ex ++ [.code program]⟩) = some (r, out) := by
    cases hc : runCode.loopCount L fuel (i.setStack Key.exec ⟨ex ++ [.code program]⟩) with
    | none =>
      rw [hc] at hfst
      rw [← hfst] at hrun
      simp at hrun
    | some rk =>
      obtain ⟨⟨r1, out⟩, k, t⟩ := rk
      rw [hc] at hfst
      simp only [Option.map_some'] at hfst
      rw [← hfst] at hrun
      have hr : r1 = r := by
        cases out with
        | error p => simp only [Option.some.injEq, Prod.mk.injEq] at hrun; exact hrun.1
        | ok e =>
          cases e with
          | none => simp only [Option.some.injEq, Prod.mk.injEq] at hrun; exact hrun.1
          | some e => simp only [Option.some.injEq, Prod.mk.injEq] at hrun; exact hrun.1
      subst hr
      exact ⟨out, k, t, rfl, hfst.symm⟩
  obtain ⟨out, k, t, hc, hloop⟩ := hcount
  obtain ⟨ho, hk, hle⟩ := loopCount_counter L hL fuel _ r out k t hc
  have hjl := loopCount_at_limit L fuel2 (j.setStack Key.exec ⟨jex ++ [.code later]⟩) _
    (setStack_Stacks_same _ _ _) hj
  rw [hloop] at hrun
  refine ⟨⟨out, k, t, hc, hk, ?_⟩, ?_, ho, hle, ?_, ?_, hjl, ?_, rfl, hj⟩
  · rcases loopCount_tallies L fuel _ r out k t hc with h | ⟨h, v, hv, rfl⟩
    · exact Or.inl h
    · simp only [Option.some.injEq, Prod.mk.injEq, true_and] at hrun
      exact Or.inr ⟨h, v, hv, hrun.symm⟩
  · rw [hk]
    show i.numEvalPush ≤ i.numEvalPush + (t : Int)
    omega
  · intro hret
    cases out with
    | error p =>
      simp only [Option.some.injEq, Prod.mk.injEq, true_and] at hrun
      rw [hret] at hrun
      cases p <;> simp [recovered] at hrun
    | ok e =>
      cases e with
      | none =>
        simp only [Option.some.injEq, Prod.mk.injEq, true_and] at hrun
        rw [hret] at hrun
        cases hrun
      | some e =>
        simp only [Option.some.injEq, Prod.mk.injEq, true_and] at hrun
        rw [hret] at hrun
        simp only [Returned.err.injEq, GoError.errorString.injEq] at hrun
        subst hrun
        exact loop_limit_error L fuel _ r hloop
  · have hl := loopCount_fst L (fuel2 + 1) (j.setStack Key.exec ⟨jex ++ [.code later]⟩)
    rw [hjl] at hl
    rw [runCode_push L _ later j jex hjexec, ← hl]
    rfl
  · intro n hn
    exact setStack_Stacks_other _ _ hn

theorem integerOnly_keepsCounter : Lib.integerOnly.KeepsCounter := by
  intro s o f h
  cases h

theorem limitOne_run :
    runCode Lib.integerOnly 2 (Code.atom "1".toList) Interpreter.limitOne
      = some (Interpreter.limitOneDone,
          .err (.errorString "the EvalPushLimit was exceeded".toList)) := by
  have hl := loopCount_fst Lib.integerOnly 1 Interpreter.limitOneDone
  rw [loopCount_at_limit Lib.integerOnly 0 Interpreter.limitOneDone ⟨[]⟩ (by decide)
    (by decide)] at hl
  rw [runCode_push Lib.integerOnly 2 _ Interpreter.limitOne [] (by decide),
    loop_succ Lib.integerOnly 1 _ _ (setStack_Stacks_same _ _ _) (by simp) (by decide),
    body_int Lib.integerOnly _ [] [] (Code.atom "1".toList) 1 (by decide)
      (setStack_Stacks_same _ _ _) (by decide)]
  show (match runCode.loop Lib.integerOnly 1 Interpreter.limitOneDone with
    | none => none
    | some (i2, .error p) => some (i2, recovered p)
    | some (i2, .ok (some e)) => some (i2, .err (.errorString e))
    | some (i2, .ok none) => some (i2, .nil)) = _
  rw [← hl]
  rfl

theorem step_counter_persists_witness :
    runCode Lib.integerOnly 2 (Code.atom "1".toList) Interpreter.limitOne
        = some (Interpreter.limitOneDone,
            .err (.errorString "the EvalPushLimit was exceeded".toList))
    ∧ Interpreter.limitOne.numEvalPush ≤ Interpreter.limitOneDone.numEvalPush
    ∧ Interpreter.limitOneDone.numEvalPush ≥ Interpreter.limitOneDone.Options.EvalPushLimit
    ∧ runCode Lib.integerOnly (0 + 1) (Code.atom "2".toList) Interpreter.limitOneDone
        = some (Interpreter.limitOneDone.setStack Key.exec
              ⟨[] ++ [.code (Code.atom "2".toList)]⟩,
            .err (.errorString "the EvalPushLimit was exceeded".toList)) :=
  have h := step_counter_persists Lib.integerOnly (Code.atom "1".toList)
    (Code.atom "2".toList) Interpreter.limitOne Interpreter.limitOneDone
    Interpreter.limitOneDone _ [] [] 2 0 integerOnly_keepsCounter (by decide) limitOne_run
    (by decide) (by decide)
  ⟨limitOne_run, h.2.1, (h.2.2.2.2.1 rfl).1, h.2.2.2.2.2.1⟩

/-- C19, counterexample: on the interpreter of the default options whose exec
stack holds the integer `3`, `runCode` on the literal `1` pops two items from
the exec stack at line 156, the literal and the integer, and leaves the exec
stack empty; the second is no program tree, so the type assertion fails, the
call returns the runtime error, and the step counter has gone from `0` to
`1`, not to `2`. -/
theorem step_counter_skips_failed_assertion :
    (Interpreter.sampleExec [.int 3]).numEvalPush = 0
    ∧ (runCode Lib.integerOnly 3 (Code.atom "1".toList) (Interpreter.sampleExec [.int 3])).map
        (fun x => (x.1.numEvalPush, x.1.Stacks Key.exec, x.1.Stacks Key.integer, x.2))
      = some (1, some ⟨[]⟩, some ⟨[.int 1]⟩, .err (.runtime
          "interface conversion: interface \x7b\x7d is int64, not gopush.Code".toList))
    ∧ (runCode.loopCount Lib.integerOnly 3
          ((Interpreter.sampleExec [.int 3]).setStack Key.exec
            ⟨[.int 3, .code (Code.atom "1".toList)]⟩)).map Prod.snd
      = some (2, 1) := by
  refine ⟨by decide, by decide, by decide⟩

end GoPush
